import Mathlib

/-!
# MeshFix: non-manifold repair, self-intersection detectors, hole classifier

A shallow embedding of `src/MeshFix.cpp`.

* `std::vector` is a `List`; `size_t` and `int` indices and counters are `Nat` or `ℤ`
  without overflow, except the cell index returned by `gridcoord`, which is narrowed to
  the range of `int` as in the source.  A read outside a vector yields a default value
  and a write outside a vector changes nothing; with valid vertex indices neither
  happens.
* Coordinates (`double`) are exact rationals `ℚ`; the CGAL kernel predicates
  (`is_degenerate`, `do_intersect`) and `std::sqrt` are parameters of the
  functions that call them.  `exactDegenerate`, `exactIntersect` and `exactSqrt` are
  exact instances used to run the functions on concrete meshes.
* `std::unordered_map` is an association list in insertion order.  The tables are
  only iterated to set flags to "removed", so the iteration order is not observable.
* MeshFix.h is not among the sources.  `Triangle::GetEdge`, the functor `PairPred`
  (key equality of the edge table and edge comparison of the clustering test) and the
  key comparison of the grid table follow the spec; each of these definitions says so.
* The loop over the vertices (`#pragma omp parallel for`) is run in index order; its
  body reads only the triangles and the neighbourhood lists and writes only `false`.
* The `do ... while` worklist of the clustering step is driven by a fuel counter and
  returns `none` when the fuel runs out; `growCluster_isSome` shows that the fuel
  supplied by `countClusters` always suffices.
* Only the verbose-mode counters `nb_nm_edges` and `nb_nm_vertices` are left out;
  they are written to `std::cout` and never read otherwise.
* Of `main`, the command-line loop (lines 422-469) and the choice of the hole-filling
  call (lines 547-580) are modelled; file input and output and the calls into the mesh
  kernel are not.
* `cellSizeChecked` makes the division of line 280 fallible, to state whether its
  divisor is zero; `RemoveSelfIntersection` itself uses the total division of `ℚ`.
-/

namespace MeshFix

/-! ## Data model (MeshFix.h) -/

/-- Point with three coordinates, `Point_3` of the CGAL kernel. -/
structure Point_3 where
  x : ℚ
  y : ℚ
  z : ℚ
deriving DecidableEq

/-- Triangle as an ordered triple of vertex indices, read in the source as
`f[0]`, `f[1]`, `f[2]`. -/
structure Triangle where
  v0 : Nat
  v1 : Nat
  v2 : Nat
deriving DecidableEq

/-- Index operator `f[i]` of `Triangle`. -/
def Triangle.idx (f : Triangle) (i : Nat) : Nat :=
  if i = 0 then f.v0 else if i = 1 then f.v1 else f.v2

/-- Modelled from the spec: `Triangle::GetEdge` is declared in MeshFix.h, which is not
among the sources.  Spec §3: a triangle "defines three directed edges (v0→v1),
(v1→v2), (v2→v0)". -/
def Triangle.GetEdge (f : Triangle) (i : Nat) : Nat × Nat :=
  (f.idx i, f.idx ((i + 1) % 3))

/-- Modelled from the spec: the functor `PairPred` is declared in MeshFix.h, which is
not among the sources.  Spec §4.2 step 5: two edges are "compared without regard to
direction".  The source uses this one functor twice: as the key equality of the edge
table (line 105) and in the clustering test (lines 212-214). -/
def PairPred (e0 e1 : Nat × Nat) : Bool :=
  (e0.1 == e1.1 && e0.2 == e1.2) || (e0.1 == e1.2 && e0.2 == e1.1)

/-- Record stored in the edge table: `Edge(a, b)` with its list `_faces`. -/
structure Edge where
  a : Nat
  b : Nat
  _faces : List Nat
deriving DecidableEq

/-- Edge table `std::unordered_map<std::pair<size_t, size_t>, Edge, PairHash, PairPred>`
as an association list in insertion order. -/
abbrev EdgeTable := List ((Nat × Nat) × Edge)

/-- Lookup `edges.find(k)`.  The key equality of the table is the functor `PairPred`
(line 105), so the entry found is the one whose stored key `PairPred` accepts; the
stored key keeps the direction in which the edge was first inserted.  The hasher
`PairHash` is declared in MeshFix.h, which is not among the sources: as the container
requires, it is taken to give equal keys equal hashes. -/
def EdgeTable.find : EdgeTable → Nat × Nat → Option Edge
  | [], _ => none
  | (k', e) :: rest, k => if PairPred k' k then some e else EdgeTable.find rest k

/-- Statement `edges[k]._faces.push_back(i)` for a key already in the table; the entry
is looked up with the key equality `PairPred`, as in `EdgeTable.find`. -/
def EdgeTable.pushFace : EdgeTable → Nat × Nat → Nat → EdgeTable
  | [], _, _ => []
  | (k', e) :: rest, k, i =>
    if PairPred k' k then (k', { e with _faces := e._faces ++ [i] }) :: rest
    else (k', e) :: EdgeTable.pushFace rest k i

/-- One of the three blocks of lines 109-140: look the edge `(a, b)` up, create its
entry under the key `(a, b)` when the lookup finds none, and append the face index
`i`. -/
def addEdge (edges : EdgeTable) (a b i : Nat) : EdgeTable :=
  match edges.find (a, b) with
  | none => EdgeTable.pushFace (edges ++ [((a, b), Edge.mk a b [])]) (a, b) i
  | some _ => EdgeTable.pushFace edges (a, b) i

/-- Loop of lines 106-141 from face index `i` on. -/
def buildEdgesFrom : Nat → List Triangle → EdgeTable → EdgeTable
  | _, [], edges => edges
  | i, f :: fs, edges =>
    buildEdgesFrom (i + 1) fs
      (addEdge (addEdge (addEdge edges f.v0 f.v1 i) f.v1 f.v2 i) f.v2 f.v0 i)

/-- Edge table built by lines 105-141. -/
def buildEdges (faces : List Triangle) : EdgeTable :=
  buildEdgesFrom 0 faces []

/-- Face list stored under a key (empty when the key is absent). -/
def faceList (edges : EdgeTable) (k : Nat × Nat) : List Nat :=
  match edges.find k with
  | none => []
  | some e => e._faces

/-- Vector `faceflags` of lines 99-103: every face paired with the flag "kept". -/
abbrev FaceFlags := List (Triangle × Bool)

/-- Lines 99-103. -/
def initFlags (faces : List Triangle) : FaceFlags :=
  faces.map (fun f => (f, true))

/-- Assignment `faceflags[hf].second = false`. -/
def markRemoved (ff : FaceFlags) (hf : Nat) : FaceFlags :=
  ff.modify (fun p => (p.1, false)) hf

/-- Read `faceflags[i].second` (false outside the vector). -/
def keptAt (ff : FaceFlags) (i : Nat) : Bool :=
  match ff[i]? with
  | some p => p.2
  | none => false

/-- Read `faceflags[i].first`. -/
def faceAt (ff : FaceFlags) (i : Nat) : Triangle :=
  match ff[i]? with
  | some p => p.1
  | none => ⟨0, 0, 0⟩

/-- Loop of lines 145-160 over the entries of the edge table; the state is
`(problematic_vertices, faceflags)`.  Line 152 and line 153 both push
`it->first.first`. -/
def markNonManifoldEdges : EdgeTable → List Nat × FaceFlags → List Nat × FaceFlags
  | [], st => st
  | (k, e) :: rest, (pv, ff) =>
    if e._faces.length ≤ 2 then markNonManifoldEdges rest (pv, ff)
    else markNonManifoldEdges rest (pv ++ [k.1, k.1], e._faces.foldl markRemoved ff)

/-- Statement `vneighbors[v].push_back(i)`. -/
def pushNeighbor (vn : List (List Nat)) (v i : Nat) : List (List Nat) :=
  vn.modify (fun l => l ++ [i]) v

/-- Loop of lines 164-172 from face index `i` on. -/
def buildVNeighborsFrom : Nat → FaceFlags → List (List Nat) → List (List Nat)
  | _, [], vn => vn
  | i, (f, flag) :: rest, vn =>
    if flag then
      buildVNeighborsFrom (i + 1) rest
        (pushNeighbor (pushNeighbor (pushNeighbor vn f.v0 i) f.v1 i) f.v2 i)
    else buildVNeighborsFrom (i + 1) rest vn

/-- Lines 162-172: `vneighbors` has one list per vertex. -/
def buildVNeighbors (nv : Nat) (ff : FaceFlags) : List (List Nat) :=
  buildVNeighborsFrom 0 ff (List.replicate nv [])

/-- Lines 174-180. -/
def markProblematic (vn : List (List Nat)) (pv : List Nat) (ff : FaceFlags) : FaceFlags :=
  pv.foldl (fun acc v => (vn.getD v []).foldl markRemoved acc) ff

/-- Condition of lines 212-214 on the edges `e0 e1 e2` of one triangle and `e3 e4 e5`
of another. -/
def sharesEdge (t t' : Triangle) : Bool :=
  PairPred (t.GetEdge 0) (t'.GetEdge 0) || PairPred (t.GetEdge 0) (t'.GetEdge 1) ||
  PairPred (t.GetEdge 0) (t'.GetEdge 2) ||
  PairPred (t.GetEdge 1) (t'.GetEdge 0) || PairPred (t.GetEdge 1) (t'.GetEdge 1) ||
  PairPred (t.GetEdge 1) (t'.GetEdge 2) ||
  PairPred (t.GetEdge 2) (t'.GetEdge 0) || PairPred (t.GetEdge 2) (t'.GetEdge 1) ||
  PairPred (t.GetEdge 2) (t'.GetEdge 2)

/-- Loop of lines 204-220 over the remaining indices `j`; `front` is `cluster.front()`,
which the loop does not change, and the state is `(sampled, cluster)`. -/
def scanNeighbors (ff : FaceFlags) (neighbors : List Nat) (front : Nat) :
    List Nat → List Nat × List Nat → List Nat × List Nat
  | [], st => st
  | j :: js, (sampled, cluster) =>
    if j ≠ front ∧ sampled.getD j 0 ≠ 1 then
      if sharesEdge (faceAt ff (neighbors.getD front 0)) (faceAt ff (neighbors.getD j 0)) then
        scanNeighbors ff neighbors front js (sampled.set j 1, cluster ++ [j])
      else scanNeighbors ff neighbors front js (sampled, cluster)
    else scanNeighbors ff neighbors front js (sampled, cluster)

/-- The `do ... while(!cluster.empty())` of lines 198-222, one iteration per unit of
fuel; `none` when the fuel runs out. -/
def growCluster (ff : FaceFlags) (neighbors : List Nat) :
    Nat → List Nat → List Nat → Option (List Nat)
  | 0, _, _ => none
  | _ + 1, _, [] => none
  | fuel + 1, sampled, front :: rest =>
    let st := scanNeighbors ff neighbors front (List.range neighbors.length)
      (sampled, front :: rest)
    match st.2.tail with
    | [] => some st.1
    | c :: cs => growCluster ff neighbors fuel st.1 (c :: cs)

/-- Loop of lines 191-224 over the remaining indices `i`; the state is
`(sampled, nb_cluster)`. -/
def countClusters (ff : FaceFlags) (neighbors : List Nat) :
    List Nat → List Nat × Nat → Option (List Nat × Nat)
  | [], st => some st
  | i :: is, (sampled, nb_cluster) =>
    if sampled.getD i 0 = 1 then countClusters ff neighbors is (sampled, nb_cluster)
    else
      match growCluster ff neighbors neighbors.length (sampled.set i 1) [i] with
      | none => none
      | some sampled' => countClusters ff neighbors is (sampled', nb_cluster + 1)

/-- Value of `nb_cluster` at line 226 for one vertex. -/
def nbCluster (ff : FaceFlags) (neighbors : List Nat) : Option Nat :=
  (countClusters ff neighbors (List.range neighbors.length)
    (List.replicate neighbors.length 0, 0)).map (fun st => st.2)

/-- Loop of lines 184-234 over the vertices, in index order. -/
def markNonManifoldVertices : List (List Nat) → FaceFlags → Option FaceFlags
  | [], ff => some ff
  | neighbors :: rest, ff =>
    match nbCluster ff neighbors with
    | none => none
    | some nb =>
      if nb > 1 then markNonManifoldVertices rest (neighbors.foldl markRemoved ff)
      else markNonManifoldVertices rest ff

/-- Lines 236-243. -/
def resultFaces (ff : FaceFlags) : List Triangle :=
  (ff.filter (fun p => p.2)).map (fun p => p.1)

/-- Flags after the non-manifold-edge pass and the problematic-vertex pass
(lines 99-180), together with `vneighbors`. -/
def edgeStage (nv : Nat) (faces : List Triangle) : List (List Nat) × FaceFlags :=
  let st := markNonManifoldEdges (buildEdges faces) ([], initFlags faces)
  let vn := buildVNeighbors nv st.2
  (vn, markProblematic vn st.1 st.2)

/-- Function `RemoveNonManifold` (lines 97-251); of `vertices` only the size is used. -/
def RemoveNonManifold (vertices : List Point_3) (faces : List Triangle) :
    Option (List Triangle) :=
  let st := edgeStage vertices.length faces
  (markNonManifoldVertices st.1 st.2).map resultFaces

/-- Every index of every triangle is smaller than the vertex count. -/
def ValidIdx (nv : Nat) (faces : List Triangle) : Prop :=
  ∀ f ∈ faces, f.v0 < nv ∧ f.v1 < nv ∧ f.v2 < nv

instance (nv : Nat) (faces : List Triangle) : Decidable (ValidIdx nv faces) := by
  unfold ValidIdx; infer_instance

/-- Test whether `(a, b)` is one of the directed edges `v0→v1`, `v1→v2`, `v2→v0`. -/
def hasDirectedEdge (a b : Nat) (f : Triangle) : Bool :=
  (f.v0 == a && f.v1 == b) || (f.v1 == a && f.v2 == b) || (f.v2 == a && f.v0 == b)


/-- Test whether one of the three sides of the triangle joins `a` and `b`, in either
direction. -/
def hasEdge (a b : Nat) (f : Triangle) : Bool :=
  hasDirectedEdge a b f || hasDirectedEdge b a f

/-! ## Auxiliary notions used by the statements -/

/-- Number of sides of the faces that join `a` and `b`, in either direction; every side
of every face counts once. -/
def sideCount (a b : Nat) (faces : List Triangle) : Nat :=
  (faces.map (fun f => ([f.GetEdge 0, f.GetEdge 1, f.GetEdge 2].filter
    (fun s => decide (s = (a, b) ∨ s = (b, a)))).length)).sum

/-- No two keys of the edge table are equal under `PairPred`. -/
def DistinctKeys (edges : EdgeTable) : Prop :=
  (edges.map Prod.fst).Pairwise (fun k k' => PairPred k k' = false)

/-- The flags `ff'` come from `ff` by removals only: same triangles, and whatever is
still kept in `ff'` was kept in `ff`. -/
def Shrinks (ff ff' : FaceFlags) : Prop :=
  ff'.map Prod.fst = ff.map Prod.fst ∧ ∀ i, keptAt ff' i = true → keptAt ff i = true

/-- Indices of the faces of `fs` (numbered from `s`) that have a side equal to the edge
`e` under `PairPred`, once per such side of each face, in increasing order. -/
def incidences : Nat → List Triangle → Nat × Nat → List Nat
  | _, [], _ => []
  | s, f :: fs, e =>
    (if PairPred (f.v0, f.v1) e then [s] else []) ++
      (if PairPred (f.v1, f.v2) e then [s] else []) ++
      (if PairPred (f.v2, f.v0) e then [s] else []) ++ incidences (s + 1) fs e

/-- Number of entries of `sampled` that are not yet `1`. -/
def unsampled (sampled : List Nat) : Nat :=
  (sampled.filter (fun s => s != 1)).length

/-! ## Geometry (CGAL kernel objects) -/

/-- Triangle in space, `CGAL::Triangle_3<KernelEpick>`. -/
structure Triangle_3 where
  p0 : Point_3
  p1 : Point_3
  p2 : Point_3
deriving DecidableEq

/-- Axis-aligned box, `CGAL::Bbox_3`. -/
structure Bbox_3 where
  xmin : ℚ
  ymin : ℚ
  zmin : ℚ
  xmax : ℚ
  ymax : ℚ
  zmax : ℚ
deriving DecidableEq

/-- Box of a single point, `p.bbox()`. -/
def Point_3.bbox (p : Point_3) : Bbox_3 :=
  ⟨p.x, p.y, p.z, p.x, p.y, p.z⟩

/-- Operator `+=` of `Bbox_3` applied to the box of a point. -/
def Bbox_3.addPoint (b : Bbox_3) (p : Point_3) : Bbox_3 :=
  ⟨min b.xmin p.x, min b.ymin p.y, min b.zmin p.z, max b.xmax p.x, max b.ymax p.y, max b.zmax p.z⟩

/-- Box of a triangle, `t.bbox()`. -/
def Triangle_3.bbox (t : Triangle_3) : Bbox_3 :=
  (t.p0.bbox.addPoint t.p1).addPoint t.p2

/-- Read `vertices[i]`. -/
def vertexAt (vertices : List Point_3) (i : Nat) : Point_3 :=
  vertices.getD i ⟨0, 0, 0⟩

/-- Read `faces[i]`. -/
def faceOf (faces : List Triangle) (i : Nat) : Triangle :=
  faces.getD i ⟨0, 0, 0⟩

/-- Triangle `CGAL::Triangle_3<KernelEpick>(vertices[f[0]], vertices[f[1]], vertices[f[2]])`. -/
def triangleOf (vertices : List Point_3) (f : Triangle) : Triangle_3 :=
  ⟨vertexAt vertices f.v0, vertexAt vertices f.v1, vertexAt vertices f.v2⟩

/-- Squared distance of two points, `CGAL::squared_distance`. -/
def squared_distance (p q : Point_3) : ℚ :=
  (p.x - q.x) ^ 2 + (p.y - q.y) ^ 2 + (p.z - q.z) ^ 2

/-! ## Hole classifier -/

/-- Operator `+=` on `hole_bbox`, which starts as the empty box `CGAL::Bbox_3()`
(`none`). -/
def growBbox (hole_bbox : Option Bbox_3) (p : Point_3) : Bbox_3 :=
  match hole_bbox with
  | none => p.bbox
  | some b => b.addPoint p

/-- Loop of lines 257-267 over the remaining vertices of the boundary loop, from the
state `(num_hole_edges, hole_bbox)`; returns the answer and the final value of
`num_hole_edges`, which is the number of loop vertices visited. -/
def IsSmallHoleLoop (max_num_hole_edges : ℤ) (max_hole_diam : ℚ) :
    List Point_3 → ℤ → Option Bbox_3 → Bool × ℤ
  | [], num_hole_edges, _ => (true, num_hole_edges)
  | p :: rest, num_hole_edges, hole_bbox =>
    let bb := growBbox hole_bbox p
    let n := num_hole_edges + 1
    if n > max_num_hole_edges then (false, n)
    else if bb.xmax - bb.xmin > max_hole_diam then (false, n)
    else if bb.ymax - bb.ymin > max_hole_diam then (false, n)
    else if bb.zmax - bb.zmin > max_hole_diam then (false, n)
    else IsSmallHoleLoop max_num_hole_edges max_hole_diam rest n (some bb)

/-- Function `IsSmallHole` (lines 253-269).  The list holds the points
`hc->vertex()->point()` of the halfedges around the hole, in traversal order. -/
def IsSmallHole (loop : List Point_3) (max_num_hole_edges : ℤ) (max_hole_diam : ℚ) : Bool :=
  (IsSmallHoleLoop max_num_hole_edges max_hole_diam loop 0 none).1

/-- Number of loop vertices `IsSmallHole` has visited when it returns. -/
def IsSmallHoleVisited (loop : List Point_3) (max_num_hole_edges : ℤ) (max_hole_diam : ℚ) :
    ℤ :=
  (IsSmallHoleLoop max_num_hole_edges max_hole_diam loop 0 none).2

/-- Bounding box of all the vertices of the loop `p :: rest`. -/
def loopBbox (p : Point_3) (rest : List Point_3) : Bbox_3 :=
  rest.foldl Bbox_3.addPoint p.bbox

/-! ## Self-intersection detectors -/

/-- Lines 273-280: the cell size `dx`; `sqrt` stands for `std::sqrt`. -/
def cellSize (sqrt : ℚ → ℚ) (vertices : List Point_3) (faces : List Triangle) : ℚ :=
  (faces.foldl (fun dx f =>
      dx + sqrt (squared_distance (vertexAt vertices f.v0) (vertexAt vertices f.v1))
        + sqrt (squared_distance (vertexAt vertices f.v1) (vertexAt vertices f.v2))
        + sqrt (squared_distance (vertexAt vertices f.v2) (vertexAt vertices f.v0))) 0)
    / 3 / faces.length * 2

/-- Conversion of the `long` value returned by `std::lround` to the return type `int`
of `gridcoord`: the value modulo `2^32` that lies in the range of `int`. -/
def narrowToInt (z : ℤ) : ℤ :=
  (z + 2147483648) % 4294967296 - 2147483648

/-- Lambda `gridcoord` of line 284: `std::floor(p / dx)`, turned into a `long` by
`std::lround` and returned as an `int`.  For a quotient outside the range of `long`
the language leaves the value of `std::lround` open; the statements below that hold for
every mesh assume quotients in the range of `int`. -/
def gridcoord (dx : ℚ) (p : ℚ) : ℤ :=
  narrowToInt ⌊p / dx⌋

/-- Key of a grid cell, `GridPos`. -/
abbrev GridPos := ℤ × ℤ × ℤ

/-- Grid table `std::unordered_map<GridPos, std::vector<int>, GridHash, GridPred>` as an
association list. -/
abbrev GridTable := List (GridPos × List Nat)

/-- Modelled from the spec: `GridHash` and `GridPred` are declared in MeshFix.h, which
is not among the sources.  Spec §3: the key is the "integer triple (i, j, k)".  This is
`table.find(k)`. -/
def GridTable.find : GridTable → GridPos → Option (List Nat)
  | [], _ => none
  | (k', l) :: rest, k => if k' = k then some l else GridTable.find rest k

/-- Statement `table[k].push_back(id)`, which creates the entry when it is absent. -/
def GridTable.push : GridTable → GridPos → Nat → GridTable
  | [], k, id => [(k, [id])]
  | (k', l) :: rest, k, id =>
    if k' = k then (k', l ++ [id]) :: rest else (k', l) :: GridTable.push rest k id

/-- Values of a loop `for(int i = lo; i <= hi; i++)` whose upper end `hi` is smaller
than the largest `int`; at the largest `int` the increment of the counter would
overflow. -/
def intRange (lo hi : ℤ) : List ℤ :=
  (List.range (hi + 1 - lo).toNat).map (fun n => lo + (n : ℤ))

/-- Cells visited by the three nested loops of lines 299-308 and 329-342. -/
def cellsOf (dx : ℚ) (aabb : Bbox_3) : List GridPos :=
  (intRange (gridcoord dx aabb.xmin) (gridcoord dx aabb.xmax)).flatMap fun i =>
    (intRange (gridcoord dx aabb.ymin) (gridcoord dx aabb.ymax)).flatMap fun j =>
      (intRange (gridcoord dx aabb.zmin) (gridcoord dx aabb.zmax)).map fun k => (i, j, k)

/-- Lambda `insert` of lines 285-309. -/
def insert (dx : ℚ) (vertices : List Point_3) (faces : List Triangle)
    (table : GridTable) (id : Nat) : GridTable :=
  (cellsOf dx (triangleOf vertices (faceOf faces id)).bbox).foldl
    (fun tb c => GridTable.push tb c id) table

/-- Loop of lines 343-358 over the remaining candidates. -/
def checkCandidates (is_degenerate : Triangle_3 → Bool)
    (do_intersect : Triangle_3 → Triangle_3 → Bool)
    (vertices : List Point_3) (faces : List Triangle) (id : Nat) (t : Triangle_3) :
    List Nat → List Nat → List Nat
  | [], face_flags => face_flags
  | j :: js, face_flags =>
    if is_degenerate (triangleOf vertices (faceOf faces j)) then
      checkCandidates is_degenerate do_intersect vertices faces id t js (face_flags.set j 1)
    else if do_intersect (triangleOf vertices (faceOf faces j)) t then
      (face_flags.set id 1).set j 1
    else checkCandidates is_degenerate do_intersect vertices faces id t js face_flags

/-- Candidates gathered by lines 328-342. -/
def facesToCheck (dx : ℚ) (table : GridTable) (aabb : Bbox_3) : List Nat :=
  (cellsOf dx aabb).flatMap fun c =>
    match table.find c with
    | some l => l
    | none => []

/-- Lambda `check` of lines 310-359. -/
def check (dx : ℚ) (is_degenerate : Triangle_3 → Bool)
    (do_intersect : Triangle_3 → Triangle_3 → Bool)
    (vertices : List Point_3) (faces : List Triangle) (table : GridTable)
    (face_flags : List Nat) (id : Nat) : List Nat :=
  if face_flags.getD id 0 = 1 then face_flags
  else if is_degenerate (triangleOf vertices (faceOf faces id)) then face_flags.set id 1
  else
    checkCandidates is_degenerate do_intersect vertices faces id
      (triangleOf vertices (faceOf faces id))
      (facesToCheck dx table (triangleOf vertices (faceOf faces id)).bbox) face_flags

/-- Lines 281-380 of `RemoveSelfIntersection` for a given cell size `dx`. -/
def RemoveSelfIntersectionGrid (dx : ℚ) (is_degenerate : Triangle_3 → Bool)
    (do_intersect : Triangle_3 → Triangle_3 → Bool)
    (vertices : List Point_3) (faces : List Triangle) : List Triangle :=
  let table := (List.range faces.length).foldl (insert dx vertices faces) []
  let face_flags := (List.range faces.length).foldl
    (check dx is_degenerate do_intersect vertices faces table) (List.replicate faces.length 0)
  ((List.range faces.length).filter (fun i => face_flags.getD i 0 = 0)).map (faceOf faces)

/-- Function `RemoveSelfIntersection` (lines 271-380).  The parameters `sqrt`,
`is_degenerate` and `do_intersect` stand for `std::sqrt`, `Triangle_3::is_degenerate`
and `CGAL::do_intersect`. -/
def RemoveSelfIntersection (sqrt : ℚ → ℚ) (is_degenerate : Triangle_3 → Bool)
    (do_intersect : Triangle_3 → Triangle_3 → Bool)
    (vertices : List Point_3) (faces : List Triangle) : List Triangle :=
  RemoveSelfIntersectionGrid (cellSize sqrt vertices faces) is_degenerate do_intersect
    vertices faces

/-- Inner loop of lines 390-399: does `faces[i]` intersect some `faces[j]`, `j > i`? -/
def intersectsLater (do_intersect : Triangle_3 → Triangle_3 → Bool)
    (vertices : List Point_3) (faces : List Triangle) (i : Nat) : Bool :=
  (List.range' (i + 1) (faces.length - (i + 1))).any fun j =>
    do_intersect (triangleOf vertices (faceOf faces i)) (triangleOf vertices (faceOf faces j))

/-- Function `RemoveSelfIntersectionBruteforce` (lines 382-407). -/
def RemoveSelfIntersectionBruteforce (do_intersect : Triangle_3 → Triangle_3 → Bool)
    (vertices : List Point_3) (faces : List Triangle) : List Triangle :=
  ((List.range faces.length).filter
    (fun i => !intersectsLater do_intersect vertices faces i)).map (faceOf faces)

/-! ## Exact reference instances of the kernel predicates -/

/-- Difference of two points as a vector. -/
def vsub (p q : Point_3) : Point_3 := ⟨p.x - q.x, p.y - q.y, p.z - q.z⟩

/-- Cross product. -/
def cross (u v : Point_3) : Point_3 :=
  ⟨u.y * v.z - u.z * v.y, u.z * v.x - u.x * v.z, u.x * v.y - u.y * v.x⟩

/-- Dot product. -/
def dot (u v : Point_3) : ℚ := u.x * v.x + u.y * v.y + u.z * v.z

/-- Exact degeneracy test: the three corners are collinear. -/
def exactDegenerate (t : Triangle_3) : Bool :=
  cross (vsub t.p1 t.p0) (vsub t.p2 t.p0) = ⟨0, 0, 0⟩

/-- Direction `d` separates the two triangles strictly. -/
def separates (d : Point_3) (s t : Triangle_3) : Bool :=
  max (max (dot d s.p0) (dot d s.p1)) (dot d s.p2) <
      min (min (dot d t.p0) (dot d t.p1)) (dot d t.p2) ||
  max (max (dot d t.p0) (dot d t.p1)) (dot d t.p2) <
      min (min (dot d s.p0) (dot d s.p1)) (dot d s.p2)

/-- Edge vectors of a triangle. -/
def edgeVectors (t : Triangle_3) : List Point_3 :=
  [vsub t.p1 t.p0, vsub t.p2 t.p1, vsub t.p0 t.p2]

/-- Plane normal of a triangle. -/
def normal (t : Triangle_3) : Point_3 := cross (vsub t.p1 t.p0) (vsub t.p2 t.p0)

/-- Candidate separating directions of two triangles: the two plane normals, the cross
products of an edge of one with an edge of the other, and the in-plane edge normals. -/
def separatingAxes (s t : Triangle_3) : List Point_3 :=
  [normal s, normal t] ++
  ((edgeVectors s).flatMap fun e => (edgeVectors t).map fun e' => cross e e') ++
  (edgeVectors s).map (fun e => cross (normal s) e) ++
  (edgeVectors t).map (fun e => cross (normal t) e)

/-- Exact intersection test of two closed non-degenerate triangles by separating axes:
they meet exactly when no candidate direction separates them. -/
def exactIntersect (s t : Triangle_3) : Bool :=
  (separatingAxes s t).all fun d => !separates d s t

/-- Square root of a rational rounded down to a multiple of the inverse of its
denominator; exact on squares of rationals. -/
def exactSqrt (q : ℚ) : ℚ :=
  (Nat.sqrt (q.num.toNat * q.den) : ℚ) / q.den

/-! ## Example meshes -/

/-- An open fan of four faces around vertex 0, plus a fifth face that touches the fan
only at vertex 3. -/
def bowtieFan : List Triangle :=
  [⟨0, 1, 2⟩, ⟨0, 2, 3⟩, ⟨0, 3, 4⟩, ⟨0, 4, 5⟩, ⟨3, 6, 7⟩]

/-- Eight vertices for `bowtieFan`. -/
def bowtieVertices : List Point_3 :=
  [⟨0, 0, 0⟩, ⟨2, -1, 0⟩, ⟨2, 0, 0⟩, ⟨2, 1, 0⟩, ⟨1, 2, 0⟩, ⟨0, 2, 0⟩, ⟨3, 1, 1⟩, ⟨3, 2, 1⟩]

/-- Corners of a tetrahedron. -/
def tetraVertices : List Point_3 :=
  [⟨0, 0, 0⟩, ⟨1, 0, 0⟩, ⟨0, 1, 0⟩, ⟨0, 0, 1⟩]

/-- The four consistently oriented faces of the tetrahedron followed by a second copy
of the first face. -/
def tetraDup : List Triangle :=
  [⟨0, 1, 2⟩, ⟨0, 3, 1⟩, ⟨1, 3, 2⟩, ⟨2, 3, 0⟩, ⟨0, 1, 2⟩]

/-- Two right triangles with sides 3, 4, 5 in the parallel planes `z = 0` and `z = 10`. -/
def apartVertices : List Point_3 :=
  [⟨0, 0, 0⟩, ⟨3, 0, 0⟩, ⟨0, 4, 0⟩, ⟨0, 0, 10⟩, ⟨3, 0, 10⟩, ⟨0, 4, 10⟩]

/-- Faces of the two triangles of `apartVertices` and of `crossVertices`. -/
def twoFaces : List Triangle :=
  [⟨0, 1, 2⟩, ⟨3, 4, 5⟩]

/-- Two right triangles with sides 3, 4, 5 that cross: the first lies in the plane
`z = 0`, the second in the plane `x = 1`, and the second pierces the first along the
segment from `(1, 1, 0)` to `(1, 5/2, 0)`, which is interior to the first. -/
def crossVertices : List Point_3 :=
  [⟨0, 0, 0⟩, ⟨3, 0, 0⟩, ⟨0, 4, 0⟩, ⟨1, 1, -2⟩, ⟨1, 1, 2⟩, ⟨1, 4, -2⟩]

/-- Boundary of the unit square in the plane `z = 0`. -/
def squareLoop : List Point_3 :=
  [⟨0, 0, 0⟩, ⟨1, 0, 0⟩, ⟨1, 1, 0⟩, ⟨0, 1, 0⟩]

/-- Bounding box of all the vertices of a boundary loop (of its first vertex onwards;
a placeholder box for the empty list, which is not a loop). -/
def hullBbox : List Point_3 → Bbox_3
  | [] => ⟨0, 0, 0, 0, 0, 0⟩
  | p :: rest => loopBbox p rest

/-- All three axis extents (max minus min) of the box are at most `d`. -/
def Bbox_3.fits (b : Bbox_3) (d : ℚ) : Prop :=
  b.xmax - b.xmin ≤ d ∧ b.ymax - b.ymin ≤ d ∧ b.zmax - b.zmin ≤ d

/-! ## Notions used to state the manifold properties -/

/-- Vertex `v` is a corner of the triangle. -/
def incident (v : Nat) (f : Triangle) : Bool :=
  f.v0 == v || f.v1 == v || f.v2 == v

/-- One link of a chain around the vertex `v` inside the face list `fs`: both faces are
in `fs`, both are incident to `v`, and they share an unordered edge. -/
def ChainStep (fs : List Triangle) (v : Nat) (s t : Triangle) : Prop :=
  s ∈ fs ∧ t ∈ fs ∧ incident v s = true ∧ incident v t = true ∧ sharesEdge s t = true

/-- Any two faces of `out` incident to `v` are linked by a chain of faces of `fs`
incident to `v` in which consecutive faces share an unordered edge. -/
def SingleCluster (fs out : List Triangle) (v : Nat) : Prop :=
  ∀ s ∈ out, ∀ t ∈ out, incident v s = true → incident v t = true →
    Relation.ReflTransGen (ChainStep fs v) s t

/-- Faces that are still kept after the non-manifold-edge pass (lines 143-160). -/
def edgePassFaces (faces : List Triangle) : List Triangle :=
  resultFaces (markNonManifoldEdges (buildEdges faces) ([], initFlags faces)).2

/-- Three faces on the edge joining the vertices 0 and 1; the second one runs along it
in the reverse direction. -/
def flippedFan : List Triangle :=
  [⟨0, 1, 2⟩, ⟨1, 0, 3⟩, ⟨0, 1, 4⟩]

/-- The four consistently oriented faces of the tetrahedron on `tetraVertices`. -/
def tetraFaces : List Triangle :=
  [⟨0, 1, 2⟩, ⟨0, 3, 1⟩, ⟨1, 3, 2⟩, ⟨2, 3, 0⟩]

/-- Entries `p` and `q` of a neighbourhood list are adjacent: their triangles share an
edge, compared without regard to direction (the test of lines 212-214). -/
def AdjPos (ff : FaceFlags) (neighbors : List Nat) (p q : Nat) : Prop :=
  p < neighbors.length ∧ q < neighbors.length ∧
    sharesEdge (faceAt ff (neighbors.getD p 0)) (faceAt ff (neighbors.getD q 0)) = true

/-- Invariant of the cluster count: nothing is sampled before the first cluster, and
while there is one cluster every sampled entry is connected to its seed. -/
def ClusterInv (ff : FaceFlags) (neighbors : List Nat) (sampled : List Nat) (nb : Nat) :
    Prop :=
  (nb = 0 → ∀ p, sampled.getD p 0 ≠ 1) ∧
  (nb = 1 → ∃ root, ∀ p, sampled.getD p 0 = 1 →
    Relation.ReflTransGen (AdjPos ff neighbors) root p)

/-- Number of sides of the triangle that equal the edge `e` under `PairPred`. -/
def edgeCount (e : Nat × Nat) (f : Triangle) : Nat :=
  (if PairPred (f.v0, f.v1) e then 1 else 0) + (if PairPred (f.v1, f.v2) e then 1 else 0) +
    (if PairPred (f.v2, f.v0) e then 1 else 0)

/-- The sampled entries are closed under adjacency, except possibly for the entries
still waiting in the worklist. -/
def ClosedExcept (ff : FaceFlags) (neighbors : List Nat) (sampled cluster : List Nat) :
    Prop :=
  ∀ a b, AdjPos ff neighbors a b → sampled.getD a 0 = 1 → a ∉ cluster →
    sampled.getD b 0 = 1

/-! ## Command line and hole filling (function `main`) -/

/-- Variables set by the command-line loop of `main` (lines 427-434, and `gVerbose`). -/
structure Config where
  path : String
  output_path : String
  gVerbose : Bool
  keep_largest_connected_component : Bool
  fix_self_intersection : Bool
  filter_small_holes : Bool
  max_hole_edges : ℤ
  max_hole_diam : ℚ
  refine : Bool
deriving DecidableEq

/-- Initial values of lines 427-434: empty paths, all switches off, and the largest
`int` and `float` as thresholds. -/
def initialConfig : Config :=
  { path := "", output_path := "", gVerbose := false,
    keep_largest_connected_component := false, fix_self_intersection := false,
    filter_small_holes := false, max_hole_edges := 2147483647,
    max_hole_diam := 340282346638528859811704183484516925440, refine := false }

/-- Read `argv[i]` (the empty string outside the array). -/
def argAt (argv : List String) (i : Nat) : String :=
  argv.getD i ""

/-- Body of the loop of lines 436-464 for one index `i`; `atoi` and `atof` stand for
`std::atoi` and `std::atof`. -/
def parseArg (atoi : String → ℤ) (atof : String → ℚ) (argv : List String) (cfg : Config)
    (i : Nat) : Config :=
  if argAt argv i = "-i" then { cfg with path := argAt argv (i + 1) }
  else if argAt argv i = "-o" then { cfg with output_path := argAt argv (i + 1) }
  else if argAt argv i = "-v" then { cfg with gVerbose := true }
  else if argAt argv i = "-k" then { cfg with keep_largest_connected_component := true }
  else if argAt argv i = "-s" then { cfg with fix_self_intersection := true }
  else if argAt argv i = "-f" then
    { cfg with filter_small_holes := true, max_hole_edges := atoi (argAt argv (i + 1)),
               max_hole_diam := atof (argAt argv (i + 2)) }
  else cfg

/-- Loop of lines 436-464 over `i = 1 .. argc - 1`. -/
def parseArgs (atoi : String → ℤ) (atof : String → ℚ) (argv : List String) : Config :=
  (List.range' 1 (argv.length - 1)).foldl (parseArg atoi atof argv) initialConfig

/-- Lines 422-469 of `main`: `none` when `main` prints the usage text and returns -1
(fewer than two arguments, `-h` or `--help` first, or an empty input or output path),
otherwise the parsed variables. -/
def parsedConfig (atoi : String → ℤ) (atof : String → ℚ) (argv : List String) :
    Option Config :=
  if argv.length < 2 ∨ argAt argv 1 = "-h" ∨ argAt argv 1 = "--help" then none
  else if (parseArgs atoi atof argv).path = "" ∨ (parseArgs atoi atof argv).output_path = ""
  then none
  else some (parseArgs atoi atof argv)

/-- The two hole-filling calls of lines 553-578. -/
inductive HoleFill where
  | triangulate_hole
  | triangulate_and_refine_hole
deriving DecidableEq

/-- Body of the loop of lines 547-580 for one boundary loop; `isSmall` is the value of
`IsSmallHole(hh, m, max_hole_edges, max_hole_diam)`.  The result is the call that fills
the hole, or `none` when the hole is left open. -/
def fillHole (cfg : Config) (isSmall : Bool) : Option HoleFill :=
  if cfg.filter_small_holes then
    if isSmall then
      if cfg.refine then some HoleFill.triangulate_and_refine_hole
      else some HoleFill.triangulate_hole
    else none
  else
    if cfg.refine then some HoleFill.triangulate_and_refine_hole
    else some HoleFill.triangulate_hole

/-- Divisor `faces.size()` of the division of line 280. -/
def cellSizeDivisor (faces : List Triangle) : ℚ :=
  (faces.length : ℚ)

/-- Cell size of lines 273-280 with the division made fallible: `none` when the divisor
`faces.size()` is zero. -/
def cellSizeChecked (sqrt : ℚ → ℚ) (vertices : List Point_3) (faces : List Triangle) :
    Option ℚ :=
  if cellSizeDivisor faces = 0 then none else some (cellSize sqrt vertices faces)

/-- Three faces on the directed edge `(0, 1)` and a fourth face that touches the edge
only at its second endpoint 1. -/
def fanOnEdge : List Triangle :=
  [⟨0, 1, 2⟩, ⟨0, 1, 3⟩, ⟨0, 1, 4⟩, ⟨1, 5, 6⟩]

/-- Three faces on the directed edge `(0, 1)` and a fourth face that touches the edge
only at its first endpoint 0. -/
def fanOnEdgeFirst : List Triangle :=
  [⟨0, 1, 2⟩, ⟨0, 1, 3⟩, ⟨0, 1, 4⟩, ⟨0, 5, 6⟩]

/-- Seven vertices for `fanOnEdge` and `fanOnEdgeFirst`. -/
def sevenVertices : List Point_3 :=
  [⟨0, 0, 0⟩, ⟨1, 0, 0⟩, ⟨0, 1, 0⟩, ⟨0, 0, 1⟩, ⟨0, -1, 0⟩, ⟨2, 1, 0⟩, ⟨2, 0, 1⟩]

/-- Two triangles that share the vertex 0 and no edge. -/
def bowtie : List Triangle :=
  [⟨0, 1, 2⟩, ⟨0, 3, 4⟩]

/-- Five vertices for `bowtie`. -/
def bowtieFive : List Point_3 :=
  [⟨0, 0, 0⟩, ⟨1, 0, 0⟩, ⟨1, 1, 0⟩, ⟨-1, 0, 0⟩, ⟨-1, -1, 0⟩]

/-- Body of the loop of lines 184-234 for one vertex: the flags after the analysis of
the neighbourhood list `neighbors`. -/
def vertexStep (ff : FaceFlags) (neighbors : List Nat) : FaceFlags :=
  match nbCluster ff neighbors with
  | some nb => if nb > 1 then neighbors.foldl markRemoved ff else ff
  | none => ff

/-- Graph of the clustering step for one vertex: the nodes are the entries of the
neighbourhood list, and two different entries are adjacent when their triangles share
an edge compared without regard to direction. -/
def clusterGraph (ff : FaceFlags) (neighbors : List Nat) :
    SimpleGraph (Fin neighbors.length) :=
  SimpleGraph.fromRel fun p q =>
    sharesEdge (faceAt ff (neighbors.getD p.val 0)) (faceAt ff (neighbors.getD q.val 0)) = true

/-- Invariant of the cluster count with the seeds of the clusters found so far: the
seeds are sampled entries, every sampled entry is connected to a seed, the sampled
entries are closed under adjacency, and no two seeds are connected. -/
def SeedInv (ff : FaceFlags) (neighbors : List Nat) (sampled seeds : List Nat) : Prop :=
  (∀ r ∈ seeds, r < neighbors.length ∧ sampled.getD r 0 = 1) ∧
  (∀ p, sampled.getD p 0 = 1 → ∃ r ∈ seeds,
    Relation.ReflTransGen (AdjPos ff neighbors) r p) ∧
  ClosedExcept ff neighbors sampled [] ∧
  seeds.Pairwise (fun r r' => ¬ Relation.ReflTransGen (AdjPos ff neighbors) r r')

/-- List stored in a grid cell (empty when the cell has no entry). -/
def cellList (table : GridTable) (c : GridPos) : List Nat :=
  match table.find c with
  | some l => l
  | none => []

/-- Grid table after the loop of lines 361-364 has inserted every face. -/
def gridTable (dx : ℚ) (vertices : List Point_3) (faces : List Triangle) : GridTable :=
  (List.range faces.length).foldl (insert dx vertices faces) []

/-- Flags after the loop of lines 366-369 has checked every face. -/
def gridFlags (dx : ℚ) (is_degenerate : Triangle_3 → Bool)
    (do_intersect : Triangle_3 → Triangle_3 → Bool)
    (vertices : List Point_3) (faces : List Triangle) : List Nat :=
  (List.range faces.length).foldl
    (check dx is_degenerate do_intersect vertices faces (gridTable dx vertices faces))
    (List.replicate faces.length 0)

/-- The cell index of the coordinate `p` is an `int` below the largest one:
`floor(p / dx)` is at least `INT_MIN` and smaller than `INT_MAX`, so that `gridcoord`
returns it unchanged and a loop counter can step past it. -/
def CellInRange (dx p : ℚ) : Prop :=
  -2147483648 ≤ ⌊p / dx⌋ ∧ ⌊p / dx⌋ < 2147483647

instance (dx p : ℚ) : Decidable (CellInRange dx p) := by
  unfold CellInRange; infer_instance

/-- The cell indices of the six bounds of the box are `int`s below the largest one. -/
def Bbox_3.CellsInRange (bb : Bbox_3) (dx : ℚ) : Prop :=
  (CellInRange dx bb.xmin ∧ CellInRange dx bb.xmax) ∧
  (CellInRange dx bb.ymin ∧ CellInRange dx bb.ymax) ∧
  (CellInRange dx bb.zmin ∧ CellInRange dx bb.zmax)

instance (bb : Bbox_3) (dx : ℚ) : Decidable (bb.CellsInRange dx) := by
  unfold Bbox_3.CellsInRange; infer_instance

/-- A right triangle with sides 3, 4, 5 in the plane `z = 0`, far out on the x axis:
with the cell size 8 its x coordinates lie on both sides of the cell boundary
`8 * 2^31`. -/
def farVertices : List Point_3 :=
  [⟨17179869183, 0, 0⟩, ⟨17179869186, 0, 0⟩, ⟨17179869183, 4, 0⟩]

/-- The two boxes overlap on all three axes. -/
def BboxOverlap (A B : Bbox_3) : Prop :=
  (A.xmin ≤ B.xmax ∧ B.xmin ≤ A.xmax) ∧ (A.ymin ≤ B.ymax ∧ B.ymin ≤ A.ymax) ∧
    (A.zmin ≤ B.zmax ∧ B.zmin ≤ A.zmax)

instance (A B : Bbox_3) : Decidable (BboxOverlap A B) := by
  unfold BboxOverlap; infer_instance

/-- The point `p` lies in the closed triangle `t`: it is a convex combination of the
three corners. -/
def InTriangle (t : Triangle_3) (p : Point_3) : Prop :=
  ∃ u v w : ℚ, 0 ≤ u ∧ 0 ≤ v ∧ 0 ≤ w ∧ u + v + w = 1 ∧
    p.x = u * t.p0.x + v * t.p1.x + w * t.p2.x ∧
    p.y = u * t.p0.y + v * t.p1.y + w * t.p2.y ∧
    p.z = u * t.p0.z + v * t.p1.z + w * t.p2.z

/-! # Theorems -/

/-! ## Flags only ever go from kept to removed -/

theorem keptAt_markRemoved (ff : FaceFlags) (hf j : Nat) :
    keptAt (markRemoved ff hf) j = if hf = j then false else keptAt ff j := by
  unfold keptAt markRemoved
  rw [List.getElem?_modify]
  cases h : ff[j]? with
  | none => simp
  | some p => by_cases hj : hf = j <;> simp [hj]

theorem faceAt_markRemoved (ff : FaceFlags) (hf j : Nat) :
    faceAt (markRemoved ff hf) j = faceAt ff j := by
  unfold faceAt markRemoved
  rw [List.getElem?_modify]
  cases h : ff[j]? with
  | none => simp
  | some p => by_cases hj : hf = j <;> simp [hj]

theorem map_fst_markRemoved (ff : FaceFlags) (hf : Nat) :
    (markRemoved ff hf).map Prod.fst = ff.map Prod.fst := by
  apply List.ext_getElem?
  intro j
  unfold markRemoved
  rw [List.getElem?_map, List.getElem?_map, List.getElem?_modify]
  cases h : ff[j]? with
  | none => simp
  | some p => by_cases hj : hf = j <;> simp [hj]

theorem Shrinks.refl (ff : FaceFlags) : Shrinks ff ff := ⟨rfl, fun _ h => h⟩

theorem Shrinks.trans {a b c : FaceFlags} (h₁ : Shrinks a b) (h₂ : Shrinks b c) :
    Shrinks a c :=
  ⟨h₂.1.trans h₁.1, fun i h => h₁.2 i (h₂.2 i h)⟩

theorem shrinks_markRemoved (ff : FaceFlags) (hf : Nat) : Shrinks ff (markRemoved ff hf) := by
  refine ⟨map_fst_markRemoved ff hf, fun i h => ?_⟩
  rw [keptAt_markRemoved] at h
  by_cases hj : hf = i
  · simp [hj] at h
  · simpa [hj] using h

theorem shrinks_foldl_markRemoved (l : List Nat) (ff : FaceFlags) :
    Shrinks ff (l.foldl markRemoved ff) := by
  induction l generalizing ff with
  | nil => exact Shrinks.refl ff
  | cons hf l ih => exact (shrinks_markRemoved ff hf).trans (ih _)

theorem keptAt_foldl_markRemoved (l : List Nat) (ff : FaceFlags) (hf : Nat) (h : hf ∈ l) :
    keptAt (l.foldl markRemoved ff) hf = false := by
  induction l generalizing ff with
  | nil => cases h
  | cons x l ih =>
    rcases List.mem_cons.1 h with rfl | h'
    · cases hk : keptAt (List.foldl markRemoved ff (hf :: l)) hf with
      | false => rfl
      | true =>
        have := (shrinks_foldl_markRemoved l (markRemoved ff hf)).2 hf hk
        simp [keptAt_markRemoved] at this
    · exact ih _ h'

theorem faceAt_eq_of_map_fst {ff ff' : FaceFlags} (h : ff'.map Prod.fst = ff.map Prod.fst)
    (i : Nat) : faceAt ff' i = faceAt ff i := by
  have h1 : (ff'.map Prod.fst)[i]? = (ff.map Prod.fst)[i]? := by rw [h]
  rw [List.getElem?_map, List.getElem?_map] at h1
  unfold faceAt
  cases h2 : ff'[i]? <;> cases h3 : ff[i]? <;> simp_all

theorem Shrinks.faceAt {ff ff' : FaceFlags} (h : Shrinks ff ff') (i : Nat) :
    faceAt ff' i = faceAt ff i := faceAt_eq_of_map_fst h.1 i

theorem Shrinks.length {ff ff' : FaceFlags} (h : Shrinks ff ff') : ff'.length = ff.length := by
  simpa using congrArg List.length h.1

theorem map_fst_initFlags (faces : List Triangle) :
    (initFlags faces).map Prod.fst = faces := by
  simp [initFlags, Function.comp_def]

theorem resultFaces_sublist (ff : FaceFlags) : (resultFaces ff).Sublist (ff.map Prod.fst) := by
  unfold resultFaces
  exact (List.filter_sublist ff).map _

/-! ## The edge table -/

theorem PairPred_comm (e0 e1 : Nat × Nat) : PairPred e0 e1 = PairPred e1 e0 := by
  unfold PairPred
  rw [Bool.eq_iff_iff]
  simp only [Bool.or_eq_true, Bool.and_eq_true, beq_iff_eq]
  constructor <;> rintro (⟨h1, h2⟩ | ⟨h1, h2⟩) <;> simp [h1, h2]

theorem pairPred_iff (k k' : Nat × Nat) :
    PairPred k k' = true ↔ k = k' ∨ k = (k'.2, k'.1) := by
  obtain ⟨a, b⟩ := k
  obtain ⟨c, d⟩ := k'
  simp only [PairPred, Bool.or_eq_true, Bool.and_eq_true, beq_iff_eq, Prod.mk.injEq]

theorem pairPred_self (k : Nat × Nat) : PairPred k k = true :=
  (pairPred_iff k k).2 (Or.inl rfl)

theorem pairPred_swap (a b : Nat) : PairPred (a, b) (b, a) = true :=
  (pairPred_iff _ _).2 (Or.inr rfl)

/-- Keys that `PairPred` accepts as equal are accepted or rejected together against any
third key. -/
theorem pairPred_congr {k k' : Nat × Nat} (h : PairPred k k' = true) (e : Nat × Nat) :
    PairPred k e = PairPred k' e := by
  rw [pairPred_iff] at h
  rcases h with rfl | rfl
  · rfl
  · obtain ⟨a, b⟩ := k'
    obtain ⟨c, d⟩ := e
    rw [Bool.eq_iff_iff]
    simp only [PairPred, Bool.or_eq_true, Bool.and_eq_true, beq_iff_eq]
    tauto

theorem pairPred_congr_right {k k' : Nat × Nat} (h : PairPred k k' = true) (e : Nat × Nat) :
    PairPred e k = PairPred e k' := by
  rw [PairPred_comm e k, PairPred_comm e k']
  exact pairPred_congr h e

theorem find_congr (edges : EdgeTable) {k k' : Nat × Nat} (h : PairPred k k' = true) :
    edges.find k = edges.find k' := by
  induction edges with
  | nil => rfl
  | cons p rest ih =>
    obtain ⟨k0, e0⟩ := p
    unfold EdgeTable.find
    rw [pairPred_congr_right h k0, ih]

theorem find_mem {edges : EdgeTable} {k : Nat × Nat} {e : Edge}
    (h : edges.find k = some e) : ∃ k', (k', e) ∈ edges ∧ PairPred k' k = true := by
  induction edges with
  | nil => simp [EdgeTable.find] at h
  | cons p rest ih =>
    obtain ⟨k', e'⟩ := p
    unfold EdgeTable.find at h
    by_cases hk : PairPred k' k = true
    · rw [if_pos hk, Option.some.injEq] at h
      subst h
      exact ⟨k', List.mem_cons_self _ _, hk⟩
    · rw [if_neg hk] at h
      obtain ⟨k0, hmem, hp⟩ := ih h
      exact ⟨k0, List.mem_cons_of_mem _ hmem, hp⟩

theorem find_pushFace (edges : EdgeTable) (k e : Nat × Nat) (i : Nat) :
    (EdgeTable.pushFace edges k i).find e =
      if PairPred k e = true then
        (edges.find k).map (fun ed => { ed with _faces := ed._faces ++ [i] })
      else edges.find e := by
  induction edges with
  | nil => simp [EdgeTable.pushFace, EdgeTable.find]
  | cons p rest ih =>
    obtain ⟨k', e'⟩ := p
    unfold EdgeTable.pushFace
    by_cases hk : PairPred k' k = true
    · rw [if_pos hk]
      have hc := pairPred_congr hk e
      by_cases he : PairPred k e = true
      · have he' : PairPred k' e = true := by rw [hc]; exact he
        simp only [EdgeTable.find, he', hk, he, if_true, Option.map_some']
      · have he' : ¬ PairPred k' e = true := by rw [hc]; exact he
        simp [EdgeTable.find, he', he]
    · rw [if_neg hk]
      by_cases hke : PairPred k' e = true
      · have he : ¬ PairPred k e = true := by
          intro he
          apply hk
          rw [pairPred_congr_right he k', ← hke]
        simp [EdgeTable.find, hke, he]
      · simp [EdgeTable.find, hke, hk, ih]

theorem find_append_single (edges : EdgeTable) (k e : Nat × Nat) (ed : Edge) :
    (edges ++ [(k, ed)]).find e =
      match edges.find e with
      | some x => some x
      | none => if PairPred k e = true then some ed else none := by
  induction edges with
  | nil => simp [EdgeTable.find]
  | cons p rest ih =>
    obtain ⟨k', e'⟩ := p
    by_cases hk : PairPred k' e = true
    · simp [EdgeTable.find, hk]
    · simp [EdgeTable.find, hk, ih]

theorem faceList_addEdge (edges : EdgeTable) (a b i : Nat) (e : Nat × Nat) :
    faceList (addEdge edges a b i) e =
      faceList edges e ++ if PairPred (a, b) e = true then [i] else [] := by
  unfold faceList addEdge
  cases h : edges.find (a, b) with
  | none =>
    simp only [find_pushFace, find_append_single]
    by_cases he : PairPred (a, b) e = true
    · rw [← find_congr edges he, h]
      simp [he, h, pairPred_self]
    · simp only [he, if_false]
      cases h2 : edges.find e <;> simp
  | some ed =>
    simp only [find_pushFace]
    by_cases he : PairPred (a, b) e = true
    · rw [← find_congr edges he, h]
      simp [he, h]
    · simp [he]

theorem faceList_buildEdgesFrom (s : Nat) (fs : List Triangle) (edges : EdgeTable)
    (e : Nat × Nat) :
    faceList (buildEdgesFrom s fs edges) e = faceList edges e ++ incidences s fs e := by
  induction fs generalizing s edges with
  | nil => simp [buildEdgesFrom, incidences]
  | cons f fs ih =>
    unfold buildEdgesFrom incidences
    rw [ih, faceList_addEdge, faceList_addEdge, faceList_addEdge]
    simp [List.append_assoc]

theorem faceList_buildEdges (faces : List Triangle) (e : Nat × Nat) :
    faceList (buildEdges faces) e = incidences 0 faces e := by
  unfold buildEdges
  rw [faceList_buildEdgesFrom]
  simp [faceList, EdgeTable.find]

/-- The face list of an edge does not depend on the direction in which it is asked. -/
theorem incidences_congr (s : Nat) (fs : List Triangle) {k k' : Nat × Nat}
    (h : PairPred k k' = true) : incidences s fs k = incidences s fs k' := by
  induction fs generalizing s with
  | nil => rfl
  | cons f fs ih =>
    unfold incidences
    rw [pairPred_congr_right h, pairPred_congr_right h, pairPred_congr_right h, ih]

theorem hasDirectedEdge_iff (a b : Nat) (f : Triangle) :
    hasDirectedEdge a b f = true ↔
      (a, b) = (f.v0, f.v1) ∨ (a, b) = (f.v1, f.v2) ∨ (a, b) = (f.v2, f.v0) := by
  simp only [hasDirectedEdge, Bool.or_eq_true, Bool.and_eq_true, beq_iff_eq, Prod.mk.injEq]
  constructor
  · rintro ((⟨h1, h2⟩ | ⟨h1, h2⟩) | ⟨h1, h2⟩)
    · exact Or.inl ⟨h1.symm, h2.symm⟩
    · exact Or.inr (Or.inl ⟨h1.symm, h2.symm⟩)
    · exact Or.inr (Or.inr ⟨h1.symm, h2.symm⟩)
  · rintro (⟨h1, h2⟩ | ⟨h1, h2⟩ | ⟨h1, h2⟩)
    · exact Or.inl (Or.inl ⟨h1.symm, h2.symm⟩)
    · exact Or.inl (Or.inr ⟨h1.symm, h2.symm⟩)
    · exact Or.inr ⟨h1.symm, h2.symm⟩

theorem mem_incidences (s : Nat) (fs : List Triangle) (a b k : Nat) (f : Triangle)
    (hk : fs[k]? = some f) (he : hasDirectedEdge a b f = true) :
    s + k ∈ incidences s fs (a, b) := by
  induction fs generalizing s k with
  | nil => simp at hk
  | cons g fs ih =>
    unfold incidences
    cases k with
    | zero =>
      simp at hk
      subst hk
      rcases (hasDirectedEdge_iff a b g).1 he with h | h | h <;>
        simp [← h, pairPred_self]
    | succ k =>
      simp at hk
      have := ih (s + 1) k hk
      have h2 : s + (k + 1) = s + 1 + k := by omega
      rw [h2]
      simp [this]

theorem count_le_incidences (s : Nat) (fs : List Triangle) (a b : Nat) :
    (fs.filter (hasDirectedEdge a b)).length ≤ (incidences s fs (a, b)).length := by
  induction fs generalizing s with
  | nil => simp
  | cons f fs ih =>
    unfold incidences
    have := ih (s + 1)
    by_cases he : hasDirectedEdge a b f = true
    · rw [List.filter_cons_of_pos he]
      have h1 : 1 ≤ ((if PairPred (f.v0, f.v1) (a, b) = true then [s] else []) ++
          (if PairPred (f.v1, f.v2) (a, b) = true then [s] else []) ++
          (if PairPred (f.v2, f.v0) (a, b) = true then [s] else [])).length := by
        rcases (hasDirectedEdge_iff a b f).1 he with h | h | h <;>
          simp [← h, pairPred_self] <;> omega
      simp only [List.length_append, List.length_cons] at h1 ⊢
      omega
    · rw [List.filter_cons_of_neg he]
      simp only [List.length_append]
      omega

/-! ## The non-manifold-edge pass -/

theorem markNonManifoldEdges_spec (edges : EdgeTable) (pv : List Nat) (ff : FaceFlags) :
    Shrinks ff (markNonManifoldEdges edges (pv, ff)).2 ∧
    ∀ k e, (k, e) ∈ edges → 2 < e._faces.length → ∀ hf ∈ e._faces,
      keptAt (markNonManifoldEdges edges (pv, ff)).2 hf = false := by
  induction edges generalizing pv ff with
  | nil => exact ⟨Shrinks.refl ff, fun k e h => by cases h⟩
  | cons p rest ih =>
    obtain ⟨k', e'⟩ := p
    unfold markNonManifoldEdges
    by_cases hlen : e'._faces.length ≤ 2
    · simp only [hlen, if_true]
      refine ⟨(ih pv ff).1, fun k e hmem hl hf hhf => ?_⟩
      rcases List.mem_cons.1 hmem with heq | hmem'
      · cases heq; omega
      · exact (ih pv ff).2 k e hmem' hl hf hhf
    · simp only [hlen, if_false]
      have ih' := ih (pv ++ [k'.1, k'.1]) (e'._faces.foldl markRemoved ff)
      refine ⟨(shrinks_foldl_markRemoved _ ff).trans ih'.1, fun k e hmem hl hf hhf => ?_⟩
      rcases List.mem_cons.1 hmem with heq | hmem'
      · cases heq
        have h0 := keptAt_foldl_markRemoved e'._faces ff hf hhf
        cases hk : keptAt (markNonManifoldEdges rest
            (pv ++ [k'.1, k'.1], List.foldl markRemoved ff e'._faces)).2 hf with
        | false => rfl
        | true => rw [ih'.1.2 hf hk] at h0; cases h0
      · exact ih'.2 k e hmem' hl hf hhf

theorem shrinks_markProblematic (vn : List (List Nat)) (pv : List Nat) (ff : FaceFlags) :
    Shrinks ff (markProblematic vn pv ff) := by
  unfold markProblematic
  induction pv generalizing ff with
  | nil => exact Shrinks.refl ff
  | cons v pv ih => exact (shrinks_foldl_markRemoved _ ff).trans (ih _)

/-! ## The worklist of the clustering step terminates -/

theorem unsampled_set (sampled : List Nat) (j : Nat) (hj : j < sampled.length)
    (h : sampled.getD j 0 ≠ 1) : unsampled (sampled.set j 1) + 1 = unsampled sampled := by
  induction sampled generalizing j with
  | nil => simp at hj
  | cons x xs ih =>
    cases j with
    | zero =>
      simp at h
      simp [unsampled, List.filter_cons, h]
    | succ j =>
      simp at h hj
      have := ih j hj (by simpa using h)
      simp only [unsampled, List.set_cons_succ, List.filter_cons] at this ⊢
      by_cases hx : (x != 1) = true
      · simp only [hx, if_true, List.length_cons]; omega
      · simp only [hx]; exact this

theorem scanNeighbors_push (ff : FaceFlags) (neighbors : List Nat) (front j : Nat)
    (js sampled cluster : List Nat) (hc : j ≠ front ∧ sampled.getD j 0 ≠ 1)
    (hs : sharesEdge (faceAt ff (neighbors.getD front 0))
      (faceAt ff (neighbors.getD j 0)) = true) :
    scanNeighbors ff neighbors front (j :: js) (sampled, cluster) =
      scanNeighbors ff neighbors front js (sampled.set j 1, cluster ++ [j]) := by
  rw [scanNeighbors, if_pos hc, if_pos hs]

theorem scanNeighbors_skip (ff : FaceFlags) (neighbors : List Nat) (front j : Nat)
    (js sampled cluster : List Nat)
    (h : ¬ ((j ≠ front ∧ sampled.getD j 0 ≠ 1) ∧
      sharesEdge (faceAt ff (neighbors.getD front 0))
        (faceAt ff (neighbors.getD j 0)) = true)) :
    scanNeighbors ff neighbors front (j :: js) (sampled, cluster) =
      scanNeighbors ff neighbors front js (sampled, cluster) := by
  rw [scanNeighbors]
  by_cases hc : j ≠ front ∧ sampled.getD j 0 ≠ 1
  · rw [if_pos hc, if_neg (fun hs => h ⟨hc, hs⟩)]
  · rw [if_neg hc]

theorem scanNeighbors_spec (ff : FaceFlags) (neighbors : List Nat) (front : Nat)
    (js : List Nat) (sampled cluster : List Nat) (hjs : ∀ j ∈ js, j < sampled.length) :
    (scanNeighbors ff neighbors front js (sampled, cluster)).1.length = sampled.length ∧
    (∃ added, (scanNeighbors ff neighbors front js (sampled, cluster)).2 = cluster ++ added) ∧
    (scanNeighbors ff neighbors front js (sampled, cluster)).2.length +
        unsampled (scanNeighbors ff neighbors front js (sampled, cluster)).1 =
      cluster.length + unsampled sampled := by
  induction js generalizing sampled cluster with
  | nil => exact ⟨rfl, ⟨[], by simp [scanNeighbors]⟩, rfl⟩
  | cons j js ih =>
    have hj : j < sampled.length := hjs j (List.mem_cons_self _ _)
    have hjs' : ∀ i ∈ js, i < sampled.length := fun i hi => hjs i (List.mem_cons_of_mem _ hi)
    by_cases h : (j ≠ front ∧ sampled.getD j 0 ≠ 1) ∧
        sharesEdge (faceAt ff (neighbors.getD front 0)) (faceAt ff (neighbors.getD j 0)) = true
    · rw [scanNeighbors_push ff neighbors front j js sampled cluster h.1 h.2]
      have hlen : (sampled.set j 1).length = sampled.length := by simp
      obtain ⟨h1, ⟨added, h2⟩, h3⟩ := ih (sampled.set j 1) (cluster ++ [j])
        (by intro i hi; rw [hlen]; exact hjs' i hi)
      refine ⟨by rw [h1, hlen], ⟨j :: added, by rw [h2]; simp⟩, ?_⟩
      rw [h3]
      have := unsampled_set sampled j hj h.1.2
      simp only [List.length_append, List.length_cons, List.length_nil]
      omega
    · rw [scanNeighbors_skip ff neighbors front j js sampled cluster h]
      exact ih sampled cluster hjs'

theorem growCluster_isSome (ff : FaceFlags) (neighbors : List Nat) (fuel : Nat)
    (sampled cluster : List Nat) (hne : cluster ≠ [])
    (hlen : sampled.length = neighbors.length)
    (hfuel : cluster.length + unsampled sampled ≤ fuel) :
    ∃ sampled', growCluster ff neighbors fuel sampled cluster = some sampled' ∧
      sampled'.length = neighbors.length := by
  induction fuel generalizing sampled cluster with
  | zero =>
    cases cluster with
    | nil => exact absurd rfl hne
    | cons c cs => simp at hfuel
  | succ fuel ih =>
    cases cluster with
    | nil => exact absurd rfl hne
    | cons front rest =>
      unfold growCluster
      obtain ⟨h1, ⟨added, h2⟩, h3⟩ := scanNeighbors_spec ff neighbors front
        (List.range neighbors.length) sampled (front :: rest)
        (by intro j hj; rw [hlen]; exact List.mem_range.1 hj)
      simp only
      cases ht : (scanNeighbors ff neighbors front (List.range neighbors.length)
          (sampled, front :: rest)).2.tail with
      | nil => exact ⟨_, rfl, h1.trans hlen⟩
      | cons c cs =>
        simp only
        apply ih _ _ (by simp) (h1.trans hlen)
        have h4 : (scanNeighbors ff neighbors front (List.range neighbors.length)
            (sampled, front :: rest)).2.length = (c :: cs).length + 1 := by
          rw [← ht, h2]; simp
        simp only [List.length_cons] at h3 h4 hfuel ⊢
        omega

theorem unsampled_le (sampled : List Nat) : unsampled sampled ≤ sampled.length :=
  List.length_filter_le _ _

theorem countClusters_isSome (ff : FaceFlags) (neighbors : List Nat) (is : List Nat)
    (sampled : List Nat) (nb : Nat) (his : ∀ i ∈ is, i < neighbors.length)
    (hlen : sampled.length = neighbors.length) :
    ∃ st, countClusters ff neighbors is (sampled, nb) = some st := by
  induction is generalizing sampled nb with
  | nil => exact ⟨_, rfl⟩
  | cons i is ih =>
    have his' : ∀ j ∈ is, j < neighbors.length := fun j hj => his j (List.mem_cons_of_mem _ hj)
    have hi : i < sampled.length := by rw [hlen]; exact his i (List.mem_cons_self _ _)
    unfold countClusters
    by_cases hs : sampled.getD i 0 = 1
    · simp only [hs, if_true]
      exact ih sampled nb his' hlen
    · simp only [hs, if_false]
      have hu := unsampled_set sampled i hi hs
      have hle := unsampled_le sampled
      obtain ⟨s', hs', hl'⟩ := growCluster_isSome ff neighbors neighbors.length
        (sampled.set i 1) [i] (by simp) (by simpa using hlen)
        (by simp only [List.length_cons, List.length_nil]; omega)
      rw [hs']
      exact ih s' (nb + 1) his' hl'

theorem nbCluster_isSome (ff : FaceFlags) (neighbors : List Nat) :
    ∃ nb, nbCluster ff neighbors = some nb := by
  unfold nbCluster
  obtain ⟨st, hst⟩ := countClusters_isSome ff neighbors (List.range neighbors.length)
    (List.replicate neighbors.length 0) 0 (fun i hi => List.mem_range.1 hi) (by simp)
  exact ⟨st.2, by rw [hst]; rfl⟩

theorem markNonManifoldVertices_spec (vn : List (List Nat)) (ff : FaceFlags) :
    ∃ ff', markNonManifoldVertices vn ff = some ff' ∧ Shrinks ff ff' := by
  induction vn generalizing ff with
  | nil => exact ⟨ff, rfl, Shrinks.refl ff⟩
  | cons neighbors rest ih =>
    obtain ⟨nb, hnb⟩ := nbCluster_isSome ff neighbors
    unfold markNonManifoldVertices
    rw [hnb]
    by_cases h : nb > 1
    · simp only [h, if_true]
      obtain ⟨ff', h1, h2⟩ := ih (neighbors.foldl markRemoved ff)
      exact ⟨ff', h1, (shrinks_foldl_markRemoved _ ff).trans h2⟩
    · simp only [h, if_false]
      exact ih ff

/-- Flags at the end of `RemoveNonManifold` exist (every loop terminates), and they
come from the flags left by the non-manifold-edge pass by removals only. -/
theorem removeNonManifold_flags (vertices : List Point_3) (faces : List Triangle) :
    ∃ ff, markNonManifoldVertices (edgeStage vertices.length faces).1
        (edgeStage vertices.length faces).2 = some ff ∧
      RemoveNonManifold vertices faces = some (resultFaces ff) ∧
      Shrinks (markNonManifoldEdges (buildEdges faces) ([], initFlags faces)).2 ff := by
  obtain ⟨ff, h1, h2⟩ := markNonManifoldVertices_spec (edgeStage vertices.length faces).1
    (edgeStage vertices.length faces).2
  refine ⟨ff, h1, ?_, ?_⟩
  · unfold RemoveNonManifold
    simp only [h1, Option.map_some']
  · exact (shrinks_markProblematic _ _ _).trans h2

theorem map_fst_final (faces : List Triangle) (ff : FaceFlags)
    (h : Shrinks (markNonManifoldEdges (buildEdges faces) ([], initFlags faces)).2 ff) :
    ff.map Prod.fst = faces := by
  have h1 := (markNonManifoldEdges_spec (buildEdges faces) [] (initFlags faces)).1
  rw [(h1.trans h).1, map_fst_initFlags]

/-- A face with a directed edge whose face list has more than two entries is not kept
by the non-manifold-edge pass. -/
theorem not_kept_of_long_faceList (faces : List Triangle) (a b i : Nat) (f : Triangle)
    (hi : faces[i]? = some f) (he : hasDirectedEdge a b f = true)
    (hlong : 2 < (incidences 0 faces (a, b)).length) :
    keptAt (markNonManifoldEdges (buildEdges faces) ([], initFlags faces)).2 i = false := by
  have hmem : i ∈ incidences 0 faces (a, b) := by
    have := mem_incidences 0 faces a b i f hi he
    simpa using this
  have hfl := faceList_buildEdges faces (a, b)
  unfold faceList at hfl
  cases hfind : (buildEdges faces).find (a, b) with
  | none =>
    rw [hfind] at hfl
    rw [← hfl] at hmem
    cases hmem
  | some e =>
    rw [hfind] at hfl
    simp only at hfl
    obtain ⟨k', hk', _⟩ := find_mem hfind
    exact (markNonManifoldEdges_spec (buildEdges faces) [] (initFlags faces)).2 k' e
      hk' (by rw [hfl]; exact hlong) i (by rw [hfl]; exact hmem)

theorem mem_resultFaces {ff : FaceFlags} {t : Triangle} (h : t ∈ resultFaces ff) :
    ∃ i : Nat, ff[i]? = some (t, true) := by
  unfold resultFaces at h
  rw [List.mem_map] at h
  obtain ⟨p, hp, rfl⟩ := h
  rw [List.mem_filter] at hp
  obtain ⟨i, hi, hget⟩ := List.mem_iff_getElem.1 hp.1
  refine ⟨i, ?_⟩
  rw [List.getElem?_eq_getElem hi, hget]
  obtain ⟨t, fl⟩ := p
  simp at hp
  simp [hp.2]

/-- C1: for every vertex list and triangle list with valid indices, `RemoveNonManifold`
returns, and in its output every directed edge `(a, b)` is a directed edge
(`v0→v1`, `v1→v2` or `v2→v0`) of at most 2 output faces. -/
theorem C1_directed_edge_in_at_most_two_output_faces (vertices : List Point_3)
    (faces : List Triangle) (_hvalid : ValidIdx vertices.length faces) (a b : Nat) :
    ∃ out, RemoveNonManifold vertices faces = some out ∧
      (out.filter (hasDirectedEdge a b)).length ≤ 2 := by
  obtain ⟨ff, _, hres, hsh⟩ := removeNonManifold_flags vertices faces
  refine ⟨resultFaces ff, hres, ?_⟩
  have hmap := map_fst_final faces ff hsh
  by_cases hlong : 2 < (incidences 0 faces (a, b)).length
  · have hnil : (resultFaces ff).filter (hasDirectedEdge a b) = [] := by
      rw [List.filter_eq_nil_iff]
      intro t ht he
      obtain ⟨i, hi⟩ := mem_resultFaces ht
      have hface : faces[i]? = some t := by
        rw [← hmap, List.getElem?_map, hi]; rfl
      have hk : keptAt ff i = true := by simp [keptAt, hi]
      have h1 := not_kept_of_long_faceList faces a b i t hface he hlong
      rw [hsh.2 i hk] at h1
      cases h1
    rw [hnil]
    simp
  · have hsub : (resultFaces ff).Sublist faces := hmap ▸ resultFaces_sublist ff
    have h1 := (hsub.filter (hasDirectedEdge a b)).length_le
    have h2 := count_le_incidences 0 faces a b
    omega

/-- Witness of C1 on two triangles with a common edge. -/
theorem C1_witness :
    ∃ out, RemoveNonManifold [⟨0, 0, 0⟩, ⟨1, 0, 0⟩, ⟨0, 1, 0⟩, ⟨1, 1, 0⟩]
        [⟨0, 1, 2⟩, ⟨2, 1, 3⟩] = some out ∧
      (out.filter (hasDirectedEdge 0 1)).length ≤ 2 :=
  C1_directed_edge_in_at_most_two_output_faces [⟨0, 0, 0⟩, ⟨1, 0, 0⟩, ⟨0, 1, 0⟩, ⟨1, 1, 0⟩]
    [⟨0, 1, 2⟩, ⟨2, 1, 3⟩] (by decide) 0 1

/-! ## Outputs are sub-lists of the input -/

theorem map_faceOf_range (faces : List Triangle) :
    (List.range faces.length).map (faceOf faces) = faces := by
  apply List.ext_getElem
  · simp
  · intro i h1 h2
    simp [faceOf, List.getD_eq_getElem?_getD, List.getElem?_eq_getElem h2]

theorem filter_range_sublist (faces : List Triangle) (p : Nat → Bool) :
    (((List.range faces.length).filter p).map (faceOf faces)).Sublist faces := by
  have h := ((List.filter_sublist (p := p) (List.range faces.length)).map (faceOf faces))
  rwa [map_faceOf_range] at h

theorem removeNonManifold_sublist (vertices : List Point_3) (faces : List Triangle) :
    ∃ out, RemoveNonManifold vertices faces = some out ∧ out.Sublist faces := by
  obtain ⟨ff, _, hres, hsh⟩ := removeNonManifold_flags vertices faces
  exact ⟨resultFaces ff, hres, map_fst_final faces ff hsh ▸ resultFaces_sublist ff⟩

/-- C4: for every input with valid indices, the output of each of `RemoveNonManifold`,
`RemoveSelfIntersection` and `RemoveSelfIntersectionBruteforce` is an order-preserving
sub-list of the input triangle list, so its face count is at most the input face
count. -/
theorem C4_outputs_are_sublists (sqrt : ℚ → ℚ) (is_degenerate : Triangle_3 → Bool)
    (do_intersect : Triangle_3 → Triangle_3 → Bool)
    (vertices : List Point_3) (faces : List Triangle)
    (_hvalid : ValidIdx vertices.length faces) :
    (∃ out, RemoveNonManifold vertices faces = some out ∧ out.Sublist faces ∧
      out.length ≤ faces.length) ∧
    ((RemoveSelfIntersection sqrt is_degenerate do_intersect vertices faces).Sublist faces ∧
      (RemoveSelfIntersection sqrt is_degenerate do_intersect vertices faces).length
        ≤ faces.length) ∧
    ((RemoveSelfIntersectionBruteforce do_intersect vertices faces).Sublist faces ∧
      (RemoveSelfIntersectionBruteforce do_intersect vertices faces).length
        ≤ faces.length) := by
  refine ⟨?_, ?_, ?_⟩
  · obtain ⟨out, h1, h2⟩ := removeNonManifold_sublist vertices faces
    exact ⟨out, h1, h2, h2.length_le⟩
  · have h : (RemoveSelfIntersection sqrt is_degenerate do_intersect vertices faces).Sublist
        faces := filter_range_sublist faces _
    exact ⟨h, h.length_le⟩
  · have h : (RemoveSelfIntersectionBruteforce do_intersect vertices faces).Sublist faces :=
      filter_range_sublist faces _
    exact ⟨h, h.length_le⟩

/-- Witness of C4 on the two crossing triangles. -/
theorem C4_witness :
    (∃ out, RemoveNonManifold crossVertices twoFaces = some out ∧ out.Sublist twoFaces ∧
      out.length ≤ twoFaces.length) ∧
    ((RemoveSelfIntersection exactSqrt exactDegenerate exactIntersect crossVertices
        twoFaces).Sublist twoFaces ∧
      (RemoveSelfIntersection exactSqrt exactDegenerate exactIntersect crossVertices
        twoFaces).length ≤ twoFaces.length) ∧
    ((RemoveSelfIntersectionBruteforce exactIntersect crossVertices twoFaces).Sublist
        twoFaces ∧
      (RemoveSelfIntersectionBruteforce exactIntersect crossVertices twoFaces).length
        ≤ twoFaces.length) :=
  C4_outputs_are_sublists exactSqrt exactDegenerate exactIntersect crossVertices twoFaces
    (by decide)

/-! ## The two self-intersection detectors on concrete meshes -/

theorem cellSize_cross : cellSize exactSqrt crossVertices twoFaces = 8 := by decide!

theorem cellSize_apart : cellSize exactSqrt apartVertices twoFaces = 8 := by decide!

theorem cross_intersect :
    exactIntersect (triangleOf crossVertices ⟨0, 1, 2⟩) (triangleOf crossVertices ⟨3, 4, 5⟩)
      = true := by decide!

theorem apart_disjoint :
    exactIntersect (triangleOf apartVertices ⟨0, 1, 2⟩) (triangleOf apartVertices ⟨3, 4, 5⟩)
      = false := by decide!

theorem grid_cross :
    RemoveSelfIntersection exactSqrt exactDegenerate exactIntersect crossVertices twoFaces
      = [] := by decide!

theorem brute_cross :
    RemoveSelfIntersectionBruteforce exactIntersect crossVertices twoFaces = [⟨3, 4, 5⟩] := by
  decide!

theorem grid_apart :
    RemoveSelfIntersection exactSqrt exactDegenerate exactIntersect apartVertices twoFaces
      = [] := by decide!

theorem rnm_bowtie :
    RemoveNonManifold bowtieVertices bowtieFan = some [⟨0, 1, 2⟩, ⟨0, 4, 5⟩] := by decide

theorem rnm_tetra : RemoveNonManifold tetraVertices tetraDup = some [] := by decide

/-! ## The hole classifier -/

theorem addPoint_mono (b : Bbox_3) (p : Point_3) :
    (b.addPoint p).xmin ≤ b.xmin ∧ b.xmax ≤ (b.addPoint p).xmax ∧
    (b.addPoint p).ymin ≤ b.ymin ∧ b.ymax ≤ (b.addPoint p).ymax ∧
    (b.addPoint p).zmin ≤ b.zmin ∧ b.zmax ≤ (b.addPoint p).zmax := by
  simp [Bbox_3.addPoint]

theorem foldl_addPoint_mono (rest : List Point_3) (b : Bbox_3) :
    (rest.foldl Bbox_3.addPoint b).xmin ≤ b.xmin ∧ b.xmax ≤ (rest.foldl Bbox_3.addPoint b).xmax ∧
    (rest.foldl Bbox_3.addPoint b).ymin ≤ b.ymin ∧ b.ymax ≤ (rest.foldl Bbox_3.addPoint b).ymax ∧
    (rest.foldl Bbox_3.addPoint b).zmin ≤ b.zmin ∧ b.zmax ≤ (rest.foldl Bbox_3.addPoint b).zmax := by
  induction rest generalizing b with
  | nil => simp
  | cons p rest ih =>
    obtain ⟨h1, h2, h3, h4, h5, h6⟩ := ih (b.addPoint p)
    obtain ⟨g1, g2, g3, g4, g5, g6⟩ := addPoint_mono b p
    simp only [List.foldl_cons]
    exact ⟨h1.trans g1, g2.trans h2, h3.trans g3, g4.trans h4, h5.trans g5, g6.trans h6⟩

/-- The box only grows: if the final box fits, so does every intermediate one. -/
theorem fits_of_foldl_fits (rest : List Point_3) (b : Bbox_3) (d : ℚ)
    (h : (rest.foldl Bbox_3.addPoint b).fits d) : b.fits d := by
  obtain ⟨h1, h2, h3, h4, h5, h6⟩ := foldl_addPoint_mono rest b
  obtain ⟨hx, hy, hz⟩ := h
  exact ⟨by linarith, by linarith, by linarith⟩

/-- One iteration of the loop of `IsSmallHole`, given what the remaining iterations do. -/
theorem isSmallHoleLoop_step (me : ℤ) (md : ℚ) (p : Point_3) (rest : List Point_3) (n : ℤ)
    (ob : Option Bbox_3)
    (hrec : n + 1 ≤ me → (growBbox ob p).fits md →
      ((IsSmallHoleLoop me md rest (n + 1) (some (growBbox ob p))).1 = true ↔
        n + 1 + (rest.length : ℤ) ≤ me ∧ (rest.foldl Bbox_3.addPoint (growBbox ob p)).fits md)) :
    (IsSmallHoleLoop me md (p :: rest) n ob).1 = true ↔
      n + ((p :: rest).length : ℤ) ≤ me ∧
        (rest.foldl Bbox_3.addPoint (growBbox ob p)).fits md := by
  have hlen : ((p :: rest).length : ℤ) = (rest.length : ℤ) + 1 := by simp
  have hnn : (0 : ℤ) ≤ (rest.length : ℤ) := Int.natCast_nonneg _
  rw [IsSmallHoleLoop]
  by_cases h1 : n + 1 > me
  · rw [if_pos h1]
    constructor
    · intro h; cases h
    · intro h; omega
  · rw [if_neg h1]
    by_cases h2 : (growBbox ob p).xmax - (growBbox ob p).xmin > md
    · rw [if_pos h2]
      constructor
      · intro h; cases h
      · intro h
        have := (fits_of_foldl_fits rest _ md h.2).1
        linarith
    · rw [if_neg h2]
      by_cases h3 : (growBbox ob p).ymax - (growBbox ob p).ymin > md
      · rw [if_pos h3]
        constructor
        · intro h; cases h
        · intro h
          have := (fits_of_foldl_fits rest _ md h.2).2.1
          linarith
      · rw [if_neg h3]
        by_cases h4 : (growBbox ob p).zmax - (growBbox ob p).zmin > md
        · rw [if_pos h4]
          constructor
          · intro h; cases h
          · intro h
            have := (fits_of_foldl_fits rest _ md h.2).2.2
            linarith
        · rw [if_neg h4]
          have hfit : (growBbox ob p).fits md := ⟨not_lt.1 h2, not_lt.1 h3, not_lt.1 h4⟩
          rw [hrec (by omega) hfit, hlen]
          constructor
          · intro h; exact ⟨by omega, h.2⟩
          · intro h; exact ⟨by omega, h.2⟩

theorem isSmallHoleLoop_spec (me : ℤ) (md : ℚ) (rest : List Point_3) (n : ℤ) (b : Bbox_3)
    (hn : n ≤ me) (hb : b.fits md) :
    (IsSmallHoleLoop me md rest n (some b)).1 = true ↔
      n + (rest.length : ℤ) ≤ me ∧ (rest.foldl Bbox_3.addPoint b).fits md := by
  induction rest generalizing n b with
  | nil => simp [IsSmallHoleLoop, hn, hb]
  | cons p rest ih =>
    have := isSmallHoleLoop_step me md p rest n (some b) (fun h1 h2 => ih (n + 1) _ h1 h2)
    simpa [growBbox] using this

theorem isSmallHole_iff (loop : List Point_3) (me : ℤ) (md : ℚ) (hne : loop ≠ []) :
    IsSmallHole loop me md = true ↔ (loop.length : ℤ) ≤ me ∧ (hullBbox loop).fits md := by
  cases loop with
  | nil => exact absurd rfl hne
  | cons p rest =>
    have := isSmallHoleLoop_step me md p rest 0 none
      (fun h1 h2 => isSmallHoleLoop_spec me md rest (0 + 1) _ h1 h2)
    simpa [IsSmallHole, hullBbox, loopBbox, growBbox] using this

/-- The box `hullBbox` contains every vertex of the loop. -/
theorem foldl_addPoint_contains (rest : List Point_3) (b : Bbox_3) (q : Point_3)
    (hq : q ∈ rest) :
    (rest.foldl Bbox_3.addPoint b).xmin ≤ q.x ∧ q.x ≤ (rest.foldl Bbox_3.addPoint b).xmax ∧
    (rest.foldl Bbox_3.addPoint b).ymin ≤ q.y ∧ q.y ≤ (rest.foldl Bbox_3.addPoint b).ymax ∧
    (rest.foldl Bbox_3.addPoint b).zmin ≤ q.z ∧ q.z ≤ (rest.foldl Bbox_3.addPoint b).zmax := by
  induction rest generalizing b with
  | nil => cases hq
  | cons p rest ih =>
    simp only [List.foldl_cons]
    rcases List.mem_cons.1 hq with rfl | h
    · obtain ⟨h1, h2, h3, h4, h5, h6⟩ := foldl_addPoint_mono rest (b.addPoint q)
      have g1 : (b.addPoint q).xmin ≤ q.x := by simp [Bbox_3.addPoint]
      have g2 : q.x ≤ (b.addPoint q).xmax := by simp [Bbox_3.addPoint]
      have g3 : (b.addPoint q).ymin ≤ q.y := by simp [Bbox_3.addPoint]
      have g4 : q.y ≤ (b.addPoint q).ymax := by simp [Bbox_3.addPoint]
      have g5 : (b.addPoint q).zmin ≤ q.z := by simp [Bbox_3.addPoint]
      have g6 : q.z ≤ (b.addPoint q).zmax := by simp [Bbox_3.addPoint]
      exact ⟨h1.trans g1, g2.trans h2, h3.trans g3, g4.trans h4, h5.trans g5, g6.trans h6⟩
    · exact ih _ h

theorem hullBbox_contains (loop : List Point_3) (q : Point_3) (hq : q ∈ loop) :
    (hullBbox loop).xmin ≤ q.x ∧ q.x ≤ (hullBbox loop).xmax ∧
    (hullBbox loop).ymin ≤ q.y ∧ q.y ≤ (hullBbox loop).ymax ∧
    (hullBbox loop).zmin ≤ q.z ∧ q.z ≤ (hullBbox loop).zmax := by
  cases loop with
  | nil => cases hq
  | cons p rest =>
    unfold hullBbox loopBbox
    rcases List.mem_cons.1 hq with rfl | h
    · obtain ⟨h1, h2, h3, h4, h5, h6⟩ := foldl_addPoint_mono rest q.bbox
      exact ⟨h1, h2, h3, h4, h5, h6⟩
    · exact foldl_addPoint_contains rest _ q h

/-- Every face of the box `hullBbox` touches a vertex of the loop. -/
theorem foldl_addPoint_attained (rest : List Point_3) (b : Bbox_3) (S : Point_3 → Prop)
    (hS : ∀ q ∈ rest, S q)
    (hb : (∃ q, S q ∧ q.x = b.xmin) ∧ (∃ q, S q ∧ q.x = b.xmax) ∧
      (∃ q, S q ∧ q.y = b.ymin) ∧ (∃ q, S q ∧ q.y = b.ymax) ∧
      (∃ q, S q ∧ q.z = b.zmin) ∧ (∃ q, S q ∧ q.z = b.zmax)) :
    (∃ q, S q ∧ q.x = (rest.foldl Bbox_3.addPoint b).xmin) ∧
    (∃ q, S q ∧ q.x = (rest.foldl Bbox_3.addPoint b).xmax) ∧
    (∃ q, S q ∧ q.y = (rest.foldl Bbox_3.addPoint b).ymin) ∧
    (∃ q, S q ∧ q.y = (rest.foldl Bbox_3.addPoint b).ymax) ∧
    (∃ q, S q ∧ q.z = (rest.foldl Bbox_3.addPoint b).zmin) ∧
    (∃ q, S q ∧ q.z = (rest.foldl Bbox_3.addPoint b).zmax) := by
  induction rest generalizing b with
  | nil => exact hb
  | cons p rest ih =>
    simp only [List.foldl_cons]
    apply ih _ (fun q hq => hS q (List.mem_cons_of_mem _ hq))
    have hp : S p := hS p (List.mem_cons_self _ _)
    obtain ⟨h1, h2, h3, h4, h5, h6⟩ := hb
    refine ⟨?_, ?_, ?_, ?_, ?_, ?_⟩
    · rcases min_choice b.xmin p.x with h | h
      · obtain ⟨q, hq, e⟩ := h1; exact ⟨q, hq, by simp [Bbox_3.addPoint, h, e]⟩
      · exact ⟨p, hp, by simp [Bbox_3.addPoint, h]⟩
    · rcases max_choice b.xmax p.x with h | h
      · obtain ⟨q, hq, e⟩ := h2; exact ⟨q, hq, by simp [Bbox_3.addPoint, h, e]⟩
      · exact ⟨p, hp, by simp [Bbox_3.addPoint, h]⟩
    · rcases min_choice b.ymin p.y with h | h
      · obtain ⟨q, hq, e⟩ := h3; exact ⟨q, hq, by simp [Bbox_3.addPoint, h, e]⟩
      · exact ⟨p, hp, by simp [Bbox_3.addPoint, h]⟩
    · rcases max_choice b.ymax p.y with h | h
      · obtain ⟨q, hq, e⟩ := h4; exact ⟨q, hq, by simp [Bbox_3.addPoint, h, e]⟩
      · exact ⟨p, hp, by simp [Bbox_3.addPoint, h]⟩
    · rcases min_choice b.zmin p.z with h | h
      · obtain ⟨q, hq, e⟩ := h5; exact ⟨q, hq, by simp [Bbox_3.addPoint, h, e]⟩
      · exact ⟨p, hp, by simp [Bbox_3.addPoint, h]⟩
    · rcases max_choice b.zmax p.z with h | h
      · obtain ⟨q, hq, e⟩ := h6; exact ⟨q, hq, by simp [Bbox_3.addPoint, h, e]⟩
      · exact ⟨p, hp, by simp [Bbox_3.addPoint, h]⟩

theorem hullBbox_attained (loop : List Point_3) (hne : loop ≠ []) :
    (∃ q, q ∈ loop ∧ q.x = (hullBbox loop).xmin) ∧ (∃ q, q ∈ loop ∧ q.x = (hullBbox loop).xmax) ∧
    (∃ q, q ∈ loop ∧ q.y = (hullBbox loop).ymin) ∧ (∃ q, q ∈ loop ∧ q.y = (hullBbox loop).ymax) ∧
    (∃ q, q ∈ loop ∧ q.z = (hullBbox loop).zmin) ∧ (∃ q, q ∈ loop ∧ q.z = (hullBbox loop).zmax) := by
  cases loop with
  | nil => exact absurd rfl hne
  | cons p rest =>
    unfold hullBbox loopBbox
    have hp : p ∈ p :: rest := List.mem_cons_self _ _
    exact foldl_addPoint_attained rest p.bbox (fun q => q ∈ p :: rest)
      (fun q hq => List.mem_cons_of_mem _ hq)
      ⟨⟨p, hp, rfl⟩, ⟨p, hp, rfl⟩, ⟨p, hp, rfl⟩, ⟨p, hp, rfl⟩, ⟨p, hp, rfl⟩, ⟨p, hp, rfl⟩⟩

/-- C8: for every non-empty boundary loop and thresholds, `IsSmallHole` returns true
if and only if the loop's edge count is at most `max_num_hole_edges` and, on each of the
three axes, the extent (max minus min) of the bounding box of all the loop's vertices is
at most `max_hole_diam`; the early exits never change the answer.  The unit square
(4 edges, box 1x1x0) gives true for (10, 2) and false for (10, 1/2). -/
theorem C8_isSmallHole_iff_within_thresholds (loop : List Point_3) (max_num_hole_edges : ℤ)
    (max_hole_diam : ℚ) (hne : loop ≠ []) :
    (IsSmallHole loop max_num_hole_edges max_hole_diam = true ↔
      (loop.length : ℤ) ≤ max_num_hole_edges ∧
      (hullBbox loop).xmax - (hullBbox loop).xmin ≤ max_hole_diam ∧
      (hullBbox loop).ymax - (hullBbox loop).ymin ≤ max_hole_diam ∧
      (hullBbox loop).zmax - (hullBbox loop).zmin ≤ max_hole_diam) ∧
    hullBbox squareLoop = ⟨0, 0, 0, 1, 1, 0⟩ ∧
    IsSmallHole squareLoop 10 2 = true ∧ IsSmallHole squareLoop 10 (1 / 2) = false := by
  refine ⟨isSmallHole_iff loop max_num_hole_edges max_hole_diam hne, ?_, ?_, ?_⟩
  · decide!
  · decide!
  · decide!

/-- Witness of C8 on a triangular loop. -/
theorem C8_witness :
    (IsSmallHole [⟨0, 0, 0⟩, ⟨3, 0, 0⟩, ⟨0, 4, 0⟩] 3 4 = true ↔
      (([⟨0, 0, 0⟩, ⟨3, 0, 0⟩, ⟨0, 4, 0⟩] : List Point_3).length : ℤ) ≤ 3 ∧
      (hullBbox [⟨0, 0, 0⟩, ⟨3, 0, 0⟩, ⟨0, 4, 0⟩]).xmax -
        (hullBbox [⟨0, 0, 0⟩, ⟨3, 0, 0⟩, ⟨0, 4, 0⟩]).xmin ≤ 4 ∧
      (hullBbox [⟨0, 0, 0⟩, ⟨3, 0, 0⟩, ⟨0, 4, 0⟩]).ymax -
        (hullBbox [⟨0, 0, 0⟩, ⟨3, 0, 0⟩, ⟨0, 4, 0⟩]).ymin ≤ 4 ∧
      (hullBbox [⟨0, 0, 0⟩, ⟨3, 0, 0⟩, ⟨0, 4, 0⟩]).zmax -
        (hullBbox [⟨0, 0, 0⟩, ⟨3, 0, 0⟩, ⟨0, 4, 0⟩]).zmin ≤ 4) ∧
    hullBbox squareLoop = ⟨0, 0, 0, 1, 1, 0⟩ ∧
    IsSmallHole squareLoop 10 2 = true ∧ IsSmallHole squareLoop 10 (1 / 2) = false :=
  C8_isSmallHole_iff_within_thresholds [⟨0, 0, 0⟩, ⟨3, 0, 0⟩, ⟨0, 4, 0⟩] 3 4 (by simp)

theorem isSmallHoleLoop_early_exit (me : ℤ) (md : ℚ) (rest : List Point_3) (n : ℤ)
    (ob : Option Bbox_3) (hn : n ≤ me) (hlong : me < n + (rest.length : ℤ)) :
    (IsSmallHoleLoop me md rest n ob).1 = false ∧
      (IsSmallHoleLoop me md rest n ob).2 ≤ me + 1 := by
  induction rest generalizing n ob with
  | nil => simp at hlong; omega
  | cons p rest ih =>
    rw [IsSmallHoleLoop]
    by_cases h1 : n + 1 > me
    · rw [if_pos h1]; exact ⟨rfl, by simp only; omega⟩
    · rw [if_neg h1]
      by_cases h2 : (growBbox ob p).xmax - (growBbox ob p).xmin > md
      · rw [if_pos h2]; exact ⟨rfl, by simp only; omega⟩
      · rw [if_neg h2]
        by_cases h3 : (growBbox ob p).ymax - (growBbox ob p).ymin > md
        · rw [if_pos h3]; exact ⟨rfl, by simp only; omega⟩
        · rw [if_neg h3]
          by_cases h4 : (growBbox ob p).zmax - (growBbox ob p).zmin > md
          · rw [if_pos h4]; exact ⟨rfl, by simp only; omega⟩
          · rw [if_neg h4]
            apply ih
            · omega
            · simp only [List.length_cons, Nat.cast_add, Nat.cast_one] at hlong
              omega

/-- C10: early exit of the hole classifier.  For every boundary loop whose edge count
exceeds `max_num_hole_edges` (with `max_num_hole_edges ≥ 0`), `IsSmallHole` returns
false after visiting at most `max_num_hole_edges + 1` loop vertices. -/
theorem C10_isSmallHole_early_exit (loop : List Point_3) (max_num_hole_edges : ℤ)
    (max_hole_diam : ℚ) (hme : 0 ≤ max_num_hole_edges)
    (hlong : max_num_hole_edges < (loop.length : ℤ)) :
    IsSmallHole loop max_num_hole_edges max_hole_diam = false ∧
      IsSmallHoleVisited loop max_num_hole_edges max_hole_diam ≤ max_num_hole_edges + 1 :=
  isSmallHoleLoop_early_exit max_num_hole_edges max_hole_diam loop 0 none hme
    (by simpa using hlong)

/-- Witness of C10: the square loop has 4 edges, the threshold is 2, and the traversal
stops at the third vertex. -/
theorem C10_witness :
    (0 : ℤ) ≤ 2 ∧ (2 : ℤ) < (squareLoop.length : ℤ) ∧
    IsSmallHole squareLoop 2 5 = false ∧ IsSmallHoleVisited squareLoop 2 5 ≤ 2 + 1 :=
  ⟨by decide, by decide, C10_isSmallHole_early_exit squareLoop 2 5 (by decide) (by decide)⟩

/-! ## Concrete runs that settle the scenario claims -/

/-- C5 (code defect): on the two crossing 3-4-5 triangles the grid detector returns no
face and the brute-force detector returns the second face; on the two triangles that
are ten units apart the grid detector returns no face and the brute-force detector
returns both.  So the two detectors do not return the same faces. -/
theorem C5_detectors_disagree :
    ValidIdx crossVertices.length twoFaces ∧
    RemoveSelfIntersection exactSqrt exactDegenerate exactIntersect crossVertices twoFaces
      = [] ∧
    RemoveSelfIntersectionBruteforce exactIntersect crossVertices twoFaces = [⟨3, 4, 5⟩] ∧
    ValidIdx apartVertices.length twoFaces ∧
    RemoveSelfIntersection exactSqrt exactDegenerate exactIntersect apartVertices twoFaces
      = [] ∧
    RemoveSelfIntersectionBruteforce exactIntersect apartVertices twoFaces = twoFaces := by
  refine ⟨by decide, grid_cross, brute_cross, by decide, grid_apart, by decide!⟩

/-- C6 (code defect): two non-degenerate triangles ten units apart do not intersect,
the cell size computed for them is 8, and the grid detector nevertheless removes both:
each face is a candidate of itself and is tested against itself. -/
theorem C6_grid_removes_disjoint_faces :
    ValidIdx apartVertices.length twoFaces ∧
    exactDegenerate (triangleOf apartVertices ⟨0, 1, 2⟩) = false ∧
    exactDegenerate (triangleOf apartVertices ⟨3, 4, 5⟩) = false ∧
    exactIntersect (triangleOf apartVertices ⟨0, 1, 2⟩) (triangleOf apartVertices ⟨3, 4, 5⟩)
      = false ∧
    exactIntersect (triangleOf apartVertices ⟨3, 4, 5⟩) (triangleOf apartVertices ⟨0, 1, 2⟩)
      = false ∧
    cellSize exactSqrt apartVertices twoFaces = 8 ∧
    facesToCheck 8 ((List.range 2).foldl (insert 8 apartVertices twoFaces) [])
      (triangleOf apartVertices ⟨0, 1, 2⟩).bbox = [0] ∧
    exactIntersect (triangleOf apartVertices ⟨0, 1, 2⟩) (triangleOf apartVertices ⟨0, 1, 2⟩)
      = true ∧
    RemoveSelfIntersection exactSqrt exactDegenerate exactIntersect apartVertices twoFaces
      = [] := by
  refine ⟨by decide, by decide!, by decide!, apart_disjoint, by decide!, cellSize_apart,
    by decide!, by decide!, grid_apart⟩

/-- C7 (code defect): for two triangles crossing through each other the brute-force
detector removes only the first face; the second one, which intersects the first, is
in the output. -/
theorem C7_bruteforce_keeps_second_of_crossing_pair :
    ValidIdx crossVertices.length twoFaces ∧
    exactIntersect (triangleOf crossVertices ⟨0, 1, 2⟩) (triangleOf crossVertices ⟨3, 4, 5⟩)
      = true ∧
    exactIntersect (triangleOf crossVertices ⟨3, 4, 5⟩) (triangleOf crossVertices ⟨0, 1, 2⟩)
      = true ∧
    intersectsLater exactIntersect crossVertices twoFaces 1 = false ∧
    RemoveSelfIntersectionBruteforce exactIntersect crossVertices twoFaces = [⟨3, 4, 5⟩] := by
  refine ⟨by decide, cross_intersect, by decide!, by decide!, brute_cross⟩

/-- C9 (counterexample): for the tetrahedron with its first face duplicated,
`RemoveNonManifold` does not return 3 faces. -/
theorem C9_counterexample :
    ¬ ∃ out, RemoveNonManifold tetraVertices tetraDup = some out ∧ out.length = 3 := by
  rw [rnm_tetra]
  rintro ⟨out, h, hlen⟩
  cases h
  simp [tetraDup] at hlen

/-- C9 (amended): for the tetrahedron on 4 vertices with any one of its 4 consistently
oriented faces duplicated, `RemoveNonManifold` returns the empty list.  Each of the
three edges of the duplicated face has 3 entries in its face list (the two copies and
the neighbouring face across that edge), and the non-manifold-edge pass removes every
face of a list with more than two entries, which are all 5 faces. -/
theorem C9_duplicated_face_removes_every_face :
    ∀ k : Fin 4,
      RemoveNonManifold tetraVertices (tetraFaces ++ [faceOf tetraFaces k]) = some [] ∧
      edgePassFaces (tetraFaces ++ [faceOf tetraFaces k]) = [] ∧
      (∀ j : Fin 3, (faceList (buildEdges (tetraFaces ++ [faceOf tetraFaces k]))
        ((faceOf tetraFaces k).GetEdge j)).length = 3 ∧
        k.val ∈ faceList (buildEdges (tetraFaces ++ [faceOf tetraFaces k]))
          ((faceOf tetraFaces k).GetEdge j) ∧
        4 ∈ faceList (buildEdges (tetraFaces ++ [faceOf tetraFaces k]))
          ((faceOf tetraFaces k).GetEdge j)) := by
  decide

/-- C2 (counterexample): in the output of `RemoveNonManifold` on `bowtieFan` the two
faces `(0,1,2)` and `(0,4,5)` are both incident to vertex 0 and no chain of output
faces links them. -/
theorem C2_counterexample :
    ValidIdx bowtieVertices.length bowtieFan ∧
    RemoveNonManifold bowtieVertices bowtieFan = some [⟨0, 1, 2⟩, ⟨0, 4, 5⟩] ∧
    ¬ SingleCluster [⟨0, 1, 2⟩, ⟨0, 4, 5⟩] [⟨0, 1, 2⟩, ⟨0, 4, 5⟩] 0 := by
  refine ⟨by decide, rnm_bowtie, fun h => ?_⟩
  have hchain := h ⟨0, 1, 2⟩ (by simp) ⟨0, 4, 5⟩ (by simp) (by decide) (by decide)
  have hstay : ∀ y, Relation.ReflTransGen
      (ChainStep [⟨0, 1, 2⟩, ⟨0, 4, 5⟩] 0) ⟨0, 1, 2⟩ y → y = ⟨0, 1, 2⟩ := by
    intro y hy
    induction hy with
    | refl => rfl
    | tail _ hstep ih =>
      subst ih
      obtain ⟨_, hc, _, _, hs⟩ := hstep
      simp only [List.mem_cons, List.mem_singleton, List.not_mem_nil, or_false] at hc
      rcases hc with rfl | rfl
      · rfl
      · exact absurd hs (by decide)
  exact absurd (hstay _ hchain) (by decide)

/-- C3 (counterexample): applying `RemoveNonManifold` to its own output on `bowtieFan`
removes the two remaining faces. -/
theorem C3_counterexample :
    ValidIdx bowtieVertices.length bowtieFan ∧
    RemoveNonManifold bowtieVertices bowtieFan = some [⟨0, 1, 2⟩, ⟨0, 4, 5⟩] ∧
    RemoveNonManifold bowtieVertices [⟨0, 1, 2⟩, ⟨0, 4, 5⟩] = some [] := by
  refine ⟨by decide, rnm_bowtie, by decide⟩

/-! ## The per-vertex neighbourhood lists -/

theorem length_pushNeighbor (vn : List (List Nat)) (u i : Nat) :
    (pushNeighbor vn u i).length = vn.length := by
  simp [pushNeighbor]

theorem mem_getD_pushNeighbor (vn : List (List Nat)) (u i v j : Nat) :
    j ∈ (pushNeighbor vn u i).getD v [] ↔
      j ∈ vn.getD v [] ∨ (u = v ∧ v < vn.length ∧ j = i) := by
  unfold pushNeighbor
  rw [List.getD_eq_getElem?_getD, List.getD_eq_getElem?_getD, List.getElem?_modify]
  by_cases hv : v < vn.length
  · rw [List.getElem?_eq_getElem hv]
    by_cases hu : u = v
    · simp [hu, hv]
    · simp [hu]
  · rw [List.getElem?_eq_none (by omega)]
    simp [hv]

theorem exists_index_cons (p : Triangle × Bool) (rest : FaceFlags) (s i : Nat)
    (P : Triangle → Prop) :
    (∃ k f, (p :: rest)[k]? = some (f, true) ∧ i = s + k ∧ P f) ↔
      (p.2 = true ∧ i = s ∧ P p.1) ∨
        (∃ k f, rest[k]? = some (f, true) ∧ i = s + 1 + k ∧ P f) := by
  constructor
  · rintro ⟨k, f, hk, hi, hP⟩
    cases k with
    | zero =>
      simp at hk
      left
      subst hk
      exact ⟨rfl, by simpa using hi, hP⟩
    | succ k =>
      right
      exact ⟨k, f, by simpa using hk, by omega, hP⟩
  · rintro (⟨h1, h2, h3⟩ | ⟨k, f, hk, hi, hP⟩)
    · refine ⟨0, p.1, ?_, by simpa using h2, h3⟩
      obtain ⟨f, fl⟩ := p
      simp at h1
      simp [h1]
    · exact ⟨k + 1, f, by simpa using hk, by omega, hP⟩

theorem buildVNeighborsFrom_spec (s : Nat) (ff : FaceFlags) (vn0 : List (List Nat)) :
    (buildVNeighborsFrom s ff vn0).length = vn0.length ∧
    ∀ v i, i ∈ (buildVNeighborsFrom s ff vn0).getD v [] ↔
      i ∈ vn0.getD v [] ∨
        (v < vn0.length ∧ ∃ k f, ff[k]? = some (f, true) ∧ i = s + k ∧ incident v f = true) := by
  induction ff generalizing s vn0 with
  | nil => simp [buildVNeighborsFrom]
  | cons p rest ih =>
    obtain ⟨f, flag⟩ := p
    rw [buildVNeighborsFrom]
    cases flag with
    | false =>
      simp only [Bool.false_eq_true, if_false]
      refine ⟨(ih (s + 1) vn0).1, fun v i => ?_⟩
      rw [(ih (s + 1) vn0).2 v i, exists_index_cons]
      simp
    | true =>
      simp only [if_true]
      obtain ⟨hlen, hmem⟩ := ih (s + 1)
        (pushNeighbor (pushNeighbor (pushNeighbor vn0 f.v0 s) f.v1 s) f.v2 s)
      simp only [length_pushNeighbor] at hlen hmem
      refine ⟨hlen, fun v i => ?_⟩
      rw [hmem v i, exists_index_cons]
      simp only [mem_getD_pushNeighbor, length_pushNeighbor, incident, Bool.or_eq_true,
        beq_iff_eq]
      constructor
      · rintro ((((h | ⟨h1, h2, h3⟩) | ⟨h1, h2, h3⟩) | ⟨h1, h2, h3⟩) | ⟨h1, h2⟩)
        · exact Or.inl h
        · exact Or.inr ⟨h2, Or.inl ⟨trivial, h3, Or.inl (Or.inl h1)⟩⟩
        · exact Or.inr ⟨h2, Or.inl ⟨trivial, h3, Or.inl (Or.inr h1)⟩⟩
        · exact Or.inr ⟨h2, Or.inl ⟨trivial, h3, Or.inr h1⟩⟩
        · exact Or.inr ⟨h1, Or.inr h2⟩
      · rintro (h | ⟨h1, (⟨_, h3, ((h4 | h4) | h4)⟩ | h2)⟩)
        · exact Or.inl (Or.inl (Or.inl (Or.inl h)))
        · exact Or.inl (Or.inl (Or.inl (Or.inr ⟨h4, h1, h3⟩)))
        · exact Or.inl (Or.inl (Or.inr ⟨h4, h1, h3⟩))
        · exact Or.inl (Or.inr ⟨h4, h1, h3⟩)
        · exact Or.inr ⟨h1, h2⟩

/-- The list `vneighbors[v]` holds exactly the indices of the faces that are kept when
the lists are built and have `v` as a corner. -/
theorem mem_buildVNeighbors (nv : Nat) (ff : FaceFlags) (v i : Nat) :
    i ∈ (buildVNeighbors nv ff).getD v [] ↔
      v < nv ∧ keptAt ff i = true ∧ incident v (faceAt ff i) = true := by
  unfold buildVNeighbors
  rw [(buildVNeighborsFrom_spec 0 ff (List.replicate nv [])).2 v i]
  have h0 : (List.replicate nv ([] : List Nat)).getD v [] = [] := by
    rw [List.getD_eq_getElem?_getD]
    by_cases hv : v < nv
    · simp [List.getElem?_replicate, hv]
    · simp [List.getElem?_replicate, hv]
  rw [h0]
  simp only [List.not_mem_nil, false_or, List.length_replicate, zero_add]
  constructor
  · rintro ⟨hv, k, f, hk, rfl, hf⟩
    exact ⟨hv, by simp [keptAt, hk], by simpa [faceAt, hk] using hf⟩
  · rintro ⟨hv, hk, hf⟩
    unfold keptAt at hk
    unfold faceAt at hf
    cases hget : ff[i]? with
    | none => rw [hget] at hk; cases hk
    | some p =>
      rw [hget] at hk hf
      obtain ⟨f, fl⟩ := p
      simp only at hk hf
      subst hk
      exact ⟨hv, i, f, hget, rfl, hf⟩

theorem length_buildVNeighbors (nv : Nat) (ff : FaceFlags) :
    (buildVNeighbors nv ff).length = nv := by
  unfold buildVNeighbors
  rw [(buildVNeighborsFrom_spec 0 ff (List.replicate nv [])).1]
  simp

/-! ## The clustering worklist only reaches connected entries -/

theorem getD_set_one_cases (sampled : List Nat) (j p : Nat)
    (h : (sampled.set j 1).getD p 0 = 1) : p = j ∨ sampled.getD p 0 = 1 := by
  rw [List.getD_eq_getElem?_getD, List.getElem?_set] at h
  by_cases hjp : j = p
  · exact Or.inl hjp.symm
  · right
    rw [if_neg hjp] at h
    rw [List.getD_eq_getElem?_getD]
    exact h

theorem getD_set_one_mono (sampled : List Nat) (j p : Nat) (h : sampled.getD p 0 = 1) :
    (sampled.set j 1).getD p 0 = 1 := by
  rw [List.getD_eq_getElem?_getD] at h
  rw [List.getD_eq_getElem?_getD, List.getElem?_set]
  by_cases hjp : j = p
  · subst hjp
    by_cases hj : j < sampled.length
    · simp [hj]
    · rw [List.getElem?_eq_none (by omega)] at h
      simp at h
  · rw [if_neg hjp]; exact h

theorem getD_set_one_self (sampled : List Nat) (j : Nat) (hj : j < sampled.length) :
    (sampled.set j 1).getD j 0 = 1 := by
  rw [List.getD_eq_getElem?_getD, List.getElem?_set]
  simp [hj]

theorem scanNeighbors_mono (ff : FaceFlags) (neighbors : List Nat) (front : Nat)
    (js sampled cluster : List Nat) :
    (∀ p, sampled.getD p 0 = 1 →
      (scanNeighbors ff neighbors front js (sampled, cluster)).1.getD p 0 = 1) ∧
    (scanNeighbors ff neighbors front js (sampled, cluster)).1.length = sampled.length := by
  induction js generalizing sampled cluster with
  | nil => exact ⟨fun _ h => h, rfl⟩
  | cons j js ih =>
    by_cases h : (j ≠ front ∧ sampled.getD j 0 ≠ 1) ∧
        sharesEdge (faceAt ff (neighbors.getD front 0)) (faceAt ff (neighbors.getD j 0)) = true
    · rw [scanNeighbors_push ff neighbors front j js sampled cluster h.1 h.2]
      obtain ⟨h3, h4⟩ := ih (sampled.set j 1) (cluster ++ [j])
      exact ⟨fun p hp => h3 p (getD_set_one_mono sampled j p hp), by simpa using h4⟩
    · rw [scanNeighbors_skip ff neighbors front j js sampled cluster h]
      exact ih sampled cluster

theorem growCluster_mono (ff : FaceFlags) (neighbors : List Nat) (fuel : Nat)
    (sampled cluster s' : List Nat)
    (h : growCluster ff neighbors fuel sampled cluster = some s') :
    (∀ p, sampled.getD p 0 = 1 → s'.getD p 0 = 1) ∧ s'.length = sampled.length := by
  induction fuel generalizing sampled cluster with
  | zero => simp [growCluster] at h
  | succ fuel ih =>
    cases cluster with
    | nil => simp [growCluster] at h
    | cons front rest =>
      obtain ⟨h3, h4⟩ := scanNeighbors_mono ff neighbors front
        (List.range neighbors.length) sampled (front :: rest)
      rw [growCluster] at h
      cases ht : (scanNeighbors ff neighbors front (List.range neighbors.length)
          (sampled, front :: rest)).2.tail with
      | nil =>
        rw [ht] at h
        simp only [Option.some.injEq] at h
        subst h
        exact ⟨h3, h4⟩
      | cons c cs =>
        rw [ht] at h
        simp only at h
        obtain ⟨g2, g3⟩ := ih _ (c :: cs) h
        exact ⟨fun p hp => g2 p (h3 p hp), g3.trans h4⟩

theorem scanNeighbors_sound (ff : FaceFlags) (neighbors : List Nat) (root front : Nat)
    (hfront : Relation.ReflTransGen (AdjPos ff neighbors) root front)
    (hf : front < neighbors.length) (js : List Nat) (hjs : ∀ j ∈ js, j < neighbors.length)
    (sampled cluster : List Nat)
    (hP : ∀ p, sampled.getD p 0 = 1 → Relation.ReflTransGen (AdjPos ff neighbors) root p)
    (hQ : ∀ c ∈ cluster, c < neighbors.length ∧
      Relation.ReflTransGen (AdjPos ff neighbors) root c) :
    (∀ p, (scanNeighbors ff neighbors front js (sampled, cluster)).1.getD p 0 = 1 →
      Relation.ReflTransGen (AdjPos ff neighbors) root p) ∧
    (∀ c ∈ (scanNeighbors ff neighbors front js (sampled, cluster)).2,
      c < neighbors.length ∧ Relation.ReflTransGen (AdjPos ff neighbors) root c) := by
  induction js generalizing sampled cluster with
  | nil => exact ⟨hP, hQ⟩
  | cons j js ih =>
    have hj : j < neighbors.length := hjs j (List.mem_cons_self _ _)
    have hjs' : ∀ i ∈ js, i < neighbors.length := fun i hi => hjs i (List.mem_cons_of_mem _ hi)
    by_cases h : (j ≠ front ∧ sampled.getD j 0 ≠ 1) ∧
        sharesEdge (faceAt ff (neighbors.getD front 0)) (faceAt ff (neighbors.getD j 0)) = true
    · rw [scanNeighbors_push ff neighbors front j js sampled cluster h.1 h.2]
      have hreach : Relation.ReflTransGen (AdjPos ff neighbors) root j :=
        hfront.tail ⟨hf, hj, h.2⟩
      exact ih hjs' (sampled.set j 1) (cluster ++ [j])
        (by
          intro p hp
          rcases getD_set_one_cases sampled j p hp with rfl | hp'
          · exact hreach
          · exact hP p hp')
        (by
          intro c hc
          rcases List.mem_append.1 hc with hc' | hc'
          · exact hQ c hc'
          · rw [List.mem_singleton] at hc'
            subst hc'
            exact ⟨hj, hreach⟩)
    · rw [scanNeighbors_skip ff neighbors front j js sampled cluster h]
      exact ih hjs' sampled cluster hP hQ

theorem growCluster_sound (ff : FaceFlags) (neighbors : List Nat) (root : Nat) (fuel : Nat)
    (sampled cluster s' : List Nat)
    (hP : ∀ p, sampled.getD p 0 = 1 → Relation.ReflTransGen (AdjPos ff neighbors) root p)
    (hQ : ∀ c ∈ cluster, c < neighbors.length ∧
      Relation.ReflTransGen (AdjPos ff neighbors) root c)
    (h : growCluster ff neighbors fuel sampled cluster = some s') :
    ∀ p, s'.getD p 0 = 1 → Relation.ReflTransGen (AdjPos ff neighbors) root p := by
  induction fuel generalizing sampled cluster with
  | zero => simp [growCluster] at h
  | succ fuel ih =>
    cases cluster with
    | nil => simp [growCluster] at h
    | cons front rest =>
      obtain ⟨hf, hfront⟩ := hQ front (List.mem_cons_self _ _)
      obtain ⟨h1, h2⟩ := scanNeighbors_sound ff neighbors root front hfront hf
        (List.range neighbors.length) (fun j hj => List.mem_range.1 hj) sampled (front :: rest)
        hP hQ
      rw [growCluster] at h
      cases ht : (scanNeighbors ff neighbors front (List.range neighbors.length)
          (sampled, front :: rest)).2.tail with
      | nil =>
        rw [ht] at h
        simp only [Option.some.injEq] at h
        subst h
        exact h1
      | cons c cs =>
        rw [ht] at h
        simp only at h
        exact ih _ (c :: cs) h1 (fun x hx => h2 x (List.mem_of_mem_tail (ht ▸ hx))) h

theorem countClusters_sound (ff : FaceFlags) (neighbors : List Nat) (is : List Nat)
    (sampled : List Nat) (nb : Nat) (st : List Nat × Nat)
    (his : ∀ i ∈ is, i < neighbors.length) (hlen : sampled.length = neighbors.length)
    (hinv : ClusterInv ff neighbors sampled nb)
    (h : countClusters ff neighbors is (sampled, nb) = some st) :
    ClusterInv ff neighbors st.1 st.2 ∧ (∀ p, sampled.getD p 0 = 1 → st.1.getD p 0 = 1) ∧
      (∀ i ∈ is, st.1.getD i 0 = 1) ∧ nb ≤ st.2 := by
  induction is generalizing sampled nb with
  | nil =>
    simp only [countClusters, Option.some.injEq] at h
    subst h
    exact ⟨hinv, fun _ hp => hp, fun i hi => absurd hi (List.not_mem_nil i), le_refl _⟩
  | cons i is ih =>
    have his' : ∀ j ∈ is, j < neighbors.length := fun j hj => his j (List.mem_cons_of_mem _ hj)
    have hi : i < neighbors.length := his i (List.mem_cons_self _ _)
    rw [countClusters] at h
    by_cases hs : sampled.getD i 0 = 1
    · rw [if_pos hs] at h
      obtain ⟨g1, g2, g3, g4⟩ := ih sampled nb his' hlen hinv h
      refine ⟨g1, g2, fun j hj => ?_, g4⟩
      rcases List.mem_cons.1 hj with rfl | hj'
      · exact g2 _ hs
      · exact g3 j hj'
    · rw [if_neg hs] at h
      cases hg : growCluster ff neighbors neighbors.length (sampled.set i 1) [i] with
      | none => rw [hg] at h; simp at h
      | some s1 =>
        rw [hg] at h
        simp only at h
        obtain ⟨hmono, hlen1⟩ := growCluster_mono ff neighbors neighbors.length
          (sampled.set i 1) [i] s1 hg
        have hinv1 : ClusterInv ff neighbors s1 (nb + 1) := by
          refine ⟨fun h0 => by omega, fun h1 => ?_⟩
          have hnb : nb = 0 := by omega
          refine ⟨i, growCluster_sound ff neighbors i neighbors.length (sampled.set i 1) [i] s1
            ?_ ?_ hg⟩
          · intro p hp
            rcases getD_set_one_cases sampled i p hp with rfl | hp'
            · exact Relation.ReflTransGen.refl
            · exact absurd hp' (hinv.1 hnb p)
          · intro c hc
            rw [List.mem_singleton] at hc
            subst hc
            exact ⟨hi, Relation.ReflTransGen.refl⟩
        obtain ⟨g1, g2, g3, g4⟩ := ih s1 (nb + 1) his'
          (by rw [hlen1]; simpa using hlen) hinv1 h
        refine ⟨g1, fun p hp => g2 p (hmono p (getD_set_one_mono sampled i p hp)),
          fun j hj => ?_, by omega⟩
        rcases List.mem_cons.1 hj with rfl | hj'
        · exact g2 _ (hmono _ (getD_set_one_self sampled _ (by rw [hlen]; exact hi)))
        · exact g3 j hj'

/-- When the cluster count of a neighbourhood list is at most 1, all its entries are
connected to one of them. -/
theorem nbCluster_le_one_connected (ff : FaceFlags) (neighbors : List Nat) (nb : Nat)
    (h : nbCluster ff neighbors = some nb) (hnb : nb ≤ 1) :
    ∃ root, ∀ p, p < neighbors.length →
      Relation.ReflTransGen (AdjPos ff neighbors) root p := by
  unfold nbCluster at h
  cases hc : countClusters ff neighbors (List.range neighbors.length)
      (List.replicate neighbors.length 0, 0) with
  | none => rw [hc] at h; simp at h
  | some st =>
    rw [hc] at h
    simp only [Option.map_some', Option.some.injEq] at h
    have hinit : ClusterInv ff neighbors (List.replicate neighbors.length 0) 0 := by
      refine ⟨fun _ p => ?_, fun h => by omega⟩
      rw [List.getD_eq_getElem?_getD, List.getElem?_replicate]
      by_cases hp : p < neighbors.length <;> simp [hp]
    obtain ⟨g1, _, g3, _⟩ := countClusters_sound ff neighbors (List.range neighbors.length)
      (List.replicate neighbors.length 0) 0 st (fun i hi => List.mem_range.1 hi) (by simp)
      hinit hc
    have hcases : st.2 = 0 ∨ st.2 = 1 := by omega
    rcases hcases with h0 | h1
    · refine ⟨0, fun p hp => ?_⟩
      exact absurd (g3 p (List.mem_range.2 hp)) (g1.1 h0 p)
    · obtain ⟨root, hroot⟩ := g1.2 h1
      exact ⟨root, fun p hp => hroot p (g3 p (List.mem_range.2 hp))⟩

/-! ## What the vertex pass guarantees -/

theorem sharesEdge_comm (t t' : Triangle) : sharesEdge t t' = sharesEdge t' t := by
  simp only [sharesEdge, PairPred_comm (t'.GetEdge _) (t.GetEdge _), Bool.or_assoc,
    Bool.or_comm, Bool.or_left_comm]

theorem sharesEdge_self (t : Triangle) : sharesEdge t t = true := by
  simp [sharesEdge, PairPred]

theorem chainStep_symm (fs : List Triangle) (v : Nat) : Symmetric (ChainStep fs v) := by
  rintro s t ⟨h1, h2, h3, h4, h5⟩
  exact ⟨h2, h1, h4, h3, by rw [sharesEdge_comm]; exact h5⟩

theorem mem_resultFaces_of_kept (ff : FaceFlags) (i : Nat) (h : keptAt ff i = true) :
    faceAt ff i ∈ resultFaces ff := by
  unfold keptAt at h
  unfold faceAt resultFaces
  cases hget : ff[i]? with
  | none => rw [hget] at h; cases h
  | some p =>
    rw [hget] at h
    simp only at h ⊢
    rw [List.mem_map]
    exact ⟨p, List.mem_filter.2 ⟨List.mem_iff_getElem?.2 ⟨i, hget⟩, h⟩, rfl⟩

theorem markNonManifoldVertices_shrinks (vn : List (List Nat)) (ff ff' : FaceFlags)
    (h : markNonManifoldVertices vn ff = some ff') : Shrinks ff ff' := by
  obtain ⟨x, hx, hs⟩ := markNonManifoldVertices_spec vn ff
  rw [h] at hx
  cases hx
  exact hs

/-- A face that is kept at the end lies only in neighbourhood lists whose cluster count
was at most 1. -/
theorem markNonManifoldVertices_kept (vn : List (List Nat)) (ff ff' : FaceFlags)
    (h : markNonManifoldVertices vn ff = some ff') (neighbors : List Nat)
    (hmem : neighbors ∈ vn) (i : Nat) (hi : i ∈ neighbors) (hk : keptAt ff' i = true) :
    ∃ ffc nb, ffc.map Prod.fst = ff.map Prod.fst ∧ nbCluster ffc neighbors = some nb ∧
      nb ≤ 1 := by
  induction vn generalizing ff with
  | nil => cases hmem
  | cons n0 rest ih =>
    rw [markNonManifoldVertices] at h
    cases hnb : nbCluster ff n0 with
    | none => rw [hnb] at h; simp at h
    | some nb =>
      rw [hnb] at h
      simp only at h
      by_cases hgt : nb > 1
      · rw [if_pos hgt] at h
        rcases List.mem_cons.1 hmem with rfl | hmem'
        · have h1 := keptAt_foldl_markRemoved neighbors ff i hi
          have h2 := (markNonManifoldVertices_shrinks rest _ ff' h).2 i hk
          rw [h1] at h2
          cases h2
        · obtain ⟨ffc, nb', g1, g2, g3⟩ := ih _ h hmem'
          exact ⟨ffc, nb', g1.trans (shrinks_foldl_markRemoved n0 ff).1, g2, g3⟩
      · rw [if_neg hgt] at h
        rcases List.mem_cons.1 hmem with rfl | hmem'
        · exact ⟨ff, nb, rfl, hnb, by omega⟩
        · exact ih ff h hmem'

theorem getD_nat_eq (l : List Nat) (a : Nat) (ha : a < l.length) : l.getD a 0 = l[a] := by
  rw [List.getD_eq_getElem?_getD, List.getElem?_eq_getElem ha, Option.getD_some]

theorem getD_nat_mem (l : List Nat) (a : Nat) (ha : a < l.length) : l.getD a 0 ∈ l := by
  rw [getD_nat_eq l a ha]
  exact List.getElem_mem ha

theorem getD_mem_of_lt (l : List (List Nat)) (v : Nat) (hv : v < l.length) :
    l.getD v [] ∈ l := by
  rw [List.getD_eq_getElem?_getD, List.getElem?_eq_getElem hv]
  exact List.getElem_mem hv

theorem incident_lt_of_valid (nv : Nat) (faces : List Triangle) (hvalid : ValidIdx nv faces)
    (f : Triangle) (hf : f ∈ faces) (v : Nat) (hv : incident v f = true) : v < nv := by
  obtain ⟨h0, h1, h2⟩ := hvalid f hf
  simp only [incident, Bool.or_eq_true, beq_iff_eq] at hv
  rcases hv with (h | h) | h <;> omega

/-- Two faces kept at the end and incident to `v` are linked by a chain of faces of the
neighbourhood list of `v`. -/
theorem kept_faces_linked (vertices : List Point_3) (faces : List Triangle)
    (hvalid : ValidIdx vertices.length faces) (ff : FaceFlags)
    (hmark : markNonManifoldVertices (edgeStage vertices.length faces).1
      (edgeStage vertices.length faces).2 = some ff)
    (hsh : Shrinks (markNonManifoldEdges (buildEdges faces) ([], initFlags faces)).2 ff)
    (v : Nat) : SingleCluster (edgePassFaces faces) (resultFaces ff) v := by
  intro s hs t ht hsv htv
  have hmap := map_fst_final faces ff hsh
  have hsub : (resultFaces ff).Sublist faces := hmap ▸ resultFaces_sublist ff
  have hv : v < vertices.length :=
    incident_lt_of_valid _ faces hvalid s (hsub.subset hs) v hsv
  -- the neighbourhood list of `v`
  have hvn : ∀ k, k ∈ (edgeStage vertices.length faces).1.getD v [] ↔
      v < vertices.length ∧
        keptAt (markNonManifoldEdges (buildEdges faces) ([], initFlags faces)).2 k = true ∧
        incident v (faceAt (markNonManifoldEdges (buildEdges faces)
          ([], initFlags faces)).2 k) = true :=
    fun k => mem_buildVNeighbors _ _ v k
  have hidx : ∀ x, x ∈ resultFaces ff → incident v x = true →
      ∃ i, i ∈ (edgeStage vertices.length faces).1.getD v [] ∧
        faceAt (markNonManifoldEdges (buildEdges faces) ([], initFlags faces)).2 i = x ∧
        keptAt ff i = true := by
    intro x hx hxv
    obtain ⟨i, hi⟩ := mem_resultFaces hx
    have hk : keptAt ff i = true := by simp [keptAt, hi]
    have hface : faceAt ff i = x := by simp [faceAt, hi]
    have hface1 := hsh.faceAt i
    rw [hface] at hface1
    exact ⟨i, (hvn i).2 ⟨hv, hsh.2 i hk, by rw [← hface1]; exact hxv⟩, hface1.symm, hk⟩
  obtain ⟨i, hi, hfi, hki⟩ := hidx s hs hsv
  obtain ⟨j, hj, hfj, _⟩ := hidx t ht htv
  have hlenvn : (edgeStage vertices.length faces).1.length = vertices.length :=
    length_buildVNeighbors _ _
  obtain ⟨ffc, nb, hffc, hnb, hle⟩ := markNonManifoldVertices_kept _ _ ff hmark
    ((edgeStage vertices.length faces).1.getD v [])
    (getD_mem_of_lt _ v (by rw [hlenvn]; exact hv)) i hi hki
  obtain ⟨root, hroot⟩ := nbCluster_le_one_connected ffc _ nb hnb hle
  have hfc : ∀ k, faceAt ffc k =
      faceAt (markNonManifoldEdges (buildEdges faces) ([], initFlags faces)).2 k := by
    intro k
    rw [faceAt_eq_of_map_fst hffc k]
    exact (shrinks_markProblematic _ _ _).faceAt k
  -- every entry of the list is a face of the edge pass incident to `v`
  have hentry : ∀ a, a < ((edgeStage vertices.length faces).1.getD v []).length →
      faceAt ffc (((edgeStage vertices.length faces).1.getD v []).getD a 0) ∈
        edgePassFaces faces ∧
      incident v (faceAt ffc (((edgeStage vertices.length faces).1.getD v []).getD a 0))
        = true := by
    intro a ha
    have hmem : ((edgeStage vertices.length faces).1.getD v []).getD a 0 ∈
        (edgeStage vertices.length faces).1.getD v [] := getD_nat_mem _ a ha
    obtain ⟨_, h2, h3⟩ := (hvn _).1 hmem
    rw [hfc]
    exact ⟨mem_resultFaces_of_kept _ _ h2, h3⟩
  have hlift : ∀ p, p < ((edgeStage vertices.length faces).1.getD v []).length →
      Relation.ReflTransGen (ChainStep (edgePassFaces faces) v)
        (faceAt ffc (((edgeStage vertices.length faces).1.getD v []).getD root 0))
        (faceAt ffc (((edgeStage vertices.length faces).1.getD v []).getD p 0)) := by
    intro p hp
    refine Relation.ReflTransGen.lift
      (fun a => faceAt ffc (((edgeStage vertices.length faces).1.getD v []).getD a 0)) ?_
      (hroot p hp)
    rintro a b ⟨ha, hb, hab⟩
    exact ⟨(hentry a ha).1, (hentry b hb).1, (hentry a ha).2, (hentry b hb).2, hab⟩
  obtain ⟨p, hp, hpi⟩ := List.mem_iff_getElem.1 hi
  obtain ⟨q, hq, hqj⟩ := List.mem_iff_getElem.1 hj
  have hps : faceAt ffc (((edgeStage vertices.length faces).1.getD v []).getD p 0) = s := by
    rw [getD_nat_eq _ p hp, hpi, hfc, hfi]
  have hqt : faceAt ffc (((edgeStage vertices.length faces).1.getD v []).getD q 0) = t := by
    rw [getD_nat_eq _ q hq, hqj, hfc, hfj]
  have h1 := hlift p hp
  have h2 := hlift q hq
  rw [hps] at h1
  rw [hqt] at h2
  exact (Relation.ReflTransGen.symmetric (chainStep_symm _ v) h1).trans h2

/-- C2 (amended): for every vertex list and triangle list with valid indices,
`RemoveNonManifold` returns, and any two output faces incident to the same vertex are
linked by a chain of faces incident to that vertex in which consecutive faces share an
unordered edge; the faces of the chain are faces kept by the non-manifold-edge pass and
need not be output faces. -/
theorem C2_output_faces_linked_through_edge_pass_faces (vertices : List Point_3)
    (faces : List Triangle) (hvalid : ValidIdx vertices.length faces) :
    ∃ out, RemoveNonManifold vertices faces = some out ∧
      ∀ v, SingleCluster (edgePassFaces faces) out v := by
  obtain ⟨ff, hmark, hres, hsh⟩ := removeNonManifold_flags vertices faces
  exact ⟨resultFaces ff, hres, kept_faces_linked vertices faces hvalid ff hmark hsh⟩

/-- Witness of C2 (amended) on the bowtie fan. -/
theorem C2_witness :
    ∃ out, RemoveNonManifold bowtieVertices bowtieFan = some out ∧
      ∀ v, SingleCluster (edgePassFaces bowtieFan) out v :=
  C2_output_faces_linked_through_edge_pass_faces bowtieVertices bowtieFan (by decide)

/-! ## Inputs on which the edge pass removes nothing -/

theorem map_fst_pushFace (edges : EdgeTable) (k : Nat × Nat) (i : Nat) :
    (EdgeTable.pushFace edges k i).map Prod.fst = edges.map Prod.fst := by
  induction edges with
  | nil => rfl
  | cons p rest ih =>
    obtain ⟨k', e⟩ := p
    unfold EdgeTable.pushFace
    by_cases hk : PairPred k' k = true
    · simp [hk]
    · simp [hk, ih]

theorem find_eq_none_iff (edges : EdgeTable) (k : Nat × Nat) :
    edges.find k = none ↔ ∀ k' ∈ edges.map Prod.fst, PairPred k' k = false := by
  induction edges with
  | nil => simp [EdgeTable.find]
  | cons p rest ih =>
    obtain ⟨k', e⟩ := p
    unfold EdgeTable.find
    by_cases hk : PairPred k' k = true
    · simp [hk]
    · rw [if_neg hk, ih]
      simp only [List.map_cons, List.mem_cons, forall_eq_or_imp]
      exact ⟨fun h => ⟨by simpa using hk, h⟩, fun h => h.2⟩

theorem distinctKeys_addEdge (edges : EdgeTable) (a b i : Nat)
    (h : DistinctKeys edges) : DistinctKeys (addEdge edges a b i) := by
  unfold DistinctKeys at h ⊢
  unfold addEdge
  cases hf : edges.find (a, b) with
  | none =>
    simp only [map_fst_pushFace, List.map_append, List.map_cons, List.map_nil]
    rw [List.pairwise_append]
    refine ⟨h, List.pairwise_singleton _ _, ?_⟩
    intro x hx y hy
    rw [List.mem_singleton] at hy
    subst hy
    exact (find_eq_none_iff edges _).1 hf x hx
  | some e =>
    simp only [map_fst_pushFace]
    exact h

theorem distinctKeys_buildEdgesFrom (s : Nat) (fs : List Triangle) (edges : EdgeTable)
    (h : DistinctKeys edges) : DistinctKeys (buildEdgesFrom s fs edges) := by
  induction fs generalizing s edges with
  | nil => exact h
  | cons f fs ih =>
    unfold buildEdgesFrom
    exact ih _ _ (distinctKeys_addEdge _ _ _ _ (distinctKeys_addEdge _ _ _ _
      (distinctKeys_addEdge _ _ _ _ h)))

theorem distinctKeys_buildEdges (faces : List Triangle) : DistinctKeys (buildEdges faces) :=
  distinctKeys_buildEdgesFrom 0 faces [] List.Pairwise.nil

theorem find_of_mem_of_distinct (edges : EdgeTable) (k : Nat × Nat) (e : Edge)
    (hnd : DistinctKeys edges) (hmem : (k, e) ∈ edges) : edges.find k = some e := by
  unfold DistinctKeys at hnd
  induction edges with
  | nil => cases hmem
  | cons p rest ih =>
    obtain ⟨k', e'⟩ := p
    simp only [List.map_cons, List.pairwise_cons] at hnd
    unfold EdgeTable.find
    rcases List.mem_cons.1 hmem with heq | hmem'
    · cases heq
      rw [if_pos (pairPred_self k)]
    · have hk : ¬ PairPred k' k = true := by
        rw [hnd.1 k (List.mem_map.2 ⟨(k, e), hmem', rfl⟩)]
        exact Bool.false_ne_true
      rw [if_neg hk]
      exact ih hnd.2 hmem'

/-- Every entry of the edge table built from `faces` stores the incidences of its key. -/
theorem entry_faces_eq_incidences (faces : List Triangle) (k : Nat × Nat) (e : Edge)
    (hmem : (k, e) ∈ buildEdges faces) : e._faces = incidences 0 faces k := by
  have hfind := find_of_mem_of_distinct _ k e (distinctKeys_buildEdges faces) hmem
  have := faceList_buildEdges faces k
  unfold faceList at this
  rw [hfind] at this
  exact this

theorem markNonManifoldEdges_noop (edges : EdgeTable) (pv : List Nat) (ff : FaceFlags)
    (h : ∀ k e, (k, e) ∈ edges → e._faces.length ≤ 2) :
    markNonManifoldEdges edges (pv, ff) = (pv, ff) := by
  induction edges with
  | nil => rfl
  | cons p rest ih =>
    obtain ⟨k, e⟩ := p
    unfold markNonManifoldEdges
    rw [if_pos (h k e (List.mem_cons_self _ _))]
    exact ih (fun k' e' hm => h k' e' (List.mem_cons_of_mem _ hm))

theorem length_incidences (s : Nat) (fs : List Triangle) (e : Nat × Nat) :
    (incidences s fs e).length = (fs.map (edgeCount e)).sum := by
  induction fs generalizing s with
  | nil => rfl
  | cons f fs ih =>
    unfold incidences
    simp only [List.length_append, ih (s + 1), List.map_cons, List.sum_cons, edgeCount]
    split_ifs <;> simp

theorem pairPred_side_iff (x y a b : Nat) :
    PairPred (x, y) (a, b) = true ↔ (x = a ∧ y = b) ∨ (x = b ∧ y = a) := by
  simp only [PairPred, Bool.or_eq_true, Bool.and_eq_true, beq_iff_eq]

theorem hasEdge_iff (a b : Nat) (f : Triangle) :
    hasEdge a b f = true ↔
      PairPred (f.v0, f.v1) (a, b) = true ∨ PairPred (f.v1, f.v2) (a, b) = true ∨
        PairPred (f.v2, f.v0) (a, b) = true := by
  simp only [hasEdge, hasDirectedEdge, pairPred_side_iff, Bool.or_eq_true, Bool.and_eq_true,
    beq_iff_eq]
  tauto

/-- A face has entries in the list of an edge exactly when one of its sides joins the two
endpoints, in either direction. -/
theorem edgeCount_pos_iff (a b : Nat) (f : Triangle) :
    0 < edgeCount (a, b) f ↔ hasEdge a b f = true := by
  rw [hasEdge_iff]
  unfold edgeCount
  constructor
  · intro h
    by_contra hc
    push_neg at hc
    obtain ⟨h1, h2, h3⟩ := hc
    rw [if_neg h1, if_neg h2, if_neg h3] at h
    omega
  · rintro (h | h | h)
    · rw [if_pos h]; omega
    · rw [if_pos h]; omega
    · rw [if_pos h]; omega

theorem mem_incidences_of_hasEdge (s : Nat) (fs : List Triangle) (a b k : Nat) (f : Triangle)
    (hk : fs[k]? = some f) (he : hasEdge a b f = true) :
    s + k ∈ incidences s fs (a, b) := by
  induction fs generalizing s k with
  | nil => simp at hk
  | cons g fs ih =>
    unfold incidences
    cases k with
    | zero =>
      simp at hk
      subst hk
      rcases (hasEdge_iff a b g).1 he with h | h | h <;> simp [h]
    | succ k =>
      simp at hk
      have := ih (s + 1) k hk
      have h2 : s + (k + 1) = s + 1 + k := by omega
      rw [h2]
      simp [this]

/-- A face with a side whose face list has more than two entries is not kept by the
non-manifold-edge pass, whatever the direction of the side. -/
theorem not_kept_of_long_edge (faces : List Triangle) (a b i : Nat) (f : Triangle)
    (hi : faces[i]? = some f) (he : hasEdge a b f = true)
    (hlong : 2 < (incidences 0 faces (a, b)).length) :
    keptAt (markNonManifoldEdges (buildEdges faces) ([], initFlags faces)).2 i = false := by
  have hmem : i ∈ incidences 0 faces (a, b) := by
    have := mem_incidences_of_hasEdge 0 faces a b i f hi he
    simpa using this
  have hfl := faceList_buildEdges faces (a, b)
  unfold faceList at hfl
  cases hfind : (buildEdges faces).find (a, b) with
  | none =>
    rw [hfind] at hfl
    rw [← hfl] at hmem
    cases hmem
  | some e =>
    rw [hfind] at hfl
    simp only at hfl
    obtain ⟨k', hk', _⟩ := find_mem hfind
    exact (markNonManifoldEdges_spec (buildEdges faces) [] (initFlags faces)).2 k' e
      hk' (by rw [hfl]; exact hlong) i (by rw [hfl]; exact hmem)

/-- In the output of the flag passes every edge has at most two entries, counted once
per side of each output face. -/
theorem output_incidences_le_two (faces : List Triangle) (ff : FaceFlags)
    (hsh : Shrinks (markNonManifoldEdges (buildEdges faces) ([], initFlags faces)).2 ff)
    (e : Nat × Nat) : (incidences 0 (resultFaces ff) e).length ≤ 2 := by
  obtain ⟨a, b⟩ := e
  have hmap := map_fst_final faces ff hsh
  have hsub : (resultFaces ff).Sublist faces := hmap ▸ resultFaces_sublist ff
  rw [length_incidences]
  by_cases hlong : 2 < (incidences 0 faces (a, b)).length
  · have hzero : ∀ x ∈ (resultFaces ff).map (edgeCount (a, b)), x = 0 := by
      intro x hx
      obtain ⟨t, ht, rfl⟩ := List.mem_map.1 hx
      by_contra hne
      have hpos : 0 < edgeCount (a, b) t := Nat.pos_of_ne_zero hne
      have he := (edgeCount_pos_iff a b t).1 hpos
      obtain ⟨i, hi⟩ := mem_resultFaces ht
      have hface : faces[i]? = some t := by
        rw [← hmap, List.getElem?_map, hi]; rfl
      have hk : keptAt ff i = true := by simp [keptAt, hi]
      have h1 := not_kept_of_long_edge faces a b i t hface he hlong
      rw [hsh.2 i hk] at h1
      cases h1
    rw [List.sum_eq_zero hzero]
    omega
  · have h1 : ((resultFaces ff).map (edgeCount (a, b))).sum ≤
        (faces.map (edgeCount (a, b))).sum :=
      (hsub.map (edgeCount (a, b))).sum_le_sum (fun _ _ => Nat.zero_le _)
    rw [length_incidences] at hlong
    omega

theorem resultFaces_initFlags (faces : List Triangle) : resultFaces (initFlags faces) = faces := by
  unfold resultFaces initFlags
  rw [List.filter_eq_self.2 (by simp)]
  simp [Function.comp_def]

/-! ## The clustering worklist reaches every connected entry -/

theorem scanNeighbors_complete (ff : FaceFlags) (neighbors : List Nat) (front : Nat)
    (js sampled cluster : List Nat) (hjs : ∀ j ∈ js, j < neighbors.length)
    (hlen : sampled.length = neighbors.length)
    (hfront : sampled.getD front 0 = 1) (hI1 : ∀ c ∈ cluster, sampled.getD c 0 = 1) :
    (∀ b ∈ js, AdjPos ff neighbors front b →
      (scanNeighbors ff neighbors front js (sampled, cluster)).1.getD b 0 = 1) ∧
    (∀ p, (scanNeighbors ff neighbors front js (sampled, cluster)).1.getD p 0 = 1 →
      sampled.getD p 0 = 1 ∨ p ∈ (scanNeighbors ff neighbors front js (sampled, cluster)).2) ∧
    (∀ c ∈ (scanNeighbors ff neighbors front js (sampled, cluster)).2,
      (scanNeighbors ff neighbors front js (sampled, cluster)).1.getD c 0 = 1) := by
  induction js generalizing sampled cluster with
  | nil =>
    exact ⟨fun b hb => absurd hb (List.not_mem_nil b), fun p hp => Or.inl hp, hI1⟩
  | cons j js ih =>
    have hj : j < neighbors.length := hjs j (List.mem_cons_self _ _)
    have hjs' : ∀ i ∈ js, i < neighbors.length := fun i hi => hjs i (List.mem_cons_of_mem _ hi)
    by_cases h : (j ≠ front ∧ sampled.getD j 0 ≠ 1) ∧
        sharesEdge (faceAt ff (neighbors.getD front 0)) (faceAt ff (neighbors.getD j 0)) = true
    · rw [scanNeighbors_push ff neighbors front j js sampled cluster h.1 h.2]
      have hmono := (scanNeighbors_mono ff neighbors front js (sampled.set j 1)
        (cluster ++ [j])).1
      have hlen' : (sampled.set j 1).length = neighbors.length := by simpa using hlen
      obtain ⟨_, ⟨added, hadd⟩, _⟩ := scanNeighbors_spec ff neighbors front js
        (sampled.set j 1) (cluster ++ [j]) (by rw [hlen']; exact hjs')
      have hjset : (sampled.set j 1).getD j 0 = 1 :=
        getD_set_one_self sampled j (by rw [hlen]; exact hj)
      obtain ⟨g1, g2, g3⟩ := ih (sampled.set j 1) (cluster ++ [j]) hjs' hlen'
        (getD_set_one_mono sampled j front hfront)
        (by
          intro c hc
          rcases List.mem_append.1 hc with hc' | hc'
          · exact getD_set_one_mono sampled j c (hI1 c hc')
          · rw [List.mem_singleton] at hc'
            subst hc'
            exact hjset)
      refine ⟨fun b hb hadj => ?_, fun p hp => ?_, g3⟩
      · rcases List.mem_cons.1 hb with rfl | hb'
        · exact hmono _ hjset
        · exact g1 b hb' hadj
      · rcases g2 p hp with hp' | hp'
        · rcases getD_set_one_cases sampled j p hp' with rfl | hp''
          · right
            rw [hadd]
            simp
          · exact Or.inl hp''
        · exact Or.inr hp'
    · rw [scanNeighbors_skip ff neighbors front j js sampled cluster h]
      have hmono := (scanNeighbors_mono ff neighbors front js sampled cluster).1
      obtain ⟨g1, g2, g3⟩ := ih sampled cluster hjs' hlen hfront hI1
      refine ⟨fun b hb hadj => ?_, g2, g3⟩
      rcases List.mem_cons.1 hb with rfl | hb'
      · apply hmono
        by_contra hns
        by_cases hbf : b = front
        · subst hbf; exact hns hfront
        · exact h ⟨⟨hbf, hns⟩, hadj.2.2⟩
      · exact g1 b hb' hadj

theorem growCluster_complete (ff : FaceFlags) (neighbors : List Nat) (fuel : Nat)
    (sampled cluster s' : List Nat) (hlen : sampled.length = neighbors.length)
    (hI1 : ∀ c ∈ cluster, sampled.getD c 0 = 1)
    (hI2 : ClosedExcept ff neighbors sampled cluster)
    (h : growCluster ff neighbors fuel sampled cluster = some s') :
    ClosedExcept ff neighbors s' [] := by
  induction fuel generalizing sampled cluster with
  | zero => simp [growCluster] at h
  | succ fuel ih =>
    cases cluster with
    | nil => simp [growCluster] at h
    | cons front rest =>
      have hfront : sampled.getD front 0 = 1 := hI1 front (List.mem_cons_self _ _)
      obtain ⟨g1, g2, g3⟩ := scanNeighbors_complete ff neighbors front
        (List.range neighbors.length) sampled (front :: rest)
        (fun j hj => List.mem_range.1 hj) hlen hfront hI1
      obtain ⟨hmono, hlen1⟩ := scanNeighbors_mono ff neighbors front
        (List.range neighbors.length) sampled (front :: rest)
      obtain ⟨_, ⟨added, hadd⟩, _⟩ := scanNeighbors_spec ff neighbors front
        (List.range neighbors.length) sampled (front :: rest)
        (by intro j hj; rw [hlen]; exact List.mem_range.1 hj)
      -- the state after `pop_front`
      have hclosed : ClosedExcept ff neighbors
          (scanNeighbors ff neighbors front (List.range neighbors.length)
            (sampled, front :: rest)).1
          (scanNeighbors ff neighbors front (List.range neighbors.length)
            (sampled, front :: rest)).2.tail := by
        intro a b hab ha hnot
        rcases g2 a ha with ha' | ha'
        · by_cases hac : a ∈ front :: rest
          · rcases List.mem_cons.1 hac with rfl | har
            · exact g1 b (List.mem_range.2 hab.2.1) hab
            · exfalso
              apply hnot
              rw [hadd]
              simp [har]
          · exact hmono b (hI2 a b hab ha' hac)
        · rw [hadd] at ha' hnot
          simp only [List.cons_append, List.tail_cons] at hnot
          rcases List.mem_cons.1 ha' with rfl | har
          · exact g1 b (List.mem_range.2 hab.2.1) hab
          · exact absurd har hnot
      rw [growCluster] at h
      cases ht : (scanNeighbors ff neighbors front (List.range neighbors.length)
          (sampled, front :: rest)).2.tail with
      | nil =>
        rw [ht] at h hclosed
        simp only [Option.some.injEq] at h
        subst h
        exact hclosed
      | cons c cs =>
        rw [ht] at h hclosed
        simp only at h
        exact ih _ (c :: cs) (hlen1.trans hlen)
          (fun x hx => g3 x (List.mem_of_mem_tail (ht ▸ hx))) hclosed h

theorem closed_reach (ff : FaceFlags) (neighbors sampled : List Nat)
    (hc : ClosedExcept ff neighbors sampled []) (a b : Nat)
    (hab : Relation.ReflTransGen (AdjPos ff neighbors) a b) (ha : sampled.getD a 0 = 1) :
    sampled.getD b 0 = 1 := by
  induction hab with
  | refl => exact ha
  | tail _ hstep ih => exact hc _ _ hstep ih (List.not_mem_nil _)

theorem countClusters_complete (ff : FaceFlags) (neighbors : List Nat)
    (hconn : ∀ p q, p < neighbors.length → q < neighbors.length →
      Relation.ReflTransGen (AdjPos ff neighbors) p q)
    (is : List Nat) (sampled : List Nat) (nb : Nat) (st : List Nat × Nat)
    (his : ∀ i ∈ is, i < neighbors.length) (hlen : sampled.length = neighbors.length)
    (hclosed : ClosedExcept ff neighbors sampled [])
    (hnb : nb = 0 ∨ (nb = 1 ∧ ∀ p, p < neighbors.length → sampled.getD p 0 = 1))
    (h : countClusters ff neighbors is (sampled, nb) = some st) : st.2 ≤ 1 := by
  induction is generalizing sampled nb with
  | nil =>
    simp only [countClusters, Option.some.injEq] at h
    subst h
    rcases hnb with h0 | h1
    · simp [h0]
    · simp [h1.1]
  | cons i is ih =>
    have his' : ∀ j ∈ is, j < neighbors.length := fun j hj => his j (List.mem_cons_of_mem _ hj)
    have hi : i < neighbors.length := his i (List.mem_cons_self _ _)
    rw [countClusters] at h
    by_cases hs : sampled.getD i 0 = 1
    · rw [if_pos hs] at h
      exact ih sampled nb his' hlen hclosed hnb h
    · rw [if_neg hs] at h
      have hnb0 : nb = 0 := by
        rcases hnb with h0 | h1
        · exact h0
        · exact absurd (h1.2 i hi) hs
      cases hg : growCluster ff neighbors neighbors.length (sampled.set i 1) [i] with
      | none => rw [hg] at h; simp at h
      | some s1 =>
        rw [hg] at h
        simp only at h
        have hlen' : (sampled.set i 1).length = neighbors.length := by simpa using hlen
        have hiset : (sampled.set i 1).getD i 0 = 1 :=
          getD_set_one_self sampled i (by rw [hlen]; exact hi)
        obtain ⟨hmono, hlen1⟩ := growCluster_mono ff neighbors neighbors.length
          (sampled.set i 1) [i] s1 hg
        have hc1 : ClosedExcept ff neighbors s1 [] :=
          growCluster_complete ff neighbors neighbors.length (sampled.set i 1) [i] s1 hlen'
            (by
              intro c hc
              rw [List.mem_singleton] at hc
              subst hc
              exact hiset)
            (by
              intro a b hab ha hnot
              rcases getD_set_one_cases sampled i a ha with rfl | ha'
              · exact absurd (List.mem_singleton.2 rfl) hnot
              · exact getD_set_one_mono sampled i b (hclosed a b hab ha' (List.not_mem_nil _)))
            hg
        exact ih s1 (nb + 1) his' (hlen1.trans hlen') hc1
          (Or.inr ⟨by omega, fun p hp =>
            closed_reach ff neighbors s1 hc1 i p (hconn i p hi hp) (hmono i hiset)⟩) h

/-- When all entries of a neighbourhood list are connected, its cluster count is at
most 1. -/
theorem nbCluster_connected_le_one (ff : FaceFlags) (neighbors : List Nat)
    (hconn : ∀ p q, p < neighbors.length → q < neighbors.length →
      Relation.ReflTransGen (AdjPos ff neighbors) p q) :
    ∃ nb, nbCluster ff neighbors = some nb ∧ nb ≤ 1 := by
  obtain ⟨nb, hnb⟩ := nbCluster_isSome ff neighbors
  refine ⟨nb, hnb, ?_⟩
  unfold nbCluster at hnb
  cases hc : countClusters ff neighbors (List.range neighbors.length)
      (List.replicate neighbors.length 0, 0) with
  | none => rw [hc] at hnb; simp at hnb
  | some st =>
    rw [hc] at hnb
    simp only [Option.map_some', Option.some.injEq] at hnb
    rw [← hnb]
    refine countClusters_complete ff neighbors hconn (List.range neighbors.length)
      (List.replicate neighbors.length 0) 0 st (fun i hi => List.mem_range.1 hi) (by simp)
      ?_ (Or.inl rfl) hc
    intro a b _ ha _
    exfalso
    rw [List.getD_eq_getElem?_getD, List.getElem?_replicate] at ha
    by_cases hp : a < neighbors.length <;> simp [hp] at ha

/-! ## Fixed points of `RemoveNonManifold` -/

theorem markNonManifoldVertices_noop (vn : List (List Nat)) (ff : FaceFlags)
    (h : ∀ neighbors ∈ vn, ∃ nb, nbCluster ff neighbors = some nb ∧ nb ≤ 1) :
    markNonManifoldVertices vn ff = some ff := by
  induction vn with
  | nil => rfl
  | cons n0 rest ih =>
    obtain ⟨nb, hnb, hle⟩ := h n0 (List.mem_cons_self _ _)
    rw [markNonManifoldVertices, hnb]
    simp only
    rw [if_neg (by omega)]
    exact ih (fun n hn => h n (List.mem_cons_of_mem _ hn))

theorem keptAt_initFlags (faces : List Triangle) (i : Nat) (f : Triangle)
    (h : faces[i]? = some f) :
    keptAt (initFlags faces) i = true ∧ faceAt (initFlags faces) i = f := by
  unfold keptAt faceAt initFlags
  rw [List.getElem?_map, h]
  exact ⟨rfl, rfl⟩

theorem chainStep_mono {fs fs' : List Triangle} (hsub : ∀ x, x ∈ fs → x ∈ fs') (v : Nat)
    (s t : Triangle) (h : Relation.ReflTransGen (ChainStep fs v) s t) :
    Relation.ReflTransGen (ChainStep fs' v) s t := by
  refine Relation.ReflTransGen.mono ?_ h
  rintro a b ⟨h1, h2, h3, h4, h5⟩
  exact ⟨hsub a h1, hsub b h2, h3, h4, h5⟩

/-- If the faces incident to `v` form a single cluster, all entries of the neighbourhood
list of `v` built from the unmarked faces are connected. -/
theorem neighbourhood_connected (nv : Nat) (faces : List Triangle) (v : Nat) (hv : v < nv)
    (hclus : SingleCluster faces faces v) (p q : Nat)
    (hp : p < ((buildVNeighbors nv (initFlags faces)).getD v []).length)
    (hq : q < ((buildVNeighbors nv (initFlags faces)).getD v []).length) :
    Relation.ReflTransGen
      (AdjPos (initFlags faces) ((buildVNeighbors nv (initFlags faces)).getD v [])) p q := by
  have hout : resultFaces (initFlags faces) = faces := resultFaces_initFlags faces
  -- every entry is a face incident to `v`
  have hentry : ∀ a, a < ((buildVNeighbors nv (initFlags faces)).getD v []).length →
      faceAt (initFlags faces) (((buildVNeighbors nv (initFlags faces)).getD v []).getD a 0)
        ∈ faces ∧
      incident v (faceAt (initFlags faces)
        (((buildVNeighbors nv (initFlags faces)).getD v []).getD a 0)) = true := by
    intro a ha
    obtain ⟨_, h2, h3⟩ := (mem_buildVNeighbors nv (initFlags faces) v _).1
      (getD_nat_mem _ a ha)
    have hm := mem_resultFaces_of_kept _ _ h2
    rw [hout] at hm
    exact ⟨hm, h3⟩
  -- every face incident to `v` is an entry
  have hpos : ∀ x, x ∈ faces → incident v x = true →
      ∃ r, r < ((buildVNeighbors nv (initFlags faces)).getD v []).length ∧
        faceAt (initFlags faces)
          (((buildVNeighbors nv (initFlags faces)).getD v []).getD r 0) = x := by
    intro x hx hxv
    obtain ⟨k, hk⟩ := List.mem_iff_getElem?.1 hx
    obtain ⟨h1, h2⟩ := keptAt_initFlags faces k x hk
    have hmem : k ∈ (buildVNeighbors nv (initFlags faces)).getD v [] :=
      (mem_buildVNeighbors nv (initFlags faces) v k).2 ⟨hv, h1, by rw [h2]; exact hxv⟩
    obtain ⟨r, hr, hrk⟩ := List.mem_iff_getElem.1 hmem
    exact ⟨r, hr, by rw [getD_nat_eq _ r hr, hrk, h2]⟩
  have hchain := hclus _ (hentry p hp).1 _ (hentry q hq).1 (hentry p hp).2 (hentry q hq).2
  have key : ∀ x y, Relation.ReflTransGen (ChainStep faces v) x y →
      faceAt (initFlags faces)
        (((buildVNeighbors nv (initFlags faces)).getD v []).getD p 0) = x →
      ∀ q', q' < ((buildVNeighbors nv (initFlags faces)).getD v []).length →
        faceAt (initFlags faces)
          (((buildVNeighbors nv (initFlags faces)).getD v []).getD q' 0) = y →
        Relation.ReflTransGen
          (AdjPos (initFlags faces) ((buildVNeighbors nv (initFlags faces)).getD v [])) p q' := by
    intro x y hxy
    induction hxy with
    | refl =>
      intro hpx q' hq' hqx
      exact Relation.ReflTransGen.single ⟨hp, hq', by rw [hpx, hqx]; exact sharesEdge_self x⟩
    | tail _ hstep ih =>
      intro hpx q' hq' hqy
      obtain ⟨hz, _, hzv, _, hshare⟩ := hstep
      obtain ⟨r, hr, hrz⟩ := hpos _ hz hzv
      exact (ih hpx r hr hrz).tail ⟨hr, hq', by rw [hrz, hqy]; exact hshare⟩
  exact key _ _ hchain rfl q hq rfl

/-- A face list in which no edge has more than two entries in its face list and in which
the faces around every vertex form a single cluster is returned unchanged. -/
theorem removeNonManifold_fixed (vertices : List Point_3) (faces : List Triangle)
    (hedges : ∀ e, (incidences 0 faces e).length ≤ 2)
    (hclus : ∀ v, v < vertices.length → SingleCluster faces faces v) :
    RemoveNonManifold vertices faces = some faces := by
  have h1 : markNonManifoldEdges (buildEdges faces) ([], initFlags faces) =
      ([], initFlags faces) :=
    markNonManifoldEdges_noop _ _ _
      (fun k e hm => by rw [entry_faces_eq_incidences faces k e hm]; exact hedges k)
  have h2 : edgeStage vertices.length faces =
      (buildVNeighbors vertices.length (initFlags faces), initFlags faces) := by
    unfold edgeStage
    simp only [h1]
    rfl
  have h3 : markNonManifoldVertices (buildVNeighbors vertices.length (initFlags faces))
      (initFlags faces) = some (initFlags faces) := by
    apply markNonManifoldVertices_noop
    intro neighbors hmem
    obtain ⟨v, hv, hvn⟩ := List.mem_iff_getElem.1 hmem
    have hv' : v < vertices.length := by
      rw [length_buildVNeighbors] at hv; exact hv
    have hget : (buildVNeighbors vertices.length (initFlags faces)).getD v [] = neighbors := by
      rw [List.getD_eq_getElem?_getD, List.getElem?_eq_getElem hv, Option.getD_some, hvn]
    rw [← hget]
    exact nbCluster_connected_le_one _ _
      (fun p q hp hq => neighbourhood_connected vertices.length faces v hv' (hclus v hv') p q
        hp hq)
  unfold RemoveNonManifold
  simp only [h2, h3, Option.map_some', resultFaces_initFlags]

theorem validIdx_of_sublist {nv : Nat} {faces out : List Triangle}
    (hvalid : ValidIdx nv faces) (hsub : out.Sublist faces) : ValidIdx nv out :=
  fun f hf => hvalid f (hsub.subset hf)

/-- C3 (amended): for every vertex list `V` and triangle list `F` with valid indices,
`RemoveNonManifold(V, F)` and `RemoveNonManifold(V, RemoveNonManifold(V, F))` both
return, the second result is an order-preserving sub-list of the first, and the two are
equal exactly when in the first result the faces around every vertex form a single
edge-connected cluster. -/
theorem C3_second_pass_fixed_iff_single_clusters (vertices : List Point_3)
    (faces : List Triangle) (hvalid : ValidIdx vertices.length faces) :
    ∃ out, RemoveNonManifold vertices faces = some out ∧
      ∃ out2, RemoveNonManifold vertices out = some out2 ∧ out2.Sublist out ∧
        (out2 = out ↔ ∀ v, SingleCluster out out v) := by
  obtain ⟨ff, _, hres, hsh⟩ := removeNonManifold_flags vertices faces
  have hsub : (resultFaces ff).Sublist faces :=
    map_fst_final faces ff hsh ▸ resultFaces_sublist ff
  have hvalid' : ValidIdx vertices.length (resultFaces ff) := validIdx_of_sublist hvalid hsub
  obtain ⟨ff2, hmark2, hres2, hsh2⟩ := removeNonManifold_flags vertices (resultFaces ff)
  have hsub2 : (resultFaces ff2).Sublist (resultFaces ff) :=
    map_fst_final (resultFaces ff) ff2 hsh2 ▸ resultFaces_sublist ff2
  refine ⟨resultFaces ff, hres, resultFaces ff2, hres2, hsub2, ?_, ?_⟩
  · intro heq v s hs t ht hsv htv
    have hlink := kept_faces_linked vertices (resultFaces ff) hvalid' ff2 hmark2 hsh2 v
    rw [heq] at hlink
    have hedge : ∀ x, x ∈ edgePassFaces (resultFaces ff) → x ∈ resultFaces ff := by
      intro x hx
      have h1 := (markNonManifoldEdges_spec (buildEdges (resultFaces ff)) []
        (initFlags (resultFaces ff))).1
      have h2 := resultFaces_sublist
        (markNonManifoldEdges (buildEdges (resultFaces ff)) ([], initFlags (resultFaces ff))).2
      rw [h1.1, map_fst_initFlags] at h2
      exact h2.subset hx
    exact chainStep_mono hedge v s t (hlink s hs t ht hsv htv)
  · intro hclus
    have hfix := removeNonManifold_fixed vertices (resultFaces ff)
      (output_incidences_le_two faces ff hsh) (fun v _ => hclus v)
    rw [hfix] at hres2
    exact (Option.some.inj hres2).symm

/-- Witness of C3 (amended) on the bowtie fan. -/
theorem C3_witness :
    ∃ out, RemoveNonManifold bowtieVertices bowtieFan = some out ∧
      ∃ out2, RemoveNonManifold bowtieVertices out = some out2 ∧ out2.Sublist out ∧
        (out2 = out ↔ ∀ v, SingleCluster out out v) :=
  C3_second_pass_fixed_iff_single_clusters bowtieVertices bowtieFan (by decide)

/-! ## Command line -/

theorem parseArg_refine (atoi : String → ℤ) (atof : String → ℚ) (argv : List String)
    (cfg : Config) (i : Nat) : (parseArg atoi atof argv cfg i).refine = cfg.refine := by
  unfold parseArg
  split_ifs <;> rfl

theorem foldl_parseArg_refine (atoi : String → ℤ) (atof : String → ℚ) (argv : List String)
    (is : List Nat) (cfg : Config) :
    (is.foldl (parseArg atoi atof argv) cfg).refine = cfg.refine := by
  induction is generalizing cfg with
  | nil => rfl
  | cons i is ih => rw [List.foldl_cons, ih, parseArg_refine]

theorem parseArgs_refine (atoi : String → ℤ) (atof : String → ℚ) (argv : List String) :
    (parseArgs atoi atof argv).refine = false := by
  unfold parseArgs
  rw [foldl_parseArg_refine]
  rfl

/-- C11 (code defect): the loop over the arguments has no branch for `-r`, so `refine`
keeps its initial value `false` for every command line, and no hole is ever filled by
`triangulate_and_refine_hole`.  The command line `-i in.obj -o out.obj -r` is accepted
and yields `refine = false`; with it every hole is filled by `triangulate_hole`. -/
theorem C11_refine_flag_is_never_set :
    (∀ (atoi : String → ℤ) (atof : String → ℚ) (argv : List String),
      (parseArgs atoi atof argv).refine = false ∧
      ∀ isSmall, fillHole (parseArgs atoi atof argv) isSmall ≠
        some HoleFill.triangulate_and_refine_hole) ∧
    (parsedConfig (fun _ => 0) (fun _ => 0)
        ["MeshFix", "-i", "in.obj", "-o", "out.obj", "-r"]).isSome = true ∧
    (parseArgs (fun _ => 0) (fun _ => 0)
        ["MeshFix", "-i", "in.obj", "-o", "out.obj", "-r"]).path = "in.obj" ∧
    (parseArgs (fun _ => 0) (fun _ => 0)
        ["MeshFix", "-i", "in.obj", "-o", "out.obj", "-r"]).output_path = "out.obj" ∧
    (parseArgs (fun _ => 0) (fun _ => 0)
        ["MeshFix", "-i", "in.obj", "-o", "out.obj", "-r"]).refine = false ∧
    fillHole (parseArgs (fun _ => 0) (fun _ => 0)
        ["MeshFix", "-i", "in.obj", "-o", "out.obj", "-r"]) true =
      some HoleFill.triangulate_hole := by
  refine ⟨fun atoi atof argv => ⟨parseArgs_refine atoi atof argv, fun isSmall => ?_⟩,
    by decide, by decide, by decide, by decide, by decide⟩
  unfold fillHole
  rw [parseArgs_refine]
  by_cases h1 : (parseArgs atoi atof argv).filter_small_holes = true
  · cases isSmall <;> simp [h1]
  · simp [h1]

/-! ## The empty face list -/

/-- C12 (counterexample): on the empty face list `RemoveSelfIntersection` returns the
empty list, but the division that computes `dx` has the divisor `faces.size() = 0`. -/
theorem C12_counterexample :
    ¬ (RemoveSelfIntersection exactSqrt exactDegenerate exactIntersect [] [] = [] ∧
      cellSizeChecked exactSqrt [] [] ≠ none) := by
  rintro ⟨_, h⟩
  exact h (by simp [cellSizeChecked, cellSizeDivisor])

/-- C12 (amended): for the empty triangle list and any vertex list,
`RemoveSelfIntersection` returns the empty list; the division by the face count is
performed with divisor zero, no face is inserted into the grid and no face is checked,
so the value of `dx` is not used. -/
theorem C12_empty_input_returns_empty_after_dividing_by_zero (sqrt : ℚ → ℚ)
    (is_degenerate : Triangle_3 → Bool) (do_intersect : Triangle_3 → Triangle_3 → Bool)
    (vertices : List Point_3) :
    RemoveSelfIntersection sqrt is_degenerate do_intersect vertices [] = [] ∧
    cellSizeDivisor [] = 0 ∧ cellSizeChecked sqrt vertices [] = none ∧
    ∀ dx, RemoveSelfIntersectionGrid dx is_degenerate do_intersect vertices [] = [] := by
  refine ⟨rfl, by simp [cellSizeDivisor], by simp [cellSizeChecked, cellSizeDivisor],
    fun dx => rfl⟩

/-! ## Problematic vertices -/

/-- C13 (code defect): the directed edge `(0, 1)` has three faces, both pushes record
its first endpoint 0, and the face `(1, 5, 6)`, which is kept by the edge pass and
incident to the second endpoint 1, is in the output. -/
theorem C13_second_endpoint_is_not_recorded :
    ValidIdx sevenVertices.length fanOnEdge ∧
    faceList (buildEdges fanOnEdge) (0, 1) = [0, 1, 2] ∧
    (markNonManifoldEdges (buildEdges fanOnEdge) ([], initFlags fanOnEdge)).1 = [0, 0] ∧
    keptAt (markNonManifoldEdges (buildEdges fanOnEdge) ([], initFlags fanOnEdge)).2 3
      = true ∧
    incident 1 (faceOf fanOnEdge 3) = true ∧
    RemoveNonManifold sevenVertices fanOnEdge = some [⟨1, 5, 6⟩] := by
  decide

/-- C17 (counterexample): the face `(0, 5, 6)` at index 3 is removed by the
problematic-vertex pass (vertex 0), and it is still a member of the neighbourhood list
of vertex 5 when the clustering starts. -/
theorem C17_counterexample :
    ValidIdx sevenVertices.length fanOnEdgeFirst ∧
    keptAt (markNonManifoldEdges (buildEdges fanOnEdgeFirst)
      ([], initFlags fanOnEdgeFirst)).2 3 = true ∧
    keptAt (edgeStage sevenVertices.length fanOnEdgeFirst).2 3 = false ∧
    3 ∈ (edgeStage sevenVertices.length fanOnEdgeFirst).1.getD 5 [] := by
  decide

/-- C17 (amended): the neighbourhood list of a vertex `v`, as used by the clustering
step, holds exactly the indices of the faces that are kept after the non-manifold-edge
removal (step 2) and have `v` as a corner; the lists are built before the
problematic-vertex removal (step 3) and are not rebuilt after it. -/
theorem C17_neighbourhoods_hold_faces_kept_by_edge_pass (nv : Nat) (faces : List Triangle)
    (v i : Nat) :
    i ∈ (edgeStage nv faces).1.getD v [] ↔
      v < nv ∧
      keptAt (markNonManifoldEdges (buildEdges faces) ([], initFlags faces)).2 i = true ∧
      incident v (faceAt (markNonManifoldEdges (buildEdges faces)
        ([], initFlags faces)).2 i) = true :=
  mem_buildVNeighbors nv _ v i

/-! ## Contents of the edge table -/

theorem head_incidences_eq_replicate (e : Nat × Nat) (f : Triangle) (s : Nat) :
    (if PairPred (f.v0, f.v1) e = true then [s] else []) ++
        (if PairPred (f.v1, f.v2) e = true then [s] else []) ++
      (if PairPred (f.v2, f.v0) e = true then [s] else []) =
      List.replicate (edgeCount e f) s := by
  unfold edgeCount
  split_ifs <;> rfl

theorem incidences_eq_flatMap (s : Nat) (fs : List Triangle) (e : Nat × Nat) :
    incidences s fs e =
      (List.range fs.length).flatMap
        (fun k => List.replicate (edgeCount e (faceOf fs k)) (s + k)) := by
  induction fs generalizing s with
  | nil => rfl
  | cons f fs ih =>
    rw [incidences, head_incidences_eq_replicate, ih (s + 1), List.length_cons,
      List.range_succ_eq_map, List.flatMap_cons, List.flatMap_map]
    congr 1
    apply List.flatMap_congr
    intro k _
    have h1 : faceOf (f :: fs) (k + 1) = faceOf fs k := by simp [faceOf]
    have h2 : s + 1 + k = s + (k + 1) := by omega
    simp only [Function.comp, Nat.succ_eq_add_one]
    rw [h1, h2]

theorem incidences_ge (s : Nat) (fs : List Triangle) (e : Nat × Nat) :
    ∀ x ∈ incidences s fs e, s ≤ x := by
  induction fs generalizing s with
  | nil => intro x hx; cases hx
  | cons f fs ih =>
    intro x hx
    rw [incidences, head_incidences_eq_replicate] at hx
    rcases List.mem_append.1 hx with h | h
    · rw [(List.mem_replicate.1 h).2]
    · have := ih (s + 1) x h
      omega

theorem incidences_pairwise (s : Nat) (fs : List Triangle) (e : Nat × Nat) :
    (incidences s fs e).Pairwise (fun x y => x ≤ y) := by
  induction fs generalizing s with
  | nil => exact List.Pairwise.nil
  | cons f fs ih =>
    rw [incidences, head_incidences_eq_replicate, List.pairwise_append]
    refine ⟨?_, ih (s + 1), ?_⟩
    · rw [List.pairwise_replicate]
      exact Or.inr (le_refl s)
    · intro x hx y hy
      rw [(List.mem_replicate.1 hx).2]
      have := incidences_ge (s + 1) fs e y hy
      omega

theorem mem_incidences_iff (faces : List Triangle) (a b i : Nat) :
    i ∈ incidences 0 faces (a, b) ↔
      i < faces.length ∧ hasEdge a b (faceOf faces i) = true := by
  rw [incidences_eq_flatMap, List.mem_flatMap]
  constructor
  · rintro ⟨k, hk, hik⟩
    obtain ⟨hne, rfl⟩ := List.mem_replicate.1 hik
    rw [zero_add]
    exact ⟨List.mem_range.1 hk, (edgeCount_pos_iff a b _).1 (Nat.pos_of_ne_zero hne)⟩
  · rintro ⟨hi, he⟩
    refine ⟨i, List.mem_range.2 hi, List.mem_replicate.2 ⟨?_, by rw [zero_add]⟩⟩
    exact Nat.pos_iff_ne_zero.1 ((edgeCount_pos_iff a b _).2 he)

theorem find_addEdge_ne_none (edges : EdgeTable) (a b i : Nat) (e : Nat × Nat) :
    (addEdge edges a b i).find e ≠ none ↔
      edges.find e ≠ none ∨ PairPred (a, b) e = true := by
  unfold addEdge
  cases h : edges.find (a, b) with
  | none =>
    simp only [find_pushFace, find_append_single]
    by_cases he : PairPred (a, b) e = true
    · simp [he, h, pairPred_self]
    · simp only [he, if_false, or_false]
      cases h2 : edges.find e <;> simp
  | some ed =>
    simp only [find_pushFace]
    by_cases he : PairPred (a, b) e = true
    · simp [he, h]
    · simp [he]

theorem find_buildEdgesFrom_ne_none (s : Nat) (fs : List Triangle) (edges : EdgeTable)
    (a b : Nat) :
    (buildEdgesFrom s fs edges).find (a, b) ≠ none ↔
      edges.find (a, b) ≠ none ∨ ∃ f ∈ fs, hasEdge a b f = true := by
  induction fs generalizing s edges with
  | nil => simp [buildEdgesFrom]
  | cons f fs ih =>
    rw [buildEdgesFrom, ih, find_addEdge_ne_none, find_addEdge_ne_none, find_addEdge_ne_none]
    simp only [List.mem_cons, exists_eq_or_imp, hasEdge_iff a b f]
    tauto

/-- Number of sides of a triangle that are `(a, b)` or `(b, a)`. -/
theorem edgeCount_eq_sides (a b : Nat) (f : Triangle) :
    edgeCount (a, b) f =
      ([f.GetEdge 0, f.GetEdge 1, f.GetEdge 2].filter
        (fun s => decide (s = (a, b) ∨ s = (b, a)))).length := by
  have h : ∀ x y : Nat, (decide ((x, y) = (a, b) ∨ (x, y) = (b, a))) = PairPred (x, y) (a, b) := by
    intro x y
    rw [Bool.eq_iff_iff, pairPred_side_iff]
    simp
  simp only [edgeCount, Triangle.GetEdge, Triangle.idx, List.filter_cons, List.filter_nil, h]
  norm_num
  split_ifs <;> rfl

/-- C14 (counterexample): over the faces `(0,1,2)` and `(1,0,3)` the face list stored
under the key `(0, 1)` is `[0, 1]`: it holds the index of the second face, which has
the reverse edge `(1, 0)` and does not have the directed edge `(0, 1)`. -/
theorem C14_counterexample :
    faceList (buildEdges [⟨0, 1, 2⟩, ⟨1, 0, 3⟩]) (0, 1) = [0, 1] ∧
    hasDirectedEdge 0 1 (faceOf [⟨0, 1, 2⟩, ⟨1, 0, 3⟩] 1) = false ∧
    hasDirectedEdge 1 0 (faceOf [⟨0, 1, 2⟩, ⟨1, 0, 3⟩] 1) = true := by
  decide

/-- C14 (amended): for every triangle list and every pair `(a, b)`, the face list stored
in the edge table for `(a, b)` is the increasing list of the indices `i` of the
triangles that have a side joining `a` and `b` in either direction, with `i` repeated
once per such side; the lists for `(a, b)` and `(b, a)` are the same; an entry exists
only if some triangle has such a side, and no two keys are the same edge. -/
theorem C14_edge_table_holds_incidences_in_both_directions (faces : List Triangle)
    (a b : Nat) :
    faceList (buildEdges faces) (a, b) =
      (List.range faces.length).flatMap
        (fun i => List.replicate (edgeCount (a, b) (faceOf faces i)) i) ∧
    (∀ f, edgeCount (a, b) f =
      ([f.GetEdge 0, f.GetEdge 1, f.GetEdge 2].filter
        (fun s => decide (s = (a, b) ∨ s = (b, a)))).length) ∧
    (faceList (buildEdges faces) (a, b)).Pairwise (fun x y => x ≤ y) ∧
    (∀ i, i ∈ faceList (buildEdges faces) (a, b) ↔
      i < faces.length ∧ (hasDirectedEdge a b (faceOf faces i) = true ∨
        hasDirectedEdge b a (faceOf faces i) = true)) ∧
    faceList (buildEdges faces) (a, b) = faceList (buildEdges faces) (b, a) ∧
    ((buildEdges faces).find (a, b) ≠ none ↔
      ∃ f ∈ faces, hasDirectedEdge a b f = true ∨ hasDirectedEdge b a f = true) ∧
    DistinctKeys (buildEdges faces) ∧
    (∀ e, (buildEdges faces).find (a, b) = some e →
      e._faces = faceList (buildEdges faces) (a, b)) := by
  refine ⟨?_, edgeCount_eq_sides a b, ?_, ?_, ?_, ?_, distinctKeys_buildEdges faces, ?_⟩
  · rw [faceList_buildEdges, incidences_eq_flatMap]
    simp
  · rw [faceList_buildEdges]
    exact incidences_pairwise 0 faces (a, b)
  · intro i
    rw [faceList_buildEdges, mem_incidences_iff]
    simp [hasEdge]
  · rw [faceList_buildEdges, faceList_buildEdges]
    exact incidences_congr 0 faces (pairPred_swap a b)
  · have := find_buildEdgesFrom_ne_none 0 faces [] a b
    simpa [buildEdges, EdgeTable.find, hasEdge] using this
  · intro e he
    simp [faceList, he]

/-! ## The cluster analysis reads the triangles only -/

theorem scanNeighbors_congr (ff ff' : FaceFlags) (h : ∀ i, faceAt ff i = faceAt ff' i)
    (neighbors : List Nat) (front : Nat) (js : List Nat) (st : List Nat × List Nat) :
    scanNeighbors ff neighbors front js st = scanNeighbors ff' neighbors front js st := by
  induction js generalizing st with
  | nil => rfl
  | cons j js ih =>
    obtain ⟨sampled, cluster⟩ := st
    rw [scanNeighbors, scanNeighbors, h, h, ih, ih]

theorem growCluster_congr (ff ff' : FaceFlags) (h : ∀ i, faceAt ff i = faceAt ff' i)
    (neighbors : List Nat) (fuel : Nat) (sampled cluster : List Nat) :
    growCluster ff neighbors fuel sampled cluster =
      growCluster ff' neighbors fuel sampled cluster := by
  induction fuel generalizing sampled cluster with
  | zero => rfl
  | succ fuel ih =>
    cases cluster with
    | nil => rfl
    | cons front rest =>
      rw [growCluster, growCluster, scanNeighbors_congr ff ff' h]
      cases (scanNeighbors ff' neighbors front (List.range neighbors.length)
          (sampled, front :: rest)).2.tail with
      | nil => rfl
      | cons c cs => exact ih _ _

theorem countClusters_congr (ff ff' : FaceFlags) (h : ∀ i, faceAt ff i = faceAt ff' i)
    (neighbors : List Nat) (is : List Nat) (st : List Nat × Nat) :
    countClusters ff neighbors is st = countClusters ff' neighbors is st := by
  induction is generalizing st with
  | nil => rfl
  | cons i is ih =>
    obtain ⟨sampled, nb⟩ := st
    rw [countClusters, countClusters, growCluster_congr ff ff' h]
    by_cases hs : sampled.getD i 0 = 1
    · rw [if_pos hs, if_pos hs]; exact ih _
    · rw [if_neg hs, if_neg hs]
      cases growCluster ff' neighbors neighbors.length (sampled.set i 1) [i] with
      | none => rfl
      | some s1 => exact ih _

/-- The cluster count of a neighbourhood list depends on the triangles only, not on
the flags. -/
theorem nbCluster_congr (ff ff' : FaceFlags) (h : ff.map Prod.fst = ff'.map Prod.fst)
    (neighbors : List Nat) : nbCluster ff neighbors = nbCluster ff' neighbors := by
  unfold nbCluster
  rw [countClusters_congr ff ff' (fun i => faceAt_eq_of_map_fst h i)]

theorem nbCluster_nil (ff : FaceFlags) : nbCluster ff [] = some 0 := rfl

/-! ## Pinch vertices -/

theorem markNonManifoldVertices_removes (vn : List (List Nat)) (ff ff' : FaceFlags)
    (h : markNonManifoldVertices vn ff = some ff') (neighbors : List Nat)
    (hmem : neighbors ∈ vn) (nb : Nat) (hnb : nbCluster ff neighbors = some nb)
    (hgt : 1 < nb) : ∀ i ∈ neighbors, keptAt ff' i = false := by
  induction vn generalizing ff with
  | nil => cases hmem
  | cons n0 rest ih =>
    rw [markNonManifoldVertices] at h
    cases hnb0 : nbCluster ff n0 with
    | none => rw [hnb0] at h; simp at h
    | some nb0 =>
      rw [hnb0] at h
      simp only at h
      rcases List.mem_cons.1 hmem with rfl | hmem'
      · rw [hnb] at hnb0
        cases hnb0
        rw [if_pos hgt] at h
        intro i hi
        have h1 := keptAt_foldl_markRemoved neighbors ff i hi
        cases hk : keptAt ff' i with
        | false => rfl
        | true =>
          rw [(markNonManifoldVertices_shrinks rest _ ff' h).2 i hk] at h1
          cases h1
      · by_cases hgt0 : nb0 > 1
        · rw [if_pos hgt0] at h
          refine ih _ h hmem' ?_
          rw [nbCluster_congr _ ff (shrinks_foldl_markRemoved n0 ff).1]
          exact hnb
        · rw [if_neg hgt0] at h
          exact ih ff h hmem' hnb

theorem faceAt_eq_faceOf (ff : FaceFlags) (faces : List Triangle)
    (h : ff.map Prod.fst = faces) (i : Nat) : faceAt ff i = faceOf faces i := by
  subst h
  unfold faceAt faceOf
  rw [List.getD_eq_getElem?_getD, List.getElem?_map]
  cases ff[i]? <;> rfl

/-- C16: for every input with valid indices and every vertex whose neighbourhood list
has a cluster count above 1 (a bowtie or pinch point), `RemoveNonManifold` returns and
none of the faces of that neighbourhood is in the output.  Two triangles that share
exactly one vertex and no edge are both removed. -/
theorem C16_pinch_vertex_neighbourhood_removed (vertices : List Point_3)
    (faces : List Triangle) (_hvalid : ValidIdx vertices.length faces) (v nb : Nat)
    (hnb : nbCluster (edgeStage vertices.length faces).2
      ((edgeStage vertices.length faces).1.getD v []) = some nb)
    (hgt : 1 < nb) :
    (∃ out, RemoveNonManifold vertices faces = some out ∧
      ∀ i ∈ (edgeStage vertices.length faces).1.getD v [], faceOf faces i ∉ out) ∧
    RemoveNonManifold bowtieFive bowtie = some [] := by
  refine ⟨?_, by decide⟩
  obtain ⟨ff, hmark, hres, hsh⟩ := removeNonManifold_flags vertices faces
  refine ⟨resultFaces ff, hres, fun i hi hin => ?_⟩
  have hmap := map_fst_final faces ff hsh
  have hmap1 : (markNonManifoldEdges (buildEdges faces) ([], initFlags faces)).2.map Prod.fst
      = faces := by
    rw [(markNonManifoldEdges_spec (buildEdges faces) [] (initFlags faces)).1.1,
      map_fst_initFlags]
  have hvlen : v < (edgeStage vertices.length faces).1.length := by
    by_contra hv
    have hnil : (edgeStage vertices.length faces).1.getD v [] = [] := by
      rw [List.getD_eq_getElem?_getD, List.getElem?_eq_none (by omega)]
      rfl
    rw [hnil, nbCluster_nil] at hnb
    cases hnb
    omega
  obtain ⟨hv, _, hinc⟩ := (mem_buildVNeighbors vertices.length _ v i).1 hi
  rw [faceAt_eq_faceOf _ faces hmap1] at hinc
  obtain ⟨j, hj⟩ := mem_resultFaces hin
  have hkj : keptAt ff j = true := by simp [keptAt, hj]
  have hfj : faceAt ff j = faceOf faces i := by simp [faceAt, hj]
  have hfj1 : faceAt (markNonManifoldEdges (buildEdges faces) ([], initFlags faces)).2 j =
      faceOf faces i := by rw [← hsh.faceAt j]; exact hfj
  have hjmem : j ∈ (edgeStage vertices.length faces).1.getD v [] :=
    (mem_buildVNeighbors vertices.length _ v j).2 ⟨hv, hsh.2 j hkj, by rw [hfj1]; exact hinc⟩
  have := markNonManifoldVertices_removes _ _ ff hmark _
    (getD_mem_of_lt _ v hvlen) nb hnb hgt j hjmem
  rw [hkj] at this
  cases this

/-- Witness of C16 on two triangles that share the vertex 0 and no edge. -/
theorem C16_witness :
    (∃ out, RemoveNonManifold bowtieFive bowtie = some out ∧
      ∀ i ∈ (edgeStage bowtieFive.length bowtie).1.getD 0 [], faceOf bowtie i ∉ out) ∧
    RemoveNonManifold bowtieFive bowtie = some [] :=
  C16_pinch_vertex_neighbourhood_removed bowtieFive bowtie (by decide) 0 2 (by decide)
    (by decide)

/-! ## The order of the vertices does not matter -/

theorem getElem?_foldl_markRemoved (l : List Nat) (ff : FaceFlags) (i : Nat) :
    (l.foldl markRemoved ff)[i]? =
      (ff[i]?).map (fun p => if i ∈ l then (p.1, false) else p) := by
  induction l generalizing ff with
  | nil => simp
  | cons hf l ih =>
    rw [List.foldl_cons, ih]
    unfold markRemoved
    rw [List.getElem?_modify]
    cases ff[i]? with
    | none => rfl
    | some p =>
      by_cases h1 : hf = i
      · subst h1
        by_cases h2 : hf ∈ l <;> simp [h2]
      · have h1' : ¬ i = hf := fun h => h1 h.symm
        by_cases h2 : i ∈ l <;> simp [h1, h1', h2]

theorem foldl_markRemoved_comm (l1 l2 : List Nat) (ff : FaceFlags) :
    l2.foldl markRemoved (l1.foldl markRemoved ff) =
      l1.foldl markRemoved (l2.foldl markRemoved ff) := by
  apply List.ext_getElem?
  intro i
  rw [getElem?_foldl_markRemoved, getElem?_foldl_markRemoved, getElem?_foldl_markRemoved,
    getElem?_foldl_markRemoved]
  cases ff[i]? with
  | none => rfl
  | some p =>
    by_cases h1 : i ∈ l1 <;> by_cases h2 : i ∈ l2 <;> simp [h1, h2]

theorem map_fst_vertexStep (ff : FaceFlags) (neighbors : List Nat) :
    (vertexStep ff neighbors).map Prod.fst = ff.map Prod.fst := by
  unfold vertexStep
  cases nbCluster ff neighbors with
  | none => rfl
  | some nb =>
    by_cases h : nb > 1
    · simp only [h, if_true]; exact (shrinks_foldl_markRemoved neighbors ff).1
    · simp only [h, if_false]

theorem vertexStep_eq (ff : FaceFlags) (neighbors : List Nat) (nb : Nat)
    (h : nbCluster ff neighbors = some nb) :
    vertexStep ff neighbors = if nb > 1 then neighbors.foldl markRemoved ff else ff := by
  unfold vertexStep
  rw [h]

theorem vertexStep_comm (ff : FaceFlags) (a b : List Nat) :
    vertexStep (vertexStep ff a) b = vertexStep (vertexStep ff b) a := by
  obtain ⟨na, hna⟩ := nbCluster_isSome ff a
  obtain ⟨nb, hnb⟩ := nbCluster_isSome ff b
  have ha : nbCluster (vertexStep ff b) a = some na := by
    rw [nbCluster_congr _ _ (map_fst_vertexStep ff b) a]; exact hna
  have hb : nbCluster (vertexStep ff a) b = some nb := by
    rw [nbCluster_congr _ _ (map_fst_vertexStep ff a) b]; exact hnb
  rw [vertexStep_eq _ b nb hb, vertexStep_eq _ a na ha, vertexStep_eq ff a na hna,
    vertexStep_eq ff b nb hnb]
  by_cases h1 : na > 1 <;> by_cases h2 : nb > 1 <;> simp only [h1, h2, if_true, if_false]
  exact foldl_markRemoved_comm a b ff

theorem markNonManifoldVertices_cons (neighbors : List Nat) (rest : List (List Nat))
    (ff : FaceFlags) :
    markNonManifoldVertices (neighbors :: rest) ff =
      markNonManifoldVertices rest (vertexStep ff neighbors) := by
  obtain ⟨nb, hnb⟩ := nbCluster_isSome ff neighbors
  rw [markNonManifoldVertices, vertexStep, hnb]
  by_cases h : nb > 1 <;> simp only [h, if_true, if_false]

theorem markNonManifoldVertices_perm (vn vn' : List (List Nat)) (hperm : vn.Perm vn')
    (ff : FaceFlags) : markNonManifoldVertices vn ff = markNonManifoldVertices vn' ff := by
  induction hperm generalizing ff with
  | nil => rfl
  | cons x _ ih => rw [markNonManifoldVertices_cons, markNonManifoldVertices_cons, ih]
  | swap x y l =>
    rw [markNonManifoldVertices_cons, markNonManifoldVertices_cons,
      markNonManifoldVertices_cons, markNonManifoldVertices_cons, vertexStep_comm]
  | trans _ _ ih1 ih2 => rw [ih1, ih2]

/-- C18: the per-vertex analysis does not depend on the order of the vertices.  For
every order that is a permutation of the index order, the final flags are the same and
so is the output face list; the cluster count reads only the triangles, never the
flags; and the flags only change from kept to removed. -/
theorem C18_vertex_order_independent (vertices : List Point_3) (faces : List Triangle)
    (order : List (List Nat)) (hperm : order.Perm (edgeStage vertices.length faces).1) :
    markNonManifoldVertices order (edgeStage vertices.length faces).2 =
      markNonManifoldVertices (edgeStage vertices.length faces).1
        (edgeStage vertices.length faces).2 ∧
    (markNonManifoldVertices order (edgeStage vertices.length faces).2).map resultFaces =
      RemoveNonManifold vertices faces ∧
    (∀ (ff ff' : FaceFlags) (neighbors : List Nat), ff.map Prod.fst = ff'.map Prod.fst →
      nbCluster ff neighbors = nbCluster ff' neighbors) ∧
    (∀ ff', markNonManifoldVertices order (edgeStage vertices.length faces).2 = some ff' →
      Shrinks (edgeStage vertices.length faces).2 ff') := by
  have h := markNonManifoldVertices_perm order _ hperm (edgeStage vertices.length faces).2
  refine ⟨h, ?_, fun ff ff' n hmap => nbCluster_congr ff ff' hmap n,
    fun ff' hff' => markNonManifoldVertices_shrinks order _ ff' hff'⟩
  rw [h]
  rfl

/-- Witness of C18: the vertices of the bowtie fan processed in reverse order. -/
theorem C18_witness :
    markNonManifoldVertices (edgeStage bowtieVertices.length bowtieFan).1.reverse
        (edgeStage bowtieVertices.length bowtieFan).2 =
      markNonManifoldVertices (edgeStage bowtieVertices.length bowtieFan).1
        (edgeStage bowtieVertices.length bowtieFan).2 ∧
    (markNonManifoldVertices (edgeStage bowtieVertices.length bowtieFan).1.reverse
        (edgeStage bowtieVertices.length bowtieFan).2).map resultFaces =
      RemoveNonManifold bowtieVertices bowtieFan ∧
    (∀ (ff ff' : FaceFlags) (neighbors : List Nat), ff.map Prod.fst = ff'.map Prod.fst →
      nbCluster ff neighbors = nbCluster ff' neighbors) ∧
    (∀ ff', markNonManifoldVertices (edgeStage bowtieVertices.length bowtieFan).1.reverse
        (edgeStage bowtieVertices.length bowtieFan).2 = some ff' →
      Shrinks (edgeStage bowtieVertices.length bowtieFan).2 ff') :=
  C18_vertex_order_independent bowtieVertices bowtieFan
    (edgeStage bowtieVertices.length bowtieFan).1.reverse (List.reverse_perm _)

/-! ## The cluster count is the number of connected components -/

theorem scanNeighbors_new_reach (ff : FaceFlags) (neighbors : List Nat) (root front : Nat)
    (hfront : Relation.ReflTransGen (AdjPos ff neighbors) root front)
    (hf : front < neighbors.length) (js : List Nat) (hjs : ∀ j ∈ js, j < neighbors.length)
    (sampled cluster : List Nat)
    (hQ : ∀ c ∈ cluster, c < neighbors.length ∧
      Relation.ReflTransGen (AdjPos ff neighbors) root c) :
    (∀ p, (scanNeighbors ff neighbors front js (sampled, cluster)).1.getD p 0 = 1 →
      sampled.getD p 0 = 1 ∨ Relation.ReflTransGen (AdjPos ff neighbors) root p) ∧
    (∀ c ∈ (scanNeighbors ff neighbors front js (sampled, cluster)).2,
      c < neighbors.length ∧ Relation.ReflTransGen (AdjPos ff neighbors) root c) := by
  induction js generalizing sampled cluster with
  | nil => exact ⟨fun p hp => Or.inl hp, hQ⟩
  | cons j js ih =>
    have hj : j < neighbors.length := hjs j (List.mem_cons_self _ _)
    have hjs' : ∀ i ∈ js, i < neighbors.length := fun i hi => hjs i (List.mem_cons_of_mem _ hi)
    by_cases h : (j ≠ front ∧ sampled.getD j 0 ≠ 1) ∧
        sharesEdge (faceAt ff (neighbors.getD front 0)) (faceAt ff (neighbors.getD j 0)) = true
    · rw [scanNeighbors_push ff neighbors front j js sampled cluster h.1 h.2]
      have hreach : Relation.ReflTransGen (AdjPos ff neighbors) root j :=
        hfront.tail ⟨hf, hj, h.2⟩
      obtain ⟨g1, g2⟩ := ih hjs' (sampled.set j 1) (cluster ++ [j])
        (by
          intro c hc
          rcases List.mem_append.1 hc with hc' | hc'
          · exact hQ c hc'
          · rw [List.mem_singleton] at hc'
            subst hc'
            exact ⟨hj, hreach⟩)
      refine ⟨fun p hp => ?_, g2⟩
      rcases g1 p hp with hp' | hp'
      · rcases getD_set_one_cases sampled j p hp' with rfl | hp''
        · exact Or.inr hreach
        · exact Or.inl hp''
      · exact Or.inr hp'
    · rw [scanNeighbors_skip ff neighbors front j js sampled cluster h]
      exact ih hjs' sampled cluster hQ

theorem growCluster_new_reach (ff : FaceFlags) (neighbors : List Nat) (root : Nat)
    (fuel : Nat) (sampled cluster s' : List Nat)
    (hQ : ∀ c ∈ cluster, c < neighbors.length ∧
      Relation.ReflTransGen (AdjPos ff neighbors) root c)
    (h : growCluster ff neighbors fuel sampled cluster = some s') :
    ∀ p, s'.getD p 0 = 1 →
      sampled.getD p 0 = 1 ∨ Relation.ReflTransGen (AdjPos ff neighbors) root p := by
  induction fuel generalizing sampled cluster with
  | zero => simp [growCluster] at h
  | succ fuel ih =>
    cases cluster with
    | nil => simp [growCluster] at h
    | cons front rest =>
      obtain ⟨hf, hfront⟩ := hQ front (List.mem_cons_self _ _)
      obtain ⟨h1, h2⟩ := scanNeighbors_new_reach ff neighbors root front hfront hf
        (List.range neighbors.length) (fun j hj => List.mem_range.1 hj) sampled (front :: rest)
        hQ
      rw [growCluster] at h
      cases ht : (scanNeighbors ff neighbors front (List.range neighbors.length)
          (sampled, front :: rest)).2.tail with
      | nil =>
        rw [ht] at h
        simp only [Option.some.injEq] at h
        subst h
        exact h1
      | cons c cs =>
        rw [ht] at h
        simp only at h
        intro p hp
        rcases ih _ (c :: cs) (fun x hx => h2 x (List.mem_of_mem_tail (ht ▸ hx))) h p hp
          with hp' | hp'
        · exact h1 p hp'
        · exact Or.inr hp'

theorem seedInv_init (ff : FaceFlags) (neighbors : List Nat) :
    SeedInv ff neighbors (List.replicate neighbors.length 0) [] := by
  have hzero : ∀ p, (List.replicate neighbors.length 0).getD p 0 ≠ 1 := by
    intro p
    rw [List.getD_eq_getElem?_getD, List.getElem?_replicate]
    by_cases hp : p < neighbors.length <;> simp [hp]
  exact ⟨fun r hr => absurd hr (List.not_mem_nil r), fun p hp => absurd hp (hzero p),
    fun a _ _ ha _ => absurd ha (hzero a), List.Pairwise.nil⟩

/-- Starting a cluster at an entry that is not sampled yet keeps the invariant, with
that entry as a new seed. -/
theorem seedInv_grow (ff : FaceFlags) (neighbors : List Nat) (sampled seeds : List Nat)
    (i : Nat) (hi : i < neighbors.length) (hlen : sampled.length = neighbors.length)
    (hs : sampled.getD i 0 ≠ 1) (hinv : SeedInv ff neighbors sampled seeds) (s1 : List Nat)
    (hg : growCluster ff neighbors neighbors.length (sampled.set i 1) [i] = some s1) :
    SeedInv ff neighbors s1 (seeds ++ [i]) := by
  obtain ⟨hb, hc, hd, he⟩ := hinv
  have hlen' : (sampled.set i 1).length = neighbors.length := by simpa using hlen
  have hiset : (sampled.set i 1).getD i 0 = 1 :=
    getD_set_one_self sampled i (by rw [hlen]; exact hi)
  obtain ⟨hmono, _⟩ := growCluster_mono ff neighbors neighbors.length
    (sampled.set i 1) [i] s1 hg
  have hnew := growCluster_new_reach ff neighbors i neighbors.length (sampled.set i 1) [i] s1
    (fun c hc => by
      rw [List.mem_singleton] at hc
      subst hc
      exact ⟨hi, Relation.ReflTransGen.refl⟩) hg
  have hclosed : ClosedExcept ff neighbors s1 [] :=
    growCluster_complete ff neighbors neighbors.length (sampled.set i 1) [i] s1 hlen'
      (by
        intro c hc
        rw [List.mem_singleton] at hc
        subst hc
        exact hiset)
      (by
        intro a b hab ha hnot
        rcases getD_set_one_cases sampled i a ha with rfl | ha'
        · exact absurd (List.mem_singleton.2 rfl) hnot
        · exact getD_set_one_mono sampled i b (hd a b hab ha' (List.not_mem_nil _)))
      hg
  refine ⟨?_, ?_, hclosed, ?_⟩
  · intro r hr
    rcases List.mem_append.1 hr with hr' | hr'
    · exact ⟨(hb r hr').1, hmono r (getD_set_one_mono sampled i r (hb r hr').2)⟩
    · rw [List.mem_singleton] at hr'
      subst hr'
      exact ⟨hi, hmono r hiset⟩
  · intro p hp
    rcases hnew p hp with hp' | hp'
    · rcases getD_set_one_cases sampled i p hp' with rfl | hp''
      · exact ⟨p, by simp, Relation.ReflTransGen.refl⟩
      · obtain ⟨r, hr, hrp⟩ := hc p hp''
        exact ⟨r, List.mem_append_left _ hr, hrp⟩
    · exact ⟨i, by simp, hp'⟩
  · rw [List.pairwise_append]
    refine ⟨he, List.pairwise_singleton _ _, ?_⟩
    intro r hr x hx hreach
    rw [List.mem_singleton] at hx
    subst hx
    exact hs (closed_reach ff neighbors sampled hd r x hreach (hb r hr).2)

theorem countClusters_mono (ff : FaceFlags) (neighbors : List Nat) (is : List Nat)
    (sampled : List Nat) (nb : Nat) (st : List Nat × Nat)
    (h : countClusters ff neighbors is (sampled, nb) = some st) :
    ∀ p, sampled.getD p 0 = 1 → st.1.getD p 0 = 1 := by
  induction is generalizing sampled nb with
  | nil =>
    simp only [countClusters, Option.some.injEq] at h
    subst h
    exact fun _ hp => hp
  | cons i is ih =>
    rw [countClusters] at h
    by_cases hs : sampled.getD i 0 = 1
    · rw [if_pos hs] at h
      exact ih sampled nb h
    · rw [if_neg hs] at h
      cases hg : growCluster ff neighbors neighbors.length (sampled.set i 1) [i] with
      | none => rw [hg] at h; simp at h
      | some s1 =>
        rw [hg] at h
        simp only at h
        obtain ⟨hm, _⟩ := growCluster_mono ff neighbors neighbors.length
          (sampled.set i 1) [i] s1 hg
        exact fun p hp => ih s1 (nb + 1) h p (hm p (getD_set_one_mono sampled i p hp))

theorem countClusters_seeds (ff : FaceFlags) (neighbors : List Nat) (is : List Nat)
    (sampled : List Nat) (nb : Nat) (st : List Nat × Nat) (seeds : List Nat)
    (his : ∀ i ∈ is, i < neighbors.length) (hlen : sampled.length = neighbors.length)
    (hseeds : seeds.length = nb) (hinv : SeedInv ff neighbors sampled seeds)
    (h : countClusters ff neighbors is (sampled, nb) = some st) :
    ∃ seeds', seeds'.length = st.2 ∧ SeedInv ff neighbors st.1 seeds' ∧
      ∀ i ∈ is, st.1.getD i 0 = 1 := by
  induction is generalizing sampled nb seeds with
  | nil =>
    simp only [countClusters, Option.some.injEq] at h
    subst h
    exact ⟨seeds, hseeds, hinv, fun i hi => absurd hi (List.not_mem_nil i)⟩
  | cons i is ih =>
    have his' : ∀ j ∈ is, j < neighbors.length := fun j hj => his j (List.mem_cons_of_mem _ hj)
    have hi : i < neighbors.length := his i (List.mem_cons_self _ _)
    rw [countClusters] at h
    by_cases hs : sampled.getD i 0 = 1
    · rw [if_pos hs] at h
      obtain ⟨seeds', g1, g2, g3⟩ := ih sampled nb seeds his' hlen hseeds hinv h
      refine ⟨seeds', g1, g2, fun j hj => ?_⟩
      rcases List.mem_cons.1 hj with rfl | hj'
      · exact countClusters_mono ff neighbors is sampled nb st h _ hs
      · exact g3 j hj'
    · rw [if_neg hs] at h
      cases hg : growCluster ff neighbors neighbors.length (sampled.set i 1) [i] with
      | none => rw [hg] at h; simp at h
      | some s1 =>
        rw [hg] at h
        simp only at h
        obtain ⟨hmono, hlen1⟩ := growCluster_mono ff neighbors neighbors.length
          (sampled.set i 1) [i] s1 hg
        have hl1 : s1.length = neighbors.length := by rw [hlen1]; simpa using hlen
        have hinv1 := seedInv_grow ff neighbors sampled seeds i hi hlen hs hinv s1 hg
        obtain ⟨seeds', g1, g2, g3⟩ := ih s1 (nb + 1) (seeds ++ [i]) his' hl1
          (by simp [hseeds]) hinv1 h
        refine ⟨seeds', g1, g2, fun j hj => ?_⟩
        rcases List.mem_cons.1 hj with rfl | hj'
        · exact countClusters_mono ff neighbors is s1 (nb + 1) st h _
            (hmono _ (getD_set_one_self sampled _ (by rw [hlen]; exact hi)))
        · exact g3 j hj'

/-- The cluster count comes with a system of representatives: as many seeds as
clusters, no two of them connected, and every entry connected to one of them. -/
theorem nbCluster_seeds (ff : FaceFlags) (neighbors : List Nat) (nb : Nat)
    (h : nbCluster ff neighbors = some nb) :
    ∃ seeds : List Nat, seeds.length = nb ∧ (∀ r ∈ seeds, r < neighbors.length) ∧
      seeds.Pairwise (fun r r' => ¬ Relation.ReflTransGen (AdjPos ff neighbors) r r') ∧
      ∀ p, p < neighbors.length →
        ∃ r ∈ seeds, Relation.ReflTransGen (AdjPos ff neighbors) r p := by
  unfold nbCluster at h
  cases hc : countClusters ff neighbors (List.range neighbors.length)
      (List.replicate neighbors.length 0, 0) with
  | none => rw [hc] at h; simp at h
  | some st =>
    rw [hc] at h
    simp only [Option.map_some', Option.some.injEq] at h
    obtain ⟨seeds, g1, ⟨hb, hcov, _, he⟩, g3⟩ := countClusters_seeds ff neighbors
      (List.range neighbors.length) (List.replicate neighbors.length 0) 0 st []
      (fun i hi => List.mem_range.1 hi) (by simp) rfl (seedInv_init ff neighbors) hc
    exact ⟨seeds, g1.trans h, fun r hr => (hb r hr).1, he,
      fun p hp => hcov p (g3 p (List.mem_range.2 hp))⟩

theorem adjPos_symm (ff : FaceFlags) (neighbors : List Nat) :
    Symmetric (AdjPos ff neighbors) := by
  rintro p q ⟨h1, h2, h3⟩
  exact ⟨h2, h1, by rw [sharesEdge_comm]; exact h3⟩

/-- Reachability in `clusterGraph` is the reflexive-transitive closure of `AdjPos`. -/
theorem clusterGraph_reachable_iff (ff : FaceFlags) (neighbors : List Nat)
    (p q : Fin neighbors.length) :
    (clusterGraph ff neighbors).Reachable p q ↔
      Relation.ReflTransGen (AdjPos ff neighbors) p.val q.val := by
  rw [SimpleGraph.reachable_iff_reflTransGen]
  constructor
  · intro h
    refine Relation.ReflTransGen.lift (fun x : Fin neighbors.length => x.val) ?_ h
    intro a b hab
    unfold clusterGraph at hab
    rw [SimpleGraph.fromRel_adj] at hab
    rcases hab.2 with h1 | h1
    · exact ⟨a.isLt, b.isLt, h1⟩
    · exact ⟨a.isLt, b.isLt, by rw [sharesEdge_comm]; exact h1⟩
  · intro h
    have key : ∀ a b, Relation.ReflTransGen (AdjPos ff neighbors) a b →
        ∀ ha : a < neighbors.length, ∃ hb : b < neighbors.length,
          Relation.ReflTransGen (clusterGraph ff neighbors).Adj ⟨a, ha⟩ ⟨b, hb⟩ := by
      intro a b hab
      induction hab with
      | refl => exact fun ha => ⟨ha, Relation.ReflTransGen.refl⟩
      | @tail y z _ hstep ih =>
        intro ha
        obtain ⟨hb, hreach⟩ := ih ha
        obtain ⟨_, hc, hshare⟩ := hstep
        refine ⟨hc, ?_⟩
        by_cases hyz : y = z
        · subst hyz
          exact hreach
        · refine hreach.tail ?_
          unfold clusterGraph
          rw [SimpleGraph.fromRel_adj]
          exact ⟨fun heq => hyz (Fin.mk.inj heq), Or.inl hshare⟩
    obtain ⟨_, hr⟩ := key p.val q.val h p.isLt
    exact hr

/-- A system of representatives has as many members as there are connected
components. -/
theorem card_components_eq_seeds (ff : FaceFlags) (neighbors : List Nat) (seeds : List Nat)
    (hlt : ∀ r ∈ seeds, r < neighbors.length)
    (hpair : seeds.Pairwise
      (fun r r' => ¬ Relation.ReflTransGen (AdjPos ff neighbors) r r'))
    (hcov : ∀ p, p < neighbors.length →
      ∃ r ∈ seeds, Relation.ReflTransGen (AdjPos ff neighbors) r p) :
    Nat.card (clusterGraph ff neighbors).ConnectedComponent = seeds.length := by
  let f : Fin seeds.length → (clusterGraph ff neighbors).ConnectedComponent :=
    fun k => (clusterGraph ff neighbors).connectedComponentMk
      ⟨seeds[k.val], hlt _ (List.getElem_mem k.isLt)⟩
  have hinj : Function.Injective f := by
    intro k l hkl
    have hreach := (clusterGraph_reachable_iff ff neighbors _ _).1
      (SimpleGraph.ConnectedComponent.exact hkl)
    simp only at hreach
    rw [List.pairwise_iff_getElem] at hpair
    by_contra hne
    rcases Nat.lt_or_gt_of_ne (fun h => hne (Fin.ext h)) with hlt' | hgt'
    · exact hpair k.val l.val k.isLt l.isLt hlt' hreach
    · exact hpair l.val k.val l.isLt k.isLt hgt'
        (Relation.ReflTransGen.symmetric (adjPos_symm ff neighbors) hreach)
  have hsurj : Function.Surjective f := by
    intro c
    induction c using SimpleGraph.ConnectedComponent.ind with
    | h v =>
      obtain ⟨r, hr, hrv⟩ := hcov v.val v.isLt
      obtain ⟨k, hk, hkr⟩ := List.mem_iff_getElem.1 hr
      refine ⟨⟨k, hk⟩, ?_⟩
      apply SimpleGraph.ConnectedComponent.sound
      rw [clusterGraph_reachable_iff]
      simp only
      rw [hkr]
      exact hrv
  exact Nat.card_eq_of_equiv_fin (Equiv.ofBijective f ⟨hinj, hsurj⟩).symm

/-- C15: for every neighbourhood list (of any vertex, with any flags), the worklist
loop terminates and the cluster count `nb_cluster` it computes equals the number of
connected components of the graph whose nodes are the entries of the list and in which
two entries are adjacent when their triangles share an edge compared without regard to
direction; the count is 0 for an empty list. -/
theorem C15_cluster_count_is_number_of_components (ff : FaceFlags) (neighbors : List Nat) :
    ∃ nb, nbCluster ff neighbors = some nb ∧
      nb = Nat.card (clusterGraph ff neighbors).ConnectedComponent ∧
      (neighbors = [] → nb = 0) := by
  obtain ⟨nb, hnb⟩ := nbCluster_isSome ff neighbors
  obtain ⟨seeds, hlen, hlt, hpair, hcov⟩ := nbCluster_seeds ff neighbors nb hnb
  refine ⟨nb, hnb, ?_, fun hnil => ?_⟩
  · rw [card_components_eq_seeds ff neighbors seeds hlt hpair hcov, hlen]
  · subst hnil
    rw [nbCluster_nil] at hnb
    exact (Option.some.inj hnb).symm

/-! ## The grid table -/

theorem gridTable_find_push (tb : GridTable) (c c' : GridPos) (id : Nat) :
    (GridTable.push tb c id).find c' =
      if c' = c then some (cellList tb c ++ [id]) else tb.find c' := by
  induction tb with
  | nil =>
    by_cases h : c' = c
    · subst h; simp [GridTable.push, GridTable.find, cellList]
    · have h' : ¬ c = c' := fun e => h e.symm
      simp [GridTable.push, GridTable.find, h, h']
  | cons p rest ih =>
    obtain ⟨k, l⟩ := p
    unfold GridTable.push
    by_cases hk : k = c
    · subst hk
      by_cases h : c' = k
      · subst h; simp [GridTable.find, cellList]
      · have h' : ¬ k = c' := fun e => h e.symm
        simp [GridTable.find, h, h']
    · by_cases h : c' = c
      · subst h
        simp [GridTable.find, hk, ih, cellList]
      · by_cases hkc : k = c'
        · simp [GridTable.find, hk, h, hkc]
        · simp [GridTable.find, hk, h, hkc, ih]

theorem cellList_push (tb : GridTable) (c c' : GridPos) (id : Nat) :
    cellList (GridTable.push tb c id) c' =
      if c' = c then cellList tb c ++ [id] else cellList tb c' := by
  conv_lhs => unfold cellList
  rw [gridTable_find_push]
  by_cases h : c' = c
  · simp [h]
  · simp only [h, if_false]
    rfl

theorem mem_cellList_foldl_push (cs : List GridPos) (tb : GridTable) (id x : Nat)
    (c : GridPos) :
    x ∈ cellList (cs.foldl (fun t c' => GridTable.push t c' id) tb) c ↔
      x ∈ cellList tb c ∨ (x = id ∧ c ∈ cs) := by
  induction cs generalizing tb with
  | nil => simp
  | cons c0 cs ih =>
    rw [List.foldl_cons, ih, cellList_push]
    by_cases h : c = c0
    · subst h
      simp only [if_true, List.mem_append, List.mem_singleton, List.mem_cons, true_or,
        and_true]
      tauto
    · simp only [h, if_false, List.mem_cons, false_or]

theorem mem_cellList_insert (dx : ℚ) (vertices : List Point_3) (faces : List Triangle)
    (tb : GridTable) (id x : Nat) (c : GridPos) :
    x ∈ cellList (insert dx vertices faces tb id) c ↔
      x ∈ cellList tb c ∨
        (x = id ∧ c ∈ cellsOf dx (triangleOf vertices (faceOf faces id)).bbox) := by
  unfold insert
  exact mem_cellList_foldl_push _ tb id x c

theorem mem_cellList_foldl_insert (dx : ℚ) (vertices : List Point_3) (faces : List Triangle)
    (ids : List Nat) (tb : GridTable) (x : Nat) (c : GridPos) :
    x ∈ cellList (ids.foldl (insert dx vertices faces) tb) c ↔
      x ∈ cellList tb c ∨
        (x ∈ ids ∧ c ∈ cellsOf dx (triangleOf vertices (faceOf faces x)).bbox) := by
  induction ids generalizing tb with
  | nil => simp
  | cons id ids ih =>
    rw [List.foldl_cons, ih, mem_cellList_insert]
    constructor
    · rintro ((h | ⟨rfl, h⟩) | ⟨h1, h2⟩)
      · exact Or.inl h
      · exact Or.inr ⟨List.mem_cons_self _ _, h⟩
      · exact Or.inr ⟨List.mem_cons_of_mem _ h1, h2⟩
    · rintro (h | ⟨h1, h2⟩)
      · exact Or.inl (Or.inl h)
      · rcases List.mem_cons.1 h1 with rfl | h1'
        · exact Or.inl (Or.inr ⟨rfl, h2⟩)
        · exact Or.inr ⟨h1', h2⟩

/-- A face is in the list of a cell exactly when the cell is one of the cells of its
bounding box. -/
theorem mem_cellList_gridTable (dx : ℚ) (vertices : List Point_3) (faces : List Triangle)
    (x : Nat) (c : GridPos) :
    x ∈ cellList (gridTable dx vertices faces) c ↔
      x < faces.length ∧ c ∈ cellsOf dx (triangleOf vertices (faceOf faces x)).bbox := by
  unfold gridTable
  rw [mem_cellList_foldl_insert]
  simp [cellList, GridTable.find]

theorem mem_intRange (lo hi z : ℤ) : z ∈ intRange lo hi ↔ lo ≤ z ∧ z ≤ hi := by
  unfold intRange
  simp only [List.mem_map, List.bind_eq_flatMap, List.mem_flatMap, List.mem_range,
    List.pure_def, List.mem_singleton]
  constructor
  · rintro ⟨n, ⟨m, hm, rfl⟩, rfl⟩
    omega
  · rintro ⟨h1, h2⟩
    exact ⟨z - lo, ⟨(z - lo).toNat, by omega, by omega⟩, by omega⟩

theorem narrowToInt_of_range (z : ℤ) (h1 : -2147483648 ≤ z) (h2 : z < 2147483648) :
    narrowToInt z = z := by
  unfold narrowToInt
  omega

theorem gridcoord_of_range (dx p : ℚ) (h : CellInRange dx p) : gridcoord dx p = ⌊p / dx⌋ := by
  unfold gridcoord
  exact narrowToInt_of_range _ h.1 (by have := h.2; omega)

/-- The cells of a box run from `gridcoord(min)` to `gridcoord(max)` on every axis. -/
theorem mem_cellsOf_gridcoord (dx : ℚ) (bb : Bbox_3) (i j k : ℤ) :
    (i, j, k) ∈ cellsOf dx bb ↔
      (gridcoord dx bb.xmin ≤ i ∧ i ≤ gridcoord dx bb.xmax) ∧
        (gridcoord dx bb.ymin ≤ j ∧ j ≤ gridcoord dx bb.ymax) ∧
        (gridcoord dx bb.zmin ≤ k ∧ k ≤ gridcoord dx bb.zmax) := by
  unfold cellsOf
  simp only [List.mem_flatMap, List.mem_map, mem_intRange, Prod.mk.injEq]
  constructor
  · rintro ⟨i', hi, j', hj, k', hk, rfl, rfl, rfl⟩
    exact ⟨hi, hj, hk⟩
  · rintro ⟨hi, hj, hk⟩
    exact ⟨i, hi, j, hj, k, hk, rfl, rfl, rfl⟩

/-- The cells of a box whose cell indices are `int`s below the largest one run from
`floor(min / dx)` to `floor(max / dx)` on every axis. -/
theorem mem_cellsOf (dx : ℚ) (bb : Bbox_3) (hr : bb.CellsInRange dx) (i j k : ℤ) :
    (i, j, k) ∈ cellsOf dx bb ↔
      (⌊bb.xmin / dx⌋ ≤ i ∧ i ≤ ⌊bb.xmax / dx⌋) ∧ (⌊bb.ymin / dx⌋ ≤ j ∧ j ≤ ⌊bb.ymax / dx⌋) ∧
        (⌊bb.zmin / dx⌋ ≤ k ∧ k ≤ ⌊bb.zmax / dx⌋) := by
  obtain ⟨⟨x1, x2⟩, ⟨y1, y2⟩, ⟨z1, z2⟩⟩ := hr
  rw [mem_cellsOf_gridcoord, gridcoord_of_range dx _ x1, gridcoord_of_range dx _ x2,
    gridcoord_of_range dx _ y1, gridcoord_of_range dx _ y2, gridcoord_of_range dx _ z1,
    gridcoord_of_range dx _ z2]

theorem gridcoord_mono (dx : ℚ) (hdx : 0 ≤ dx) (p q : ℚ) (h : p ≤ q) :
    ⌊p / dx⌋ ≤ ⌊q / dx⌋ :=
  Int.floor_mono (div_le_div_of_nonneg_right h hdx)

theorem triangle_bbox_wf (t : Triangle_3) :
    t.bbox.xmin ≤ t.bbox.xmax ∧ t.bbox.ymin ≤ t.bbox.ymax ∧ t.bbox.zmin ≤ t.bbox.zmax := by
  simp only [Triangle_3.bbox, Bbox_3.addPoint, Point_3.bbox]
  refine ⟨?_, ?_, ?_⟩
  · exact le_trans (min_le_right _ _) (le_max_right _ _)
  · exact le_trans (min_le_right _ _) (le_max_right _ _)
  · exact le_trans (min_le_right _ _) (le_max_right _ _)

/-- For a cell size that is not negative, a face whose cell indices are `int`s below
the largest one is in the list of the first cell of its own bounding box, hence among
its own candidates. -/
theorem self_mem_facesToCheck (dx : ℚ) (hdx : 0 ≤ dx) (vertices : List Point_3)
    (faces : List Triangle) (id : Nat) (hid : id < faces.length)
    (hr : (triangleOf vertices (faceOf faces id)).bbox.CellsInRange dx) :
    id ∈ facesToCheck dx (gridTable dx vertices faces)
      (triangleOf vertices (faceOf faces id)).bbox := by
  obtain ⟨hx, hy, hz⟩ := triangle_bbox_wf (triangleOf vertices (faceOf faces id))
  have hcell : (⌊(triangleOf vertices (faceOf faces id)).bbox.xmin / dx⌋,
      ⌊(triangleOf vertices (faceOf faces id)).bbox.ymin / dx⌋,
      ⌊(triangleOf vertices (faceOf faces id)).bbox.zmin / dx⌋) ∈
      cellsOf dx (triangleOf vertices (faceOf faces id)).bbox := by
    rw [mem_cellsOf dx _ hr]
    exact ⟨⟨le_refl _, gridcoord_mono dx hdx _ _ hx⟩, ⟨le_refl _, gridcoord_mono dx hdx _ _ hy⟩,
      ⟨le_refl _, gridcoord_mono dx hdx _ _ hz⟩⟩
  unfold facesToCheck
  rw [List.mem_flatMap]
  exact ⟨_, hcell, (mem_cellList_gridTable dx vertices faces id _).2 ⟨hid, hcell⟩⟩

/-! ## Every face is tested against itself by the grid detector -/

theorem checkCandidates_mono (is_degenerate : Triangle_3 → Bool)
    (do_intersect : Triangle_3 → Triangle_3 → Bool) (vertices : List Point_3)
    (faces : List Triangle) (id : Nat) (t : Triangle_3) (js face_flags : List Nat) :
    (∀ p, face_flags.getD p 0 = 1 →
      (checkCandidates is_degenerate do_intersect vertices faces id t js face_flags).getD p 0
        = 1) ∧
    (checkCandidates is_degenerate do_intersect vertices faces id t js face_flags).length =
      face_flags.length := by
  induction js generalizing face_flags with
  | nil => exact ⟨fun _ h => h, rfl⟩
  | cons j js ih =>
    rw [checkCandidates]
    by_cases hd : is_degenerate (triangleOf vertices (faceOf faces j)) = true
    · rw [if_pos hd]
      obtain ⟨h1, h2⟩ := ih (face_flags.set j 1)
      exact ⟨fun p hp => h1 p (getD_set_one_mono face_flags j p hp), by simpa using h2⟩
    · rw [if_neg hd]
      by_cases hi : do_intersect (triangleOf vertices (faceOf faces j)) t = true
      · rw [if_pos hi]
        exact ⟨fun p hp => getD_set_one_mono _ j p (getD_set_one_mono face_flags id p hp),
          by simp⟩
      · rw [if_neg hi]
        exact ih face_flags

theorem checkCandidates_self (is_degenerate : Triangle_3 → Bool)
    (do_intersect : Triangle_3 → Triangle_3 → Bool) (vertices : List Point_3)
    (faces : List Triangle) (id : Nat) (js face_flags : List Nat)
    (hmem : id ∈ js) (hid : id < face_flags.length)
    (hnd : is_degenerate (triangleOf vertices (faceOf faces id)) = false)
    (hself : do_intersect (triangleOf vertices (faceOf faces id))
      (triangleOf vertices (faceOf faces id)) = true) :
    (checkCandidates is_degenerate do_intersect vertices faces id
      (triangleOf vertices (faceOf faces id)) js face_flags).getD id 0 = 1 := by
  induction js generalizing face_flags with
  | nil => cases hmem
  | cons j js ih =>
    rw [checkCandidates]
    by_cases hd : is_degenerate (triangleOf vertices (faceOf faces j)) = true
    · rw [if_pos hd]
      have hne : j ≠ id := by
        rintro rfl
        rw [hnd] at hd
        cases hd
      have hmem' : id ∈ js := by
        rcases List.mem_cons.1 hmem with h | h
        · exact absurd h.symm hne
        · exact h
      exact ih (face_flags.set j 1) hmem' (by simpa using hid)
    · rw [if_neg hd]
      by_cases hi : do_intersect (triangleOf vertices (faceOf faces j))
          (triangleOf vertices (faceOf faces id)) = true
      · rw [if_pos hi]
        exact getD_set_one_mono _ j id (getD_set_one_self face_flags id hid)
      · rw [if_neg hi]
        have hne : j ≠ id := by
          rintro rfl
          exact hi hself
        have hmem' : id ∈ js := by
          rcases List.mem_cons.1 hmem with h | h
          · exact absurd h.symm hne
          · exact h
        exact ih face_flags hmem' hid

theorem check_mono (dx : ℚ) (is_degenerate : Triangle_3 → Bool)
    (do_intersect : Triangle_3 → Triangle_3 → Bool) (vertices : List Point_3)
    (faces : List Triangle) (table : GridTable) (face_flags : List Nat) (id : Nat) :
    (∀ p, face_flags.getD p 0 = 1 →
      (check dx is_degenerate do_intersect vertices faces table face_flags id).getD p 0 = 1) ∧
    (check dx is_degenerate do_intersect vertices faces table face_flags id).length =
      face_flags.length := by
  unfold check
  by_cases h1 : face_flags.getD id 0 = 1
  · rw [if_pos h1]
    exact ⟨fun _ h => h, rfl⟩
  · rw [if_neg h1]
    by_cases h2 : is_degenerate (triangleOf vertices (faceOf faces id)) = true
    · rw [if_pos h2]
      exact ⟨fun p hp => getD_set_one_mono face_flags id p hp, by simp⟩
    · rw [if_neg h2]
      exact checkCandidates_mono _ _ _ _ _ _ _ _

/-- After `check(id)` the face `id` is flagged. -/
theorem check_self (dx : ℚ) (hdx : 0 ≤ dx) (is_degenerate : Triangle_3 → Bool)
    (do_intersect : Triangle_3 → Triangle_3 → Bool)
    (hself : ∀ t, is_degenerate t = false → do_intersect t t = true)
    (vertices : List Point_3) (faces : List Triangle) (face_flags : List Nat) (id : Nat)
    (hid : id < faces.length) (hlen : face_flags.length = faces.length)
    (hr : (triangleOf vertices (faceOf faces id)).bbox.CellsInRange dx) :
    (check dx is_degenerate do_intersect vertices faces (gridTable dx vertices faces)
      face_flags id).getD id 0 = 1 := by
  unfold check
  by_cases h1 : face_flags.getD id 0 = 1
  · rw [if_pos h1]
    exact h1
  · rw [if_neg h1]
    by_cases h2 : is_degenerate (triangleOf vertices (faceOf faces id)) = true
    · rw [if_pos h2]
      exact getD_set_one_self face_flags id (by rw [hlen]; exact hid)
    · rw [if_neg h2]
      have hnd : is_degenerate (triangleOf vertices (faceOf faces id)) = false := by
        cases h : is_degenerate (triangleOf vertices (faceOf faces id)) with
        | false => rfl
        | true => exact absurd h h2
      exact checkCandidates_self is_degenerate do_intersect vertices faces id _ face_flags
        (self_mem_facesToCheck dx hdx vertices faces id hid hr) (by rw [hlen]; exact hid) hnd
        (hself _ hnd)

theorem foldl_check_flags (dx : ℚ) (hdx : 0 ≤ dx) (is_degenerate : Triangle_3 → Bool)
    (do_intersect : Triangle_3 → Triangle_3 → Bool)
    (hself : ∀ t, is_degenerate t = false → do_intersect t t = true)
    (vertices : List Point_3) (faces : List Triangle)
    (hr : ∀ id, id < faces.length →
      (triangleOf vertices (faceOf faces id)).bbox.CellsInRange dx)
    (ids face_flags : List Nat)
    (hids : ∀ i ∈ ids, i < faces.length) (hlen : face_flags.length = faces.length) :
    (∀ p, face_flags.getD p 0 = 1 →
      (ids.foldl (check dx is_degenerate do_intersect vertices faces
        (gridTable dx vertices faces)) face_flags).getD p 0 = 1) ∧
    (∀ i ∈ ids, (ids.foldl (check dx is_degenerate do_intersect vertices faces
        (gridTable dx vertices faces)) face_flags).getD i 0 = 1) := by
  induction ids generalizing face_flags with
  | nil => exact ⟨fun _ h => h, fun i hi => absurd hi (List.not_mem_nil i)⟩
  | cons id ids ih =>
    have hid : id < faces.length := hids id (List.mem_cons_self _ _)
    obtain ⟨hm, hl⟩ := check_mono dx is_degenerate do_intersect vertices faces
      (gridTable dx vertices faces) face_flags id
    obtain ⟨g1, g2⟩ := ih (check dx is_degenerate do_intersect vertices faces
      (gridTable dx vertices faces) face_flags id)
      (fun i hi => hids i (List.mem_cons_of_mem _ hi)) (hl.trans hlen)
    rw [List.foldl_cons]
    refine ⟨fun p hp => g1 p (hm p hp), fun i hi => ?_⟩
    rcases List.mem_cons.1 hi with rfl | hi'
    · exact g1 _ (check_self dx hdx is_degenerate do_intersect hself vertices faces
        face_flags _ hid hlen (hr _ hid))
    · exact g2 i hi'

/-- For a cell size that is not negative the grid detector flags every face, when the
cell indices of every face are `int`s below the largest one. -/
theorem removeSelfIntersectionGrid_nil (dx : ℚ) (hdx : 0 ≤ dx)
    (is_degenerate : Triangle_3 → Bool) (do_intersect : Triangle_3 → Triangle_3 → Bool)
    (hself : ∀ t, is_degenerate t = false → do_intersect t t = true)
    (vertices : List Point_3) (faces : List Triangle)
    (hr : ∀ id, id < faces.length →
      (triangleOf vertices (faceOf faces id)).bbox.CellsInRange dx) :
    RemoveSelfIntersectionGrid dx is_degenerate do_intersect vertices faces = [] := by
  have hflags := (foldl_check_flags dx hdx is_degenerate do_intersect hself vertices faces hr
    (List.range faces.length) (List.replicate faces.length 0)
    (fun i hi => List.mem_range.1 hi) (by simp)).2
  have hfilter : (List.range faces.length).filter
      (fun i => (gridFlags dx is_degenerate do_intersect vertices faces).getD i 0 = 0) = [] := by
    rw [List.filter_eq_nil_iff]
    intro i hi
    have hone : (gridFlags dx is_degenerate do_intersect vertices faces).getD i 0 = 1 :=
      hflags i hi
    rw [decide_eq_true_eq, hone]
    decide
  show ((List.range faces.length).filter
    (fun i => (gridFlags dx is_degenerate do_intersect vertices faces).getD i 0 = 0)).map
      (faceOf faces) = []
  rw [hfilter]
  rfl

theorem foldl_add_nonneg (sqrt : ℚ → ℚ) (hsqrt : ∀ q, 0 ≤ sqrt q) (vertices : List Point_3)
    (faces : List Triangle) (acc : ℚ) (hacc : 0 ≤ acc) :
    0 ≤ faces.foldl (fun dx f =>
      dx + sqrt (squared_distance (vertexAt vertices f.v0) (vertexAt vertices f.v1))
        + sqrt (squared_distance (vertexAt vertices f.v1) (vertexAt vertices f.v2))
        + sqrt (squared_distance (vertexAt vertices f.v2) (vertexAt vertices f.v0))) acc := by
  induction faces generalizing acc with
  | nil => exact hacc
  | cons f fs ih =>
    rw [List.foldl_cons]
    apply ih
    have h1 := hsqrt (squared_distance (vertexAt vertices f.v0) (vertexAt vertices f.v1))
    have h2 := hsqrt (squared_distance (vertexAt vertices f.v1) (vertexAt vertices f.v2))
    have h3 := hsqrt (squared_distance (vertexAt vertices f.v2) (vertexAt vertices f.v0))
    linarith

theorem cellSize_nonneg (sqrt : ℚ → ℚ) (hsqrt : ∀ q, 0 ≤ sqrt q) (vertices : List Point_3)
    (faces : List Triangle) : 0 ≤ cellSize sqrt vertices faces := by
  unfold cellSize
  have h := foldl_add_nonneg sqrt hsqrt vertices faces 0 (le_refl 0)
  have hn : (0 : ℚ) ≤ (faces.length : ℚ) := Nat.cast_nonneg _
  exact mul_nonneg (div_nonneg (div_nonneg h (by norm_num)) hn) (by norm_num)

theorem separates_self (d : Point_3) (t : Triangle_3) : separates d t t = false := by
  unfold separates
  have h : ¬ (max (max (dot d t.p0) (dot d t.p1)) (dot d t.p2) <
      min (min (dot d t.p0) (dot d t.p1)) (dot d t.p2)) := by
    rw [not_lt]
    exact le_trans (min_le_right _ _) (le_max_right _ _)
  simp [h]

theorem exactIntersect_self (t : Triangle_3) : exactIntersect t t = true := by
  unfold exactIntersect
  rw [List.all_eq_true]
  intro d _
  rw [separates_self]
  rfl

theorem exactSqrt_nonneg (q : ℚ) : 0 ≤ exactSqrt q := by
  unfold exactSqrt
  exact div_nonneg (Nat.cast_nonneg _) (Nat.cast_nonneg _)

/-- C19 (counterexample): the single face on `farVertices` has valid indices and is not
degenerate, the exact intersection test holds between every triangle and itself, and
the cell size is 8; yet `RemoveSelfIntersection` returns the face.  Its smallest x
coordinate lies in the cell `2^31 - 1`, the largest `int`, and its largest x coordinate
in the cell `2^31`, which `gridcoord` returns as `-2^31`: the loops over the cells run
from `2^31 - 1` to `-2^31`, so the face is inserted into no cell and has no
candidates. -/
theorem C19_counterexample :
    ValidIdx farVertices.length [(⟨0, 1, 2⟩ : Triangle)] ∧
    (∀ t, exactDegenerate t = false → exactIntersect t t = true) ∧
    exactDegenerate (triangleOf farVertices ⟨0, 1, 2⟩) = false ∧
    cellSize exactSqrt farVertices [⟨0, 1, 2⟩] = 8 ∧
    gridcoord 8 (triangleOf farVertices ⟨0, 1, 2⟩).bbox.xmin = 2147483647 ∧
    ⌊(triangleOf farVertices ⟨0, 1, 2⟩).bbox.xmax / 8⌋ = 2147483648 ∧
    gridcoord 8 (triangleOf farVertices ⟨0, 1, 2⟩).bbox.xmax = -2147483648 ∧
    cellsOf 8 (triangleOf farVertices ⟨0, 1, 2⟩).bbox = [] ∧
    RemoveSelfIntersection exactSqrt exactDegenerate exactIntersect farVertices [⟨0, 1, 2⟩] =
      [⟨0, 1, 2⟩] := by
  refine ⟨by decide, fun t _ => exactIntersect_self t, by decide!, by decide!, by decide!,
    by decide!, by decide!, by decide!, by decide!⟩

/-- C19 (amended): for every vertex list and triangle list with valid indices in which
the cell indices `floor(p / dx)` of the bounding box of every face are `int`s below the
largest one, when the intersection predicate holds between a non-degenerate triangle
and itself (and the square root is not negative), `RemoveSelfIntersection` returns the
empty list: each face is inserted into the cells of its own bounding box, so it is one
of its own candidates and is flagged as degenerate, by an earlier candidate, or by the
test against itself. -/
theorem C19_grid_detector_returns_empty_within_int_cells (sqrt : ℚ → ℚ)
    (hsqrt : ∀ q, 0 ≤ sqrt q)
    (is_degenerate : Triangle_3 → Bool) (do_intersect : Triangle_3 → Triangle_3 → Bool)
    (hself : ∀ t, is_degenerate t = false → do_intersect t t = true)
    (vertices : List Point_3) (faces : List Triangle)
    (_hvalid : ValidIdx vertices.length faces)
    (hrange : ∀ f ∈ faces,
      (triangleOf vertices f).bbox.CellsInRange (cellSize sqrt vertices faces)) :
    RemoveSelfIntersection sqrt is_degenerate do_intersect vertices faces = [] ∧
    ∀ id, id < faces.length →
      id ∈ facesToCheck (cellSize sqrt vertices faces)
        (gridTable (cellSize sqrt vertices faces) vertices faces)
        (triangleOf vertices (faceOf faces id)).bbox := by
  have hdx := cellSize_nonneg sqrt hsqrt vertices faces
  have hr : ∀ id, id < faces.length →
      (triangleOf vertices (faceOf faces id)).bbox.CellsInRange
        (cellSize sqrt vertices faces) := by
    intro id hid
    apply hrange
    unfold faceOf
    rw [List.getD_eq_getElem?_getD, List.getElem?_eq_getElem hid, Option.getD_some]
    exact List.getElem_mem hid
  exact ⟨removeSelfIntersectionGrid_nil _ hdx is_degenerate do_intersect hself vertices faces
      hr,
    fun id hid => self_mem_facesToCheck _ hdx vertices faces id hid (hr id hid)⟩

/-- Witness of C19 (amended) with the exact predicates on the two triangles that are
apart. -/
theorem C19_witness :
    (∀ f ∈ twoFaces,
      (triangleOf apartVertices f).bbox.CellsInRange
        (cellSize exactSqrt apartVertices twoFaces)) ∧
    RemoveSelfIntersection exactSqrt exactDegenerate exactIntersect apartVertices twoFaces
      = [] ∧
    ∀ id, id < twoFaces.length →
      id ∈ facesToCheck (cellSize exactSqrt apartVertices twoFaces)
        (gridTable (cellSize exactSqrt apartVertices twoFaces) apartVertices twoFaces)
        (triangleOf apartVertices (faceOf twoFaces id)).bbox :=
  ⟨by decide!,
    C19_grid_detector_returns_empty_within_int_cells exactSqrt exactSqrt_nonneg
      exactDegenerate exactIntersect (fun t _ => exactIntersect_self t) apartVertices
      twoFaces (by decide) (by decide!)⟩

/-! ## Broad phase: overlapping boxes share a cell -/

theorem convex_le_max (u v w x0 x1 x2 : ℚ) (hu : 0 ≤ u) (hv : 0 ≤ v) (hw : 0 ≤ w)
    (hsum : u + v + w = 1) : u * x0 + v * x1 + w * x2 ≤ max (max x0 x1) x2 := by
  have h0 : x0 ≤ max (max x0 x1) x2 := le_trans (le_max_left _ _) (le_max_left _ _)
  have h1 : x1 ≤ max (max x0 x1) x2 := le_trans (le_max_right _ _) (le_max_left _ _)
  have h2 : x2 ≤ max (max x0 x1) x2 := le_max_right _ _
  have e0 := mul_le_mul_of_nonneg_left h0 hu
  have e1 := mul_le_mul_of_nonneg_left h1 hv
  have e2 := mul_le_mul_of_nonneg_left h2 hw
  have e3 : u * max (max x0 x1) x2 + v * max (max x0 x1) x2 + w * max (max x0 x1) x2 =
      max (max x0 x1) x2 := by
    rw [← add_mul, ← add_mul, hsum, one_mul]
  linarith

theorem min_le_convex (u v w x0 x1 x2 : ℚ) (hu : 0 ≤ u) (hv : 0 ≤ v) (hw : 0 ≤ w)
    (hsum : u + v + w = 1) : min (min x0 x1) x2 ≤ u * x0 + v * x1 + w * x2 := by
  have h0 : min (min x0 x1) x2 ≤ x0 := le_trans (min_le_left _ _) (min_le_left _ _)
  have h1 : min (min x0 x1) x2 ≤ x1 := le_trans (min_le_left _ _) (min_le_right _ _)
  have h2 : min (min x0 x1) x2 ≤ x2 := min_le_right _ _
  have e0 := mul_le_mul_of_nonneg_left h0 hu
  have e1 := mul_le_mul_of_nonneg_left h1 hv
  have e2 := mul_le_mul_of_nonneg_left h2 hw
  have e3 : u * min (min x0 x1) x2 + v * min (min x0 x1) x2 + w * min (min x0 x1) x2 =
      min (min x0 x1) x2 := by
    rw [← add_mul, ← add_mul, hsum, one_mul]
  linarith

/-- A point of a triangle lies in the bounding box of the triangle. -/
theorem inTriangle_bbox (t : Triangle_3) (p : Point_3) (h : InTriangle t p) :
    (t.bbox.xmin ≤ p.x ∧ p.x ≤ t.bbox.xmax) ∧ (t.bbox.ymin ≤ p.y ∧ p.y ≤ t.bbox.ymax) ∧
      (t.bbox.zmin ≤ p.z ∧ p.z ≤ t.bbox.zmax) := by
  obtain ⟨u, v, w, hu, hv, hw, hsum, hx, hy, hz⟩ := h
  simp only [Triangle_3.bbox, Bbox_3.addPoint, Point_3.bbox]
  rw [hx, hy, hz]
  exact ⟨⟨min_le_convex u v w _ _ _ hu hv hw hsum, convex_le_max u v w _ _ _ hu hv hw hsum⟩,
    ⟨min_le_convex u v w _ _ _ hu hv hw hsum, convex_le_max u v w _ _ _ hu hv hw hsum⟩,
    ⟨min_le_convex u v w _ _ _ hu hv hw hsum, convex_le_max u v w _ _ _ hu hv hw hsum⟩⟩

/-- Two triangles with a common point have overlapping bounding boxes. -/
theorem overlap_of_common_point (s t : Triangle_3) (p : Point_3) (hs : InTriangle s p)
    (ht : InTriangle t p) : BboxOverlap s.bbox t.bbox := by
  obtain ⟨⟨a1, a2⟩, ⟨a3, a4⟩, ⟨a5, a6⟩⟩ := inTriangle_bbox s p hs
  obtain ⟨⟨b1, b2⟩, ⟨b3, b4⟩, ⟨b5, b6⟩⟩ := inTriangle_bbox t p ht
  exact ⟨⟨a1.trans b2, b1.trans a2⟩, ⟨a3.trans b4, b3.trans a4⟩, ⟨a5.trans b6, b5.trans a6⟩⟩

theorem common_cell_axis (dx : ℚ) (hdx : 0 ≤ dx) (amin amax bmin bmax : ℚ)
    (ha : amin ≤ amax) (hb : bmin ≤ bmax) (h1 : amin ≤ bmax) (h2 : bmin ≤ amax) :
    (⌊amin / dx⌋ ≤ ⌊max amin bmin / dx⌋ ∧ ⌊max amin bmin / dx⌋ ≤ ⌊amax / dx⌋) ∧
      (⌊bmin / dx⌋ ≤ ⌊max amin bmin / dx⌋ ∧ ⌊max amin bmin / dx⌋ ≤ ⌊bmax / dx⌋) :=
  ⟨⟨gridcoord_mono dx hdx _ _ (le_max_left _ _), gridcoord_mono dx hdx _ _ (max_le ha h2)⟩,
    ⟨gridcoord_mono dx hdx _ _ (le_max_right _ _), gridcoord_mono dx hdx _ _ (max_le h1 hb)⟩⟩

/-- Two faces with overlapping bounding boxes whose cell indices are `int`s below the
largest one lie in a common cell of the grid. -/
theorem common_cell (dx : ℚ) (hdx : 0 ≤ dx) (vertices : List Point_3)
    (faces : List Triangle) (a b : Nat) (ha : a < faces.length) (hb : b < faces.length)
    (hra : (triangleOf vertices (faceOf faces a)).bbox.CellsInRange dx)
    (hrb : (triangleOf vertices (faceOf faces b)).bbox.CellsInRange dx)
    (hover : BboxOverlap (triangleOf vertices (faceOf faces a)).bbox
      (triangleOf vertices (faceOf faces b)).bbox) :
    ∃ c, c ∈ cellsOf dx (triangleOf vertices (faceOf faces a)).bbox ∧
      c ∈ cellsOf dx (triangleOf vertices (faceOf faces b)).bbox ∧
      a ∈ cellList (gridTable dx vertices faces) c ∧
      b ∈ cellList (gridTable dx vertices faces) c := by
  obtain ⟨wa1, wa2, wa3⟩ := triangle_bbox_wf (triangleOf vertices (faceOf faces a))
  obtain ⟨wb1, wb2, wb3⟩ := triangle_bbox_wf (triangleOf vertices (faceOf faces b))
  obtain ⟨⟨x1, x2⟩, ⟨y1, y2⟩, ⟨z1, z2⟩⟩ := hover
  obtain ⟨cx1, cx2⟩ := common_cell_axis dx hdx _ _ _ _ wa1 wb1 x1 x2
  obtain ⟨cy1, cy2⟩ := common_cell_axis dx hdx _ _ _ _ wa2 wb2 y1 y2
  obtain ⟨cz1, cz2⟩ := common_cell_axis dx hdx _ _ _ _ wa3 wb3 z1 z2
  have hca := (mem_cellsOf dx (triangleOf vertices (faceOf faces a)).bbox hra _ _ _).2
    ⟨cx1, cy1, cz1⟩
  have hcb := (mem_cellsOf dx (triangleOf vertices (faceOf faces b)).bbox hrb _ _ _).2
    ⟨cx2, cy2, cz2⟩
  exact ⟨_, hca, hcb, (mem_cellList_gridTable dx vertices faces a _).2 ⟨ha, hca⟩,
    (mem_cellList_gridTable dx vertices faces b _).2 ⟨hb, hcb⟩⟩

/-- C20 (counterexample): with the cell size 8 the two faces `(0,1,2)` and `(1,2,0)` on
`farVertices` have the same bounding box and their triangles intersect, yet no cell of
the grid holds either of them and neither is among the candidates of the other: the
cells of the box run from `gridcoord(xmin) = 2^31 - 1` to `gridcoord(xmax) = -2^31`,
not to `floor(xmax / 8) = 2^31`. -/
theorem C20_counterexample :
    (0 : ℚ) < 8 ∧
    BboxOverlap (triangleOf farVertices (faceOf [⟨0, 1, 2⟩, ⟨1, 2, 0⟩] 0)).bbox
      (triangleOf farVertices (faceOf [⟨0, 1, 2⟩, ⟨1, 2, 0⟩] 1)).bbox ∧
    exactIntersect (triangleOf farVertices (faceOf [⟨0, 1, 2⟩, ⟨1, 2, 0⟩] 0))
      (triangleOf farVertices (faceOf [⟨0, 1, 2⟩, ⟨1, 2, 0⟩] 1)) = true ∧
    gridTable 8 farVertices [⟨0, 1, 2⟩, ⟨1, 2, 0⟩] = [] ∧
    (¬ ∃ c, 0 ∈ cellList (gridTable 8 farVertices [⟨0, 1, 2⟩, ⟨1, 2, 0⟩]) c ∧
      1 ∈ cellList (gridTable 8 farVertices [⟨0, 1, 2⟩, ⟨1, 2, 0⟩]) c) ∧
    1 ∉ facesToCheck 8 (gridTable 8 farVertices [⟨0, 1, 2⟩, ⟨1, 2, 0⟩])
      (triangleOf farVertices (faceOf [⟨0, 1, 2⟩, ⟨1, 2, 0⟩] 0)).bbox ∧
    0 ∉ facesToCheck 8 (gridTable 8 farVertices [⟨0, 1, 2⟩, ⟨1, 2, 0⟩])
      (triangleOf farVertices (faceOf [⟨0, 1, 2⟩, ⟨1, 2, 0⟩] 1)).bbox ∧
    gridcoord 8 (triangleOf farVertices (faceOf [⟨0, 1, 2⟩, ⟨1, 2, 0⟩] 0)).bbox.xmin =
      2147483647 ∧
    gridcoord 8 (triangleOf farVertices (faceOf [⟨0, 1, 2⟩, ⟨1, 2, 0⟩] 0)).bbox.xmax =
      -2147483648 ∧
    ⌊(triangleOf farVertices (faceOf [⟨0, 1, 2⟩, ⟨1, 2, 0⟩] 0)).bbox.xmax / 8⌋ =
      2147483648 := by
  have htable : gridTable 8 farVertices [⟨0, 1, 2⟩, ⟨1, 2, 0⟩] = [] := by decide!
  refine ⟨by norm_num, by decide!, by decide!, htable, ?_, by decide!, by decide!,
    by decide!, by decide!, by decide!⟩
  rintro ⟨c, hc, _⟩
  rw [htable] at hc
  simp [cellList, GridTable.find] at hc

/-- C20 (amended): broad-phase completeness.  For every cell size `dx > 0` and any two
faces whose cell indices `floor(p / dx)` are `int`s below the largest one and whose
bounding boxes overlap on all three axes (in particular any two such faces whose
triangles have a common point), there is a grid cell that contains both faces, and each
of the two is in the candidate list gathered for the other; the cells of such a box run
from `floor(min / dx)` to `floor(max / dx)` on every axis. -/
theorem C20_overlapping_faces_share_a_cell_within_int_cells (dx : ℚ) (hdx : 0 < dx)
    (vertices : List Point_3) (faces : List Triangle) (a b : Nat)
    (ha : a < faces.length) (hb : b < faces.length)
    (hra : (triangleOf vertices (faceOf faces a)).bbox.CellsInRange dx)
    (hrb : (triangleOf vertices (faceOf faces b)).bbox.CellsInRange dx)
    (hover : BboxOverlap (triangleOf vertices (faceOf faces a)).bbox
        (triangleOf vertices (faceOf faces b)).bbox ∨
      ∃ p, InTriangle (triangleOf vertices (faceOf faces a)) p ∧
        InTriangle (triangleOf vertices (faceOf faces b)) p) :
    (∃ c, c ∈ cellsOf dx (triangleOf vertices (faceOf faces a)).bbox ∧
      c ∈ cellsOf dx (triangleOf vertices (faceOf faces b)).bbox ∧
      a ∈ cellList (gridTable dx vertices faces) c ∧
      b ∈ cellList (gridTable dx vertices faces) c) ∧
    b ∈ facesToCheck dx (gridTable dx vertices faces)
      (triangleOf vertices (faceOf faces a)).bbox ∧
    a ∈ facesToCheck dx (gridTable dx vertices faces)
      (triangleOf vertices (faceOf faces b)).bbox ∧
    (∀ (bb : Bbox_3), bb.CellsInRange dx → ∀ (i j k : ℤ), (i, j, k) ∈ cellsOf dx bb ↔
      (⌊bb.xmin / dx⌋ ≤ i ∧ i ≤ ⌊bb.xmax / dx⌋) ∧ (⌊bb.ymin / dx⌋ ≤ j ∧ j ≤ ⌊bb.ymax / dx⌋) ∧
        (⌊bb.zmin / dx⌋ ≤ k ∧ k ≤ ⌊bb.zmax / dx⌋)) := by
  have hov : BboxOverlap (triangleOf vertices (faceOf faces a)).bbox
      (triangleOf vertices (faceOf faces b)).bbox := by
    rcases hover with h | ⟨p, hpa, hpb⟩
    · exact h
    · exact overlap_of_common_point _ _ p hpa hpb
  obtain ⟨c, hca, hcb, hac, hbc⟩ :=
    common_cell dx (le_of_lt hdx) vertices faces a b ha hb hra hrb hov
  refine ⟨⟨c, hca, hcb, hac, hbc⟩, ?_, ?_, fun bb hr i j k => mem_cellsOf dx bb hr i j k⟩
  · unfold facesToCheck
    rw [List.mem_flatMap]
    exact ⟨c, hca, hbc⟩
  · unfold facesToCheck
    rw [List.mem_flatMap]
    exact ⟨c, hcb, hac⟩

/-- Witness of C20 (amended): the two crossing triangles with the cell size 8. -/
theorem C20_witness :
    (∃ c, c ∈ cellsOf 8 (triangleOf crossVertices (faceOf twoFaces 0)).bbox ∧
      c ∈ cellsOf 8 (triangleOf crossVertices (faceOf twoFaces 1)).bbox ∧
      0 ∈ cellList (gridTable 8 crossVertices twoFaces) c ∧
      1 ∈ cellList (gridTable 8 crossVertices twoFaces) c) ∧
    1 ∈ facesToCheck 8 (gridTable 8 crossVertices twoFaces)
      (triangleOf crossVertices (faceOf twoFaces 0)).bbox ∧
    0 ∈ facesToCheck 8 (gridTable 8 crossVertices twoFaces)
      (triangleOf crossVertices (faceOf twoFaces 1)).bbox ∧
    (∀ (bb : Bbox_3), bb.CellsInRange 8 → ∀ (i j k : ℤ), (i, j, k) ∈ cellsOf 8 bb ↔
      (⌊bb.xmin / 8⌋ ≤ i ∧ i ≤ ⌊bb.xmax / 8⌋) ∧ (⌊bb.ymin / 8⌋ ≤ j ∧ j ≤ ⌊bb.ymax / 8⌋) ∧
        (⌊bb.zmin / 8⌋ ≤ k ∧ k ≤ ⌊bb.zmax / 8⌋)) :=
  C20_overlapping_faces_share_a_cell_within_int_cells 8 (by decide!) crossVertices twoFaces
    0 1 (by decide) (by decide) (by decide!) (by decide!) (Or.inl (by decide!))

/-! ## Inputs that `RemoveNonManifold` returns unchanged -/

theorem length_incidences_eq_sideCount (faces : List Triangle) (a b : Nat) :
    (incidences 0 faces (a, b)).length = sideCount a b faces := by
  rw [length_incidences]
  unfold sideCount
  congr 1
  exact List.map_congr_left (fun f _ => edgeCount_eq_sides a b f)

/-- With valid indices only pairs of vertex indices below the vertex count can have sides
of faces on them. -/
theorem sideCount_eq_zero (nv : Nat) (faces : List Triangle) (hvalid : ValidIdx nv faces)
    (a b : Nat) (h : nv ≤ a ∨ nv ≤ b) : sideCount a b faces = 0 := by
  unfold sideCount
  apply List.sum_eq_zero
  intro x hx
  obtain ⟨f, hf, rfl⟩ := List.mem_map.1 hx
  obtain ⟨h0, h1, h2⟩ := hvalid f hf
  rw [List.length_eq_zero, List.filter_eq_nil_iff]
  intro s hs
  simp only [List.mem_cons, List.mem_singleton, List.not_mem_nil, or_false] at hs
  simp only [decide_eq_true_eq]
  rcases hs with rfl | rfl | rfl <;>
    simp only [Triangle.GetEdge, Triangle.idx, Prod.mk.injEq] <;> norm_num <;> omega

/-- With valid indices the bound on the sides per edge need only be checked for pairs of
vertex indices below the vertex count. -/
theorem sideCount_le_of_bounded (nv : Nat) (faces : List Triangle)
    (hvalid : ValidIdx nv faces) (n : Nat)
    (h : ∀ a, a < nv → ∀ b, b < nv → sideCount a b faces ≤ n) (a b : Nat) :
    sideCount a b faces ≤ n := by
  by_cases ha : a < nv
  · by_cases hb : b < nv
    · exact h a ha b hb
    · rw [sideCount_eq_zero nv faces hvalid a b (Or.inr (by omega))]
      exact Nat.zero_le _
  · rw [sideCount_eq_zero nv faces hvalid a b (Or.inl (by omega))]
    exact Nat.zero_le _

/-- C21 (counterexample): the faces `(0,1,2)`, `(1,0,3)`, `(0,1,4)` over five vertices
have valid indices, no directed edge belongs to more than two of them (the directed
edge `(0, 1)` belongs to the first and the third, `(1, 0)` to the second), and the
faces around every vertex form a single cluster; yet `RemoveNonManifold` returns the
empty list.  The face list of the edge joining 0 and 1 holds all three faces, because
the key equality of the edge table disregards the direction. -/
theorem C21_counterexample :
    ValidIdx bowtieFive.length flippedFan ∧
    (∀ a b, (flippedFan.filter (hasDirectedEdge a b)).length ≤ 2) ∧
    (∀ v, SingleCluster flippedFan flippedFan v) ∧
    faceList (buildEdges flippedFan) (0, 1) = [0, 1, 2] ∧
    RemoveNonManifold bowtieFive flippedFan = some [] ∧
    RemoveNonManifold bowtieFive flippedFan ≠ some flippedFan := by
  refine ⟨by decide, ?_, ?_, by decide, by decide, by decide⟩
  · intro a b
    by_contra h
    have hle := List.length_filter_le (hasDirectedEdge a b) flippedFan
    have h3 : (flippedFan.filter (hasDirectedEdge a b)).length = flippedFan.length := by
      have : flippedFan.length = 3 := rfl
      omega
    have hall := List.filter_length_eq_length.1 h3
    have h0 := hall ⟨0, 1, 2⟩ (by simp [flippedFan])
    have h1 := hall ⟨1, 0, 3⟩ (by simp [flippedFan])
    simp only [hasDirectedEdge, Bool.or_eq_true, Bool.and_eq_true, beq_iff_eq] at h0 h1
    omega
  · intro v s hs t ht hsv htv
    have hstep : ∀ x ∈ flippedFan, ∀ y ∈ flippedFan, sharesEdge x y = true := by decide
    exact Relation.ReflTransGen.single ⟨hs, ht, hsv, htv, hstep s hs t ht⟩

/-- C21 (amended): for a vertex list and a triangle list with valid indices in which no
edge, taken without regard to direction, has more than 2 sides of faces on it (each
side of each face that joins the two endpoints counts once) and the faces around every
vertex form at most one edge-connected cluster, `RemoveNonManifold` returns the input
triangle list unchanged. -/
theorem C21_manifold_input_is_returned_unchanged (vertices : List Point_3)
    (faces : List Triangle) (_hvalid : ValidIdx vertices.length faces)
    (hedges : ∀ a b, sideCount a b faces ≤ 2)
    (hclus : ∀ v, v < vertices.length → SingleCluster faces faces v) :
    RemoveNonManifold vertices faces = some faces := by
  refine removeNonManifold_fixed vertices faces ?_ hclus
  rintro ⟨a, b⟩
  rw [length_incidences_eq_sideCount]
  exact hedges a b

/-- C21 (witness): two triangles that share the edge between the vertices 1 and 2, over
four vertices, are returned unchanged. -/
theorem C21_witness :
    ValidIdx tetraVertices.length [(⟨0, 1, 2⟩ : Triangle), ⟨2, 1, 3⟩] ∧
    (∀ a b, sideCount a b [(⟨0, 1, 2⟩ : Triangle), ⟨2, 1, 3⟩] ≤ 2) ∧
    RemoveNonManifold tetraVertices [(⟨0, 1, 2⟩ : Triangle), ⟨2, 1, 3⟩] =
      some [(⟨0, 1, 2⟩ : Triangle), ⟨2, 1, 3⟩] :=
  have hedges : ∀ a b, sideCount a b [(⟨0, 1, 2⟩ : Triangle), ⟨2, 1, 3⟩] ≤ 2 :=
    sideCount_le_of_bounded 4 _ (by decide) 2 (by decide)
  ⟨by decide, hedges,
    C21_manifold_input_is_returned_unchanged tetraVertices
      [(⟨0, 1, 2⟩ : Triangle), ⟨2, 1, 3⟩] (by decide) hedges
      (by
        intro v _ s hs t ht hsv htv
        have hstep : ∀ x ∈ [(⟨0, 1, 2⟩ : Triangle), ⟨2, 1, 3⟩],
            ∀ y ∈ [(⟨0, 1, 2⟩ : Triangle), ⟨2, 1, 3⟩], sharesEdge x y = true := by decide
        exact Relation.ReflTransGen.single ⟨hs, ht, hsv, htv, hstep s hs t ht⟩)⟩

end MeshFix
